import Mathlib

/-!
# Verification of the veusz `threed/objects.cpp` fragment-decomposition core

Shallow embedding of `src/veusz/helpers/src/threed/objects.cpp`.

Modelling choices, applied uniformly:

* A C++ `double` is modelled by `R := Option ℚ`: `some q` is a finite value,
  `none` is a non-finite value (NaN or infinity).  Arithmetic on finite values
  is exact rational arithmetic (no overflow), and any operation touching a
  non-finite value yields `none`; comparisons involving a non-finite value are
  false, as for NaN.  `isfinite` is `Option.isSome`.
* The geometry kernel (`Vec3`, `Vec4`, `Mat4`, `vec3to4`, `vec4to3`,
  `operator*`) is an external collaborator of this file (spec §1 "OUT OF
  SCOPE").  Every point in `objects.cpp` enters the transform pipeline as a
  `Vec4` with `w = 1` (via `vec3to4` or an explicit `1` in the fourth slot),
  so the accumulated map `p ↦ vec4to3(outerM * vec3to4 p)` is modelled as one
  abstract function `tr : Vec3 → Vec3`; an `ObjectContainer`'s local matrix
  becomes an abstract local map composed with `tr`.
* `std::vector<double>` (`ValVector`) is `List R`; raw indexing is modelled by
  a total lookup returning `none` (a non-finite junk value) out of range, and
  the packed-triple `LineSegments` constructor, whose in-bounds behaviour is
  itself under scrutiny, by an `Option`-valued reader that fails on any
  out-of-range access.
-/

/-- A C++ `double`: `some q` = finite value, `none` = NaN/Inf. -/
abbrev R : Type := Option ℚ

namespace R

/-- Lift a binary rational operation; non-finite absorbs (NaN semantics). -/
def lift2 (f : ℚ → ℚ → ℚ) : R → R → R
  | some a, some b => some (f a b)
  | _, _ => none

/-- Addition of doubles. -/
def add : R → R → R := lift2 (· + ·)

/-- Subtraction of doubles. -/
def sub : R → R → R := lift2 (· - ·)

/-- Multiplication of doubles. -/
def mul : R → R → R := lift2 (· * ·)

/-- `std::isfinite`. -/
def isfinite (a : R) : Bool := a.isSome

/-- Strict `<` on doubles: false whenever either side is non-finite (NaN). -/
def lt : R → R → Bool
  | some a, some b => decide (a < b)
  | _, _ => false

/-- `<=` on doubles: false whenever either side is non-finite (NaN). -/
def le : R → R → Bool
  | some a, some b => decide (a ≤ b)
  | _, _ => false

/-- Strict `>` on doubles. -/
def gt (a b : R) : Bool := lt b a

/-- Multiplication by the constant `0.5`. -/
def half (a : R) : R := a.map (fun q => (1/2 : ℚ) * q)

end R

/-- Total indexing into a `ValVector`: out-of-range reads give the junk
value `none` (non-finite). -/
def getR (l : List R) (i : ℕ) : R := (l.get? i).join

/-- The external geometry kernel's 3-vector. -/
structure Vec3 where
  x : R
  y : R
  z : R
deriving DecidableEq, Repr

namespace Vec3

/-- Component read, `v(i)` of the geometry kernel. -/
def get (v : Vec3) : ℕ → R
  | 0 => v.x
  | 1 => v.y
  | 2 => v.z
  | _ => none

/-- Component write, `v(i) = a` of the geometry kernel. -/
def set (v : Vec3) : ℕ → R → Vec3
  | 0, a => { v with x := a }
  | 1, a => { v with y := a }
  | 2, a => { v with z := a }
  | _, _ => v

/-- Componentwise addition. -/
def add (v w : Vec3) : Vec3 := ⟨R.add v.x w.x, R.add v.y w.y, R.add v.z w.z⟩

/-- Componentwise subtraction. -/
def sub (v w : Vec3) : Vec3 := ⟨R.sub v.x w.x, R.sub v.y w.y, R.sub v.z w.z⟩

/-- Scalar multiplication `v * s`. -/
def smul (v : Vec3) (s : R) : Vec3 := ⟨R.mul v.x s, R.mul v.y s, R.mul v.z s⟩

/-- `Vec3::isfinite()`: every component is finite. -/
def isfinite (v : Vec3) : Bool := v.x.isSome && v.y.isSome && v.z.isSome

/-- The zero vector (default-constructed `Vec3`). -/
def zero : Vec3 := ⟨some 0, some 0, some 0⟩

/-- Cross product of the geometry kernel. -/
def cross (a b : Vec3) : Vec3 :=
  ⟨R.sub (R.mul a.y b.z) (R.mul a.z b.y),
   R.sub (R.mul a.z b.x) (R.mul a.x b.z),
   R.sub (R.mul a.x b.y) (R.mul a.y b.x)⟩

end Vec3

/-- Fragment kinds (`Fragment::FragmentType`). -/
inductive FragType where
  | triangle
  | lineseg
  | path
deriving DecidableEq, Repr

/-- An output drawing primitive (`struct Fragment`).  Style pointers are
modelled by presence flags; the non-owning `object` back-reference and the
`params` block carry no data relevant to the verified claims and are
omitted. -/
structure Fragment where
  ftype : FragType
  p0 : Vec3 := Vec3.zero
  p1 : Vec3 := Vec3.zero
  p2 : Vec3 := Vec3.zero
  hasSurface : Bool := false
  hasLine : Bool := false
  index : ℤ := 0
  pathsize : R := some 1
deriving DecidableEq, Repr

-- Triangle
-----------

/-- `Triangle::getFragments`: one surface-styled triangle fragment from the
three stored points. -/
def triangleFragments (tr : Vec3 → Vec3) (pts : Vec3 × Vec3 × Vec3)
    (hasSurface : Bool) : List Fragment :=
  [{ ftype := .triangle
     p0 := tr pts.1, p1 := tr pts.2.1, p2 := tr pts.2.2
     hasSurface := hasSurface, hasLine := false }]

-- PolyLine
-----------

/-- `PolyLine::addPoints`: truncate the three coordinate arrays to the
shortest and zip into points. -/
def polyLineAddPoints (xs ys zs : List R) : List Vec3 :=
  (List.range (min xs.length (min ys.length zs.length))).map
    (fun i => ⟨getR xs i, getR ys i, getR zs i⟩)

/-- One step of the `PolyLine::getFragments` loop: shuffle the previous
projected point into `points[1]`, project the new point into `points[0]`,
and emit when past the first point and the two-point sum is finite. -/
def polyLineStep (tr : Vec3 → Vec3) (hasLine : Bool)
    (st : Vec3 × ℕ × List Fragment) (p : Vec3) : Vec3 × ℕ × List Fragment :=
  let prev := st.1
  let i := st.2.1
  let acc := st.2.2
  let cur := tr p
  let acc' :=
    if i > 0 && (cur.add prev).isfinite then
      acc ++ [{ ftype := .lineseg, p0 := cur, p1 := prev
                hasLine := hasLine, index := (i : ℤ) }]
    else acc
  (cur, i + 1, acc')

/-- `PolyLine::getFragments`. -/
def polyLineFragments (tr : Vec3 → Vec3) (points : List Vec3)
    (hasLine : Bool) : List Fragment :=
  (points.foldl (polyLineStep tr hasLine) (Vec3.zero, 0, [])).2.2

-- LineSegments
---------------

/-- `LineSegments::LineSegments` (six coordinate arrays): truncate to the
shortest of the six arrays and store an interleaved start/end point list. -/
def lineSegmentsCtor6 (x1 y1 z1 x2 y2 z2 : List R) : List Vec3 :=
  (List.range (min (min x1.length (min y1.length z1.length))
                   (min x2.length (min y2.length z2.length)))).flatMap
    (fun i => [⟨getR x1 i, getR y1 i, getR z1 i⟩,
               ⟨getR x2 i, getR y2 i, getR z2 i⟩])

/-- Read three consecutive elements `i, i+1, i+2`; fails (models an
out-of-bounds access) if any index is past the end of the array. -/
def packedRead (l : List R) (i : ℕ) : Option (R × R × R) := do
  let a ← l.get? i
  let b ← l.get? (i + 1)
  let c ← l.get? (i + 2)
  pure (a, b, c)

/-- Loop of the packed-triple `LineSegments` constructor
(`for(i=0; i<size; i+=3)`), with every raw element access checked: the
result is `none` iff some iteration reads past the end of an array. -/
def packedLoop (pts1 pts2 : List R) (size i : ℕ) : Option (List Vec3) :=
  if _h : i < size then do
    let (a1, b1, c1) ← packedRead pts1 i
    let (a2, b2, c2) ← packedRead pts2 i
    let rest ← packedLoop pts1 pts2 size (i + 3)
    pure (⟨a1, b1, c1⟩ :: ⟨a2, b2, c2⟩ :: rest)
  else
    pure []
termination_by size - i
decreasing_by omega

/-- `LineSegments::LineSegments` (two flattened packed-triple arrays),
with in-bounds checking of every element access. -/
def lineSegmentsCtorPacked (pts1 pts2 : List R) : Option (List Vec3) :=
  packedLoop pts1 pts2 (min pts1.length pts2.length) 0

/-- Total lookup of a stored point; out of range gives a junk non-finite
point (the C++ read would be out of bounds). -/
def getV (l : List Vec3) (i : ℕ) : Vec3 := l.getD i ⟨none, none, none⟩

/-- `LineSegments::getFragments`: one line fragment per stored pair, no
finiteness filtering.  The loop `for(i=0; i<s; i+=2)` runs `⌈s/2⌉` times. -/
def lineSegmentsFragments (tr : Vec3 → Vec3) (points : List Vec3)
    (hasLine : Bool) : List Fragment :=
  (List.range ((points.length + 1) / 2)).map (fun k =>
    { ftype := .lineseg
      p0 := tr (getV points (2 * k)), p1 := tr (getV points (2 * k + 1))
      hasLine := hasLine, index := 2 * (k : ℤ) })

-- Points
---------

/-- `Points::getFragments`: one path fragment per point, discarded when the
projected position is not finite. -/
def pointsFragments (tr : Vec3 → Vec3) (x y z sizes : List R)
    (hasLineEdge hasSurfaceFill : Bool) : List Fragment :=
  let size0 := min x.length (min y.length z.length)
  let hassizes := !sizes.isEmpty
  let size := if hassizes then min size0 sizes.length else size0
  (List.range size).filterMap (fun i =>
    let p := tr ⟨getR x i, getR y i, getR z i⟩
    if p.isfinite then
      some { ftype := .path, p0 := p
             hasSurface := hasSurfaceFill, hasLine := hasLineEdge
             index := (i : ℤ)
             pathsize := if hassizes then getR sizes i else some 1 }
    else none)

-- Text
-------

/-- `Text::getFragments`: one path fragment per stored position triple pair,
no finiteness filtering. -/
def textFragments (tr : Vec3 → Vec3) (pos1 pos2 : List R) : List Fragment :=
  let numitems := min pos1.length pos2.length / 3
  (List.range numitems).map (fun (i : ℕ) =>
    let base := i * 3
    { ftype := .path
      p0 := tr ⟨getR pos1 base, getR pos1 (base + 1), getR pos1 (base + 2)⟩
      p1 := tr ⟨getR pos2 base, getR pos2 (base + 1), getR pos2 (base + 2)⟩
      index := (i : ℤ) })

-- TriangleFacing
-----------------

/-- `TriangleFacing::getFragments`: cull unless the depth (z) component of
the transformed local normal exceeds that of the transformed local origin. -/
def triangleFacingFragments (tr : Vec3 → Vec3) (pts : Vec3 × Vec3 × Vec3)
    (hasSurface : Bool) : List Fragment :=
  let torigin := tr Vec3.zero
  let norm := Vec3.cross (pts.2.1.sub pts.1) (pts.2.2.sub pts.1)
  let tnorm := tr norm
  if R.gt (tnorm.get 2) (torigin.get 2) then
    triangleFragments tr pts hasSurface
  else []

-- Mesh
-------

/-- The height-axis selector of `Mesh`. -/
inductive Dirn where
  | x
  | y
  | z
deriving DecidableEq, Repr

/-- The data of a `Mesh` object. -/
structure MeshData where
  dirn : Dirn
  pos1 : List R
  pos2 : List R
  heights : List R
  hasLine : Bool
  hasSurface : Bool

/-- `Mesh::getVecIdxs`: vector component indices `(vidx_h, vidx_1, vidx_2)`
for the height, pos1 and pos2 directions. -/
def getVecIdxs : Dirn → ℕ × ℕ × ℕ
  | .x => (0, 1, 2)
  | .y => (1, 2, 0)
  | .z => (2, 0, 1)

/-- The point placed in the persistent `Vec4 pt` at position `stepi` of the
wireframe walk selected by `(stepindex, consti)`: fixed coordinate at
`vidx_const`, stepping coordinate at `vidx_step`, height at `vidx_h` (the
constant `w = 1` is absorbed into the abstract transform).  All three used
components of `pt` are rewritten on every inner iteration before
projection, so it is rebuilt functionally. -/
def meshWalkPt (m : MeshData) (stepindex consti stepi : ℕ) : Vec3 :=
  let idx3 := getVecIdxs m.dirn
  let vec_step := if stepindex = 0 then m.pos1 else m.pos2
  let vec_const := if stepindex = 0 then m.pos2 else m.pos1
  let vidx_step := if stepindex = 0 then idx3.2.1 else idx3.2.2
  let vidx_const := if stepindex = 0 then idx3.2.2 else idx3.2.1
  let heightsval := getR m.heights
    (if stepindex = 0 then stepi * m.pos2.length + consti
     else consti * m.pos2.length + stepi)
  ((Vec3.zero.set vidx_const (getR vec_const consti)).set
      vidx_step (getR vec_step stepi)).set idx3.1 heightsval

/-- The body of the inner loop of `Mesh::getLineFragments`: shuffle the old
projected point, project the walk point at `stepi`, and emit a segment when
past the walk's first point and the two-point sum is finite; the running
fragment sub-index `fl.index` always increments. -/
def meshLineBody (tr : Vec3 → Vec3) (pf : ℕ → Vec3)
    (st : Vec3 × ℤ × List Fragment) (stepi : ℕ) : Vec3 × ℤ × List Fragment :=
  let newpt := tr (pf stepi)
  let last := st.1
  let idx := st.2.1
  let acc := st.2.2
  let acc' :=
    if stepi > 0 && (newpt.add last).isfinite then
      acc ++ [{ ftype := .lineseg, p0 := newpt, p1 := last
                hasLine := true, index := idx }]
    else acc
  (newpt, idx + 1, acc')

/-- One direction of `Mesh::getLineFragments`: for every fixed coordinate
of the constant axis, walk the stepping axis. -/
def meshLineDirFold (tr : Vec3 → Vec3) (m : MeshData) (stepindex : ℕ)
    (st : Vec3 × ℤ × List Fragment) : Vec3 × ℤ × List Fragment :=
  let vec_step := if stepindex = 0 then m.pos1 else m.pos2
  let vec_const := if stepindex = 0 then m.pos2 else m.pos1
  (List.range vec_const.length).foldl (fun st consti =>
    (List.range vec_step.length).foldl
      (meshLineBody tr (meshWalkPt m stepindex consti)) st) st

/-- `Mesh::getLineFragments`: for both axis directions and every fixed
coordinate, walk the grid emitting connected segments. -/
def meshLineFragments (tr : Vec3 → Vec3) (m : MeshData) : List Fragment :=
  if !m.hasLine then [] else
  let final := [0, 1].foldl (fun st (stepindex : ℕ) =>
    meshLineDirFold tr m stepindex st)
    ((Vec3.zero, 0, []) : Vec3 × ℤ × List Fragment)
  final.2.2

/-- The fixed two-entry diagonal-split table `tidxs` of
`Mesh::getSurfaceFragments`: `tidxs parity tri` gives the three corner
indices of triangle `tri` of the split selected by `parity`. -/
def tidxs : ℕ → ℕ → ℕ × ℕ × ℕ
  | 0, 0 => (0, 1, 2)
  | 0, _ => (3, 1, 2)
  | _, 0 => (1, 0, 3)
  | _, _ => (2, 0, 3)

/-- The four (pre-projection) corner points of grid cell `(i1, i2)` of a
`Mesh`, indexed as in the source: `j1 = i1 + i % 2`, `j2 = i2 + i / 2`. -/
def meshCorner (m : MeshData) (vidxs : ℕ × ℕ × ℕ) (i1 i2 i : ℕ) : Vec3 :=
  let j1 := i1 + i % 2
  let j2 := i2 + i / 2
  ((Vec3.zero.set vidxs.1 (getR m.heights (j1 * m.pos2.length + j2))).set
      vidxs.2.1 (getR m.pos1 j1)).set vidxs.2.2 (getR m.pos2 j2)

/-- The body of the cell loop of `Mesh::getSurfaceFragments`: project the
four corners and append the two triangles of the split selected by
`(i1+i2) % 2`, each gated on the finiteness of the sum of its three
pre-projection corners; `fs.index` increments once per cell. -/
def meshSurfCellBody (tr : Vec3 → Vec3) (m : MeshData) (i1 : ℕ)
    (st : ℤ × List Fragment) (i2 : ℕ) : ℤ × List Fragment :=
  let p := fun i => meshCorner m (getVecIdxs m.dirn) i1 i2 i
  let cellfrags := (List.range 2).foldl (fun acc tri =>
    let ix := tidxs ((i1 + i2) % 2) tri
    if ((p ix.1).add ((p ix.2.1).add (p ix.2.2))).isfinite then
      acc ++ [{ ftype := .triangle
                p0 := tr (p ix.1), p1 := tr (p ix.2.1), p2 := tr (p ix.2.2)
                hasSurface := true, index := st.1 }]
    else acc) []
  (st.1 + 1, st.2 ++ cellfrags)

/-- `Mesh::getSurfaceFragments`. -/
def meshSurfaceFragments (tr : Vec3 → Vec3) (m : MeshData) : List Fragment :=
  if !m.hasSurface then [] else
  let final := (List.range (m.pos1.length - 1)).foldl (fun st i1 =>
    (List.range (m.pos2.length - 1)).foldl (meshSurfCellBody tr m i1) st)
    ((0, []) : ℤ × List Fragment)
  final.2

/-- `Mesh::getFragments`: lines then surface. -/
def meshFragments (tr : Vec3 → Vec3) (m : MeshData) : List Fragment :=
  meshLineFragments tr m ++ meshSurfaceFragments tr m

-- DataMesh
-----------

/-- `average4`: NaN-skipping average of up to four values (running total and
count of the finite contributors; an all-non-finite average is `0/0`,
i.e. NaN). -/
def average4 (a b c d : R) : R :=
  let s : ℚ × ℕ := (0, 0)
  let s := match a with | some q => (s.1 + q, s.2 + 1) | none => s
  let s := match b with | some q => (s.1 + q, s.2 + 1) | none => s
  let s := match c with | some q => (s.1 + q, s.2 + 1) | none => s
  let s := match d with | some q => (s.1 + q, s.2 + 1) | none => s
  if s.2 = 0 then none else some (s.1 / s.2)

/-- `average2`: NaN-skipping average of up to two values. -/
def average2 (a b : R) : R :=
  let s : ℚ × ℕ := (0, 0)
  let s := match a with | some q => (s.1 + q, s.2 + 1) | none => s
  let s := match b with | some q => (s.1 + q, s.2 + 1) | none => s
  if s.2 = 0 then none else some (s.1 / s.2)

/-- `MAXLINEIDX`. -/
def MAXLINEIDX : ℕ := 4

/-- `LineCellTracker`: which (cell-corner, sub-line) grid lines have already
been drawn.  `data` is the flat `char` vector of size `n1*n2*MAXLINEIDX`. -/
structure LineCellTracker where
  n1 : ℕ
  n2 : ℕ
  data : List Bool

/-- `LineCellTracker` constructor: all-clear flags. -/
def LineCellTracker.init (n1 n2 : ℕ) : LineCellTracker :=
  ⟨n1, n2, List.replicate (n1 * n2 * MAXLINEIDX) false⟩

/-- `LineCellTracker::setLine`. -/
def LineCellTracker.setLine (t : LineCellTracker) (i1 i2 lineidx : ℕ) :
    LineCellTracker :=
  { t with data := t.data.set ((i1 * t.n2 + i2) * MAXLINEIDX + lineidx) true }

/-- `LineCellTracker::isLineSet`. -/
def LineCellTracker.isLineSet (t : LineCellTracker) (i1 i2 lineidx : ℕ) :
    Bool :=
  t.data.getD ((i1 * t.n2 + i2) * MAXLINEIDX + lineidx) false

/-- The data of a `DataMesh` object. -/
structure DataMeshData where
  idxval : ℕ
  idxedge1 : ℕ
  idxedge2 : ℕ
  edges1 : List R
  edges2 : List R
  vals : List R
  highres : Bool
  hasLine : Bool
  hasSurface : Bool

/-- `trilist_highres`: 8-triangle fan from the centre point. -/
def trilist_highres : ℕ → ℕ × ℕ × ℕ
  | 0 => (8, 0, 1) | 1 => (8, 1, 2) | 2 => (8, 2, 3) | 3 => (8, 3, 4)
  | 4 => (8, 4, 5) | 5 => (8, 5, 6) | 6 => (8, 6, 7) | _ => (8, 7, 0)

/-- `trilist_lowres1`: first low-resolution diagonal split. -/
def trilist_lowres1 : ℕ → ℕ × ℕ × ℕ
  | 0 => (0, 2, 4) | _ => (0, 6, 4)

/-- `trilist_lowres2`: second low-resolution diagonal split. -/
def trilist_lowres2 : ℕ → ℕ × ℕ × ℕ
  | 0 => (2, 0, 6) | _ => (2, 4, 6)

/-- `linelist_lowres`: corner-index pairs of the 4 low-resolution lines. -/
def linelist_lowres : ℕ → ℕ × ℕ
  | 0 => (0, 2) | 1 => (0, 6) | 2 => (4, 2) | _ => (4, 6)

/-- `linelist_highres`: corner-index pairs of the 8 high-resolution lines. -/
def linelist_highres : ℕ → ℕ × ℕ
  | 0 => (0, 1) | 1 => (1, 2) | 2 => (2, 3) | 3 => (3, 4)
  | 4 => (4, 5) | 5 => (5, 6) | 6 => (6, 7) | _ => (7, 0)

/-- `linecell_lowres`: dedup keys `(xidx, yidx, lineidx)` of the 4
low-resolution lines. -/
def linecell_lowres : ℕ → ℕ × ℕ × ℕ
  | 0 => (0, 0, 0) | 1 => (0, 0, 1) | 2 => (0, 1, 0) | _ => (1, 0, 1)

/-- `linecell_highres`: dedup keys of the 8 high-resolution lines. -/
def linecell_highres : ℕ → ℕ × ℕ × ℕ
  | 0 => (0, 0, 0) | 1 => (0, 0, 1) | 2 => (1, 0, 2) | 3 => (1, 0, 3)
  | 4 => (0, 1, 1) | 5 => (0, 1, 0) | 6 => (0, 0, 3) | _ => (0, 0, 2)

/-- The ascending integer list `0, 1, …, n-1` (`for(int i=0; i<n; ++i)`);
empty when `n ≤ 0`. -/
def intRange (n : ℤ) : List ℤ := (List.range n.toNat).map (Int.ofNat ·)

/-- Signed indexing into a `ValVector` (non-negative in-range reads hit the
array, anything else is junk). -/
def getRZ (l : List R) (i : ℤ) : R := if i < 0 then none else getR l i.toNat

/-- The clipped 3×3 neighbourhood value `neigh[k]` of cell `(i1, i2)`:
`k = (d1+1)*3 + (d2+1)` with `d1, d2 ∈ {-1,0,1}`. -/
def dmNeigh (vals : List R) (n1 n2 i1 i2 : ℤ) (k : ℕ) : R :=
  let d1 : ℤ := (k : ℤ) / 3 - 1
  let d2 : ℤ := (k : ℤ) % 3 - 1
  let clip1 := max (min (i1 + d1) (n1 - 1)) 0
  let clip2 := max (min (i2 + d2) (n2 - 1)) 0
  getRZ vals (clip1 * n2 + clip2)

/-- The interpolated height value and the two edge coordinates of
`corners[j]` of cell `(i1, i2)`: clockwise corners and edge centres from
the top left, then the cell centre. -/
def dmCornerVals (dm : DataMeshData) (n1 n2 i1 i2 : ℤ) (j : ℕ) : R × R × R :=
  let ngh := dmNeigh dm.vals n1 n2 i1 i2
  let e1a := getRZ dm.edges1 i1
  let e1b := getRZ dm.edges1 (i1 + 1)
  let e2a := getRZ dm.edges2 i2
  let e2b := getRZ dm.edges2 (i2 + 1)
  let mid1 := R.half (R.add e1a e1b)
  let mid2 := R.half (R.add e2a e2b)
  match j with
  | 0 => (average4 (ngh 0) (ngh 3) (ngh 4) (ngh 1), e1a, e2a)
  | 1 => (average2 (ngh 4) (ngh 3), mid1, e2a)
  | 2 => (average4 (ngh 3) (ngh 6) (ngh 7) (ngh 4), e1b, e2a)
  | 3 => (average2 (ngh 4) (ngh 7), e1b, mid2)
  | 4 => (average4 (ngh 4) (ngh 7) (ngh 8) (ngh 5), e1b, e2b)
  | 5 => (average2 (ngh 4) (ngh 5), mid1, e2b)
  | 6 => (average4 (ngh 1) (ngh 4) (ngh 5) (ngh 2), e1a, e2b)
  | 7 => (average2 (ngh 4) (ngh 1), e1a, mid2)
  | _ => (ngh 4, mid1, mid2)

/-- The 4D corner point `corners[j]` (with its constant `w = 1` dropped):
height at component `idxval`, edge coordinates at components `idxedge1`
and `idxedge2`. -/
def dmCorner (dm : DataMeshData) (n1 n2 i1 i2 : ℤ) (j : ℕ) : Vec3 :=
  let cv := dmCornerVals dm n1 n2 i1 i2 j
  ((Vec3.zero.set dm.idxval cv.1).set dm.idxedge1 cv.2.1).set
    dm.idxedge2 cv.2.2

/-- The surface triangles of one `DataMesh` cell: a triangle per entry of
the resolution's triangle table (the low-resolution split alternating with
`(i1+i2) % 2`), with no finiteness filter. -/
def dmTriFrags (tr : Vec3 → Vec3) (dm : DataMeshData) (n1 n2 i1 i2 : ℤ) :
    List Fragment :=
  let c3 : ℕ → Vec3 := fun j => tr (dmCorner dm n1 n2 i1 i2 j)
  let tris := if dm.highres then trilist_highres
    else if (i1 + i2) % 2 = 0 then trilist_lowres1 else trilist_lowres2
  (List.range (if dm.highres then 8 else 2)).map (fun i =>
    { ftype := .triangle
      p0 := c3 (tris i).1, p1 := c3 (tris i).2.1, p2 := c3 (tris i).2.2
      hasSurface := true, index := i1 * n2 + i2 })

/-- One line entry of one `DataMesh` cell: if the dedup tracker has not yet
recorded the line's key, append the segment when both projected endpoints
are finite, and record the key regardless. -/
def dmLineBody (tr : Vec3 → Vec3) (dm : DataMeshData) (n1 n2 i1 i2 : ℤ)
    (st : LineCellTracker × List Fragment) (i : ℕ) :
    LineCellTracker × List Fragment :=
  let lines := if dm.highres then linelist_highres else linelist_lowres
  let linecells := if dm.highres then linecell_highres else linecell_lowres
  let c3 : ℕ → Vec3 := fun j => tr (dmCorner dm n1 n2 i1 i2 j)
  let lc := linecells i
  let k1 := (i1 + (lc.1 : ℤ)).toNat
  let k2 := (i2 + (lc.2.1 : ℤ)).toNat
  if !(st.1.isLineSet k1 k2 lc.2.2) then
    let q0 := c3 (lines i).1
    let q1 := c3 (lines i).2
    let acc' :=
      if q0.isfinite && q1.isfinite then
        st.2 ++ [{ ftype := .lineseg, p0 := q0, p1 := q1
                   hasLine := true, index := i1 * n2 + i2 }]
      else st.2
    (st.1.setLine k1 k2 lc.2.2, acc')
  else st

/-- The body of the `DataMesh` per-cell loop: skip non-finite cell values,
append the surface triangles from the resolution's triangle table, then
append each not-yet-drawn line from the resolution's line table. -/
def dmProcessCell (tr : Vec3 → Vec3) (dm : DataMeshData) (n1 n2 i1 i2 : ℤ)
    (st : LineCellTracker × List Fragment) : LineCellTracker × List Fragment :=
  if !(getRZ dm.vals (i1 * n2 + i2)).isfinite then st else
  let frags1 :=
    if dm.hasSurface then st.2 ++ dmTriFrags tr dm n1 n2 i1 i2 else st.2
  if dm.hasLine then
    (List.range (if dm.highres then 8 else 4)).foldl
      (dmLineBody tr dm n1 n2 i1 i2) (st.1, frags1)
  else (st.1, frags1)

/-- The role-index check of `DataMesh::getFragments`: each of the slots
`found[0..2]` is set by any of the three indices that is `<= 2`, and all
three must end up set. -/
def dmFoundOk (a b c : ℕ) : Bool :=
  [a, b, c].any (fun ix => ix ≤ 2 && ix == 0) &&
  ([a, b, c].any (fun ix => ix ≤ 2 && ix == 1) &&
   [a, b, c].any (fun ix => ix ≤ 2 && ix == 2))

/-- `DataMesh::getFragments`: role-index and size validation (diagnostics
returned as the second component), early exit when there is nothing to
draw, then the row-major loop over cells. -/
def dataMeshRun (tr : Vec3 → Vec3) (dm : DataMeshData) :
    List Fragment × Option String :=
  if !dmFoundOk dm.idxval dm.idxedge1 dm.idxedge2 then
    ([], some "DataMesh: invalid indices")
  else if ((dm.edges1.length : ℤ) - 1) * ((dm.edges2.length : ℤ) - 1)
      ≠ (dm.vals.length : ℤ) then
    ([], some "DataMesh: invalid size")
  else if !dm.hasLine && !dm.hasSurface then
    ([], none)
  else
    let n1 : ℤ := (dm.edges1.length : ℤ) - 1
    let n2 : ℤ := (dm.edges2.length : ℤ) - 1
    let tracker0 := LineCellTracker.init dm.edges1.length dm.edges2.length
    let final := (intRange n1).foldl (fun st i1 =>
      (intRange n2).foldl (fun st i2 => dmProcessCell tr dm n1 n2 i1 i2 st) st)
      (tracker0, [])
    (final.2, none)

-- AxisTickLabels
-----------------

/-- A projected 2D point. -/
abbrev Vec2 : Type := R × R

/-- Modelled from the spec: `vec3to2`, the geometry kernel's 3D→2D
projection (spec §4.6: "Project every candidate axis edge to 2D"); the
screen plane is the x/y plane, z being the depth axis. -/
def vec3to2 (v : Vec3) : Vec2 := (v.x, v.y)

/-- 2D cross product (signed area), used by the crossing test. -/
def cross2 (a b : Vec2) : R := R.sub (R.mul a.1 b.2) (R.mul a.2 b.1)

/-- 2D difference. -/
def sub2 (a b : Vec2) : Vec2 := (R.sub a.1 b.1, R.sub a.2 b.2)

/-- Modelled from the spec: `twodLineIntersect(a,b,c,d) == LINE_CROSS` of
the missing `twod.cpp` (spec §4.6 step 3: "line–segment-vs-segment crossing
test, strict crossing only, not touching"): the segments properly cross,
each one's endpoints lying strictly on opposite sides of the other's
line. -/
def twodLineCross (a b c d : Vec2) : Bool :=
  R.lt (R.mul (cross2 (sub2 b a) (sub2 c a)) (cross2 (sub2 b a) (sub2 d a)))
      (some 0) &&
  R.lt (R.mul (cross2 (sub2 d c) (sub2 a c)) (cross2 (sub2 d c) (sub2 b c)))
      (some 0)

/-- `AxisTickLabels::faceOverlap`: does the 2D line cross one of the four
boundary edges of the 2D face? -/
def faceOverlap (l0 l1 : Vec2) (f : ℕ → Vec2) : Bool :=
  [0, 1, 2, 3].any (fun edge => twodLineCross l0 l1 (f edge) (f ((edge + 1) % 4)))

/-- The data of an `AxisTickLabels` object. -/
structure AxisData where
  box1 : Vec3
  box2 : Vec3
  starts : List Vec3
  ends : List Vec3
  tickfracs : List R

/-- The projected cube corner `scenecorners[k]`, `k = i2 + i1*2 + i0*4`:
corner `(boxpts[i0].x, boxpts[i1].y, boxpts[i2].z)` under the transform. -/
def atlSceneCorner (tr : Vec3 → Vec3) (a : AxisData) (k : ℕ) : Vec3 :=
  let pick := fun (b : ℕ) => if b = 0 then a.box1 else a.box2
  tr ⟨(pick (k / 4)).x, (pick (k % 4 / 2)).y, (pick (k % 2)).z⟩

/-- The fixed corner-index table `faces` of the six cube faces. -/
def atlFace : ℕ → ℕ × ℕ × ℕ × ℕ
  | 0 => (0, 1, 3, 2) | 1 => (4, 5, 7, 6) | 2 => (0, 1, 5, 4)
  | 3 => (2, 3, 7, 6) | 4 => (0, 4, 6, 2) | _ => (1, 5, 7, 3)

/-- Does candidate axis edge `axis` 2D-overlap some cube face (the loop over
the six faces)? -/
def atlOverlap (tr : Vec3 → Vec3) (a : AxisData) (axis : ℕ) : Bool :=
  let l0 := vec3to2 (tr (getV a.starts axis))
  let l1 := vec3to2 (tr (getV a.ends axis))
  (List.range 6).any (fun face =>
    let fi := atlFace face
    let fp : ℕ → Vec2 := fun e =>
      vec3to2 (atlSceneCorner tr a
        (match e with
         | 0 => fi.1
         | 1 => fi.2.1
         | 2 => fi.2.2.1
         | _ => fi.2.2.2))
    faceOverlap l0 l1 fp)

/-- The surviving axis choices `axchoices` (in order), before the
all-viable fallback. -/
def atlSurviving (tr : Vec3 → Vec3) (a : AxisData) : List ℕ :=
  let numentries := min a.starts.length a.ends.length
  (List.range numentries).filter (fun axis => !atlOverlap tr a axis)

/-- `axchoices` after the fallback: if none survive, all candidates. -/
def atlChoices (tr : Vec3 → Vec3) (a : AxisData) : List ℕ :=
  let numentries := min a.starts.length a.ends.length
  let s := atlSurviving tr a
  if s.isEmpty then List.range numentries else s

/-- The approximate cube centre: the unweighted mean of the eight projected
corners, one coordinate at a time. -/
def atlCentre (tr : Vec3 → Vec3) (a : AxisData) : R × R × R :=
  let mean := fun (c : Vec3 → R) =>
    R.mul ((List.range 8).foldl
      (fun acc k => R.add acc (c (atlSceneCorner tr a k))) (some 0))
      (some (1/8))
  (mean Vec3.x, mean Vec3.y, mean Vec3.z)

/-- The integer score of a candidate axis: `(avx <= centx)*10 +
(avy > centy)*11 + (avz > centz)*12`, the projected midpoint against the
cube centre. -/
def atlScore (tr : Vec3 → Vec3) (a : AxisData) (axis : ℕ) : ℤ :=
  let cent := atlCentre tr a
  let s := tr (getV a.starts axis)
  let e := tr (getV a.ends axis)
  let avx := R.half (R.add s.x e.x)
  let avy := R.half (R.add s.y e.y)
  let avz := R.half (R.add s.z e.z)
  (if R.le avx cent.1 then 10 else 0) +
  (if R.gt avy cent.2.1 then 11 else 0) +
  (if R.gt avz cent.2.2 then 12 else 0)

/-- The selection loop: running `(bestscore, bestaxis)` from `(-1, 0)`,
strictly improving scores win, so the first choice attaining the maximum
is kept. -/
def atlBestAxis (tr : Vec3 → Vec3) (a : AxisData) : ℕ :=
  ((atlChoices tr a).foldl (fun (best : ℤ × ℕ) choice =>
    if atlScore tr a choice > best.1 then (atlScore tr a choice, choice)
    else best) (-1, 0)).2

/-- The tick emission of `AxisTickLabels::getFragments`: one path fragment
per tick fraction along edge `bestaxis`, the second point offset by the
fixed fraction `1e-3` (exact `1/1000` in this rational model). -/
def atlTicks (tr : Vec3 → Vec3) (a : AxisData) (bestaxis : ℕ) :
    List Fragment :=
  let axstart := getV a.starts bestaxis
  let delta := (getV a.ends bestaxis).sub axstart
  (List.range a.tickfracs.length).map (fun i =>
    { ftype := .path
      p0 := tr (axstart.add (delta.smul (getR a.tickfracs i)))
      p1 := tr (axstart.add (delta.smul (R.add (getR a.tickfracs i)
              (some (1/1000)))))
      index := (i : ℤ) })

/-- `AxisTickLabels::getFragments`: empty when there are no candidate
edges, otherwise the ticks of the selected edge. -/
def axisTickLabelsFragments (tr : Vec3 → Vec3) (a : AxisData) :
    List Fragment :=
  let numentries := min a.starts.length a.ends.length
  if numentries = 0 then [] else
  atlTicks tr a (atlBestAxis tr a)

-- Object hierarchy (containers and dispatch)
---------------------------------------------

/-- The polymorphic scene-object hierarchy.  A container's local `Mat4`
becomes an abstract local point map composed onto the accumulated
transform. -/
inductive Obj where
  | triangleObj (pts : Vec3 × Vec3 × Vec3) (hasSurface : Bool)
  | triangleFacingObj (pts : Vec3 × Vec3 × Vec3) (hasSurface : Bool)
  | polyLineObj (points : List Vec3) (hasLine : Bool)
  | lineSegmentsObj (points : List Vec3) (hasLine : Bool)
  | pointsObj (x y z sizes : List R) (hasLineEdge hasSurfaceFill : Bool)
  | textObj (pos1 pos2 : List R)
  | meshObj (m : MeshData)
  | dataMeshObj (dm : DataMeshData)
  | axisTickLabelsObj (a : AxisData)
  | container (objM : Vec3 → Vec3) (children : List Obj)
  | facingContainer (norm : Vec3) (objM : Vec3 → Vec3) (children : List Obj)

mutual

/-- `Object::getFragments` virtual dispatch.  `ObjectContainer` composes its
local transform and recurses in order; `FacingContainer` first applies the
facing test to the transformed normal and origin. -/
def Obj.getFragments (tr : Vec3 → Vec3) : Obj → List Fragment
  | .triangleObj pts hasSurface => triangleFragments tr pts hasSurface
  | .triangleFacingObj pts hasSurface => triangleFacingFragments tr pts hasSurface
  | .polyLineObj points hasLine => polyLineFragments tr points hasLine
  | .lineSegmentsObj points hasLine => lineSegmentsFragments tr points hasLine
  | .pointsObj x y z sizes hl hs => pointsFragments tr x y z sizes hl hs
  | .textObj pos1 pos2 => textFragments tr pos1 pos2
  | .meshObj m => meshFragments tr m
  | .dataMeshObj dm => (dataMeshRun tr dm).1
  | .axisTickLabelsObj a => axisTickLabelsFragments tr a
  | .container objM children =>
      Obj.getFragmentsList (fun p => tr (objM p)) children
  | .facingContainer norm objM children =>
      if R.gt ((tr norm).get 2) ((tr Vec3.zero).get 2) then
        Obj.getFragmentsList (fun p => tr (objM p)) children
      else []

/-- `ObjectContainer::getFragments` child loop. -/
def Obj.getFragmentsList (tr : Vec3 → Vec3) : List Obj → List Fragment
  | [] => []
  | o :: os => Obj.getFragments tr o ++ Obj.getFragmentsList tr os

end

-- Specification-level helper definitions used in claim statements
------------------------------------------------------------------

/-- The spec's valid role-index configurations: the three indices are a
permutation covering `{0,1,2}` exactly once each. -/
def isRolePerm (a b c : ℕ) : Prop :=
  (a = 0 ∧ b = 1 ∧ c = 2) ∨ (a = 0 ∧ b = 2 ∧ c = 1) ∨
  (a = 1 ∧ b = 0 ∧ c = 2) ∨ (a = 1 ∧ b = 2 ∧ c = 0) ∨
  (a = 2 ∧ b = 0 ∧ c = 1) ∨ (a = 2 ∧ b = 1 ∧ c = 0)

instance (a b c : ℕ) : Decidable (isRolePerm a b c) := by
  unfold isRolePerm; infer_instance

/-- The number of consecutive point pairs of a point list in which either
projected endpoint is non-finite (the spec's skipped-segment count). -/
def badPairs (tr : Vec3 → Vec3) : List Vec3 → ℕ
  | p :: q :: rest =>
      (if !(tr p).isfinite || !(tr q).isfinite then 1 else 0) +
        badPairs tr (q :: rest)
  | _ => 0

/-- The projected chain of line fragments emitted while walking a point
list: `prev` is the previously projected point, `idx` the running fragment
sub-index; a segment is emitted exactly when the sum of its two projected
endpoints is finite. -/
def chainFrags (tr : Vec3 → Vec3) (hl : Bool) : Vec3 → ℤ → List Vec3 →
    List Fragment
  | _, _, [] => []
  | prev, idx, p :: rest =>
      let cur := tr p
      (if (cur.add prev).isfinite then
        [{ ftype := .lineseg, p0 := cur, p1 := prev
           hasLine := hl, index := idx }]
      else []) ++ chainFrags tr hl cur (idx + 1) rest

/-- The skipped-segment count of a projected chain: `prev` is the already
projected previous point; a step is skipped when the sum of the new
projected point and `prev` is not finite. -/
def badCount (tr : Vec3 → Vec3) : Vec3 → List Vec3 → ℕ
  | _, [] => 0
  | prev, p :: rest =>
      (if ((tr p).add prev).isfinite then 0 else 1) + badCount tr (tr p) rest

/-- The point list of one fixed-coordinate wireframe walk of a `Mesh`. -/
def meshWalkPts (m : MeshData) (stepindex consti : ℕ) : List Vec3 :=
  let vec_step := if stepindex = 0 then m.pos1 else m.pos2
  (List.range vec_step.length).map (meshWalkPt m stepindex consti)

/-- The first element of a list attaining the maximal value of `f`
(a later element replaces the current best only with a strictly greater
value). -/
def firstMaxBy (f : ℕ → ℤ) : List ℕ → Option ℕ
  | [] => none
  | c :: rest =>
      match firstMaxBy f rest with
      | none => some c
      | some m => if f m > f c then some m else some c

/-- One grid cell's triangles as the spec describes them: the two triangles
of the diagonal split selected by `(i1+i2) mod 2`, each emitted exactly
when its three contributing pre-projection corner points are finite. -/
def meshCellTris (tr : Vec3 → Vec3) (m : MeshData) (i1 i2 : ℕ) (ix : ℤ) :
    List Fragment :=
  let P := meshCorner m (getVecIdxs m.dirn) i1 i2
  let tri : ℕ → List Fragment := fun t =>
    let c := tidxs ((i1 + i2) % 2) t
    if (P c.1).isfinite && ((P c.2.1).isfinite && (P c.2.2).isfinite) then
      [{ ftype := .triangle
         p0 := tr (P c.1), p1 := tr (P c.2.1), p2 := tr (P c.2.2)
         hasSurface := true, index := ix }]
    else []
  tri 0 ++ tri 1

/-- The spec-level `Mesh` surface tessellation: every unit cell in
row-major order contributes its `meshCellTris`. -/
def meshSurfaceSpec (tr : Vec3 → Vec3) (m : MeshData) : List Fragment :=
  (List.range (m.pos1.length - 1)).flatMap (fun i1 =>
    (List.range (m.pos2.length - 1)).flatMap (fun i2 =>
      meshCellTris tr m i1 i2 ((i1 * (m.pos2.length - 1) + i2 : ℕ) : ℤ)))

-- DataMesh line-dedup vocabulary (for the shared-edge claims)
--------------------------------------------------------------


/-- The in-plane (edge1, edge2) coordinates of a pre-projection point. -/
def dmInplane (dm : DataMeshData) (P : Vec3) : R × R :=
  (P.get dm.idxedge1, P.get dm.idxedge2)

/-- Unordered equality of two pairs. -/
def pairEqUnordered {α : Type} (p q : α × α) : Prop :=
  (p.1 = q.1 ∧ p.2 = q.2) ∨ (p.1 = q.2 ∧ p.2 = q.1)


/-- Two line fragments have identical endpoint pairs (in either order). -/
def sameSegment (f g : Fragment) : Prop :=
  (f.p0 = g.p0 ∧ f.p1 = g.p1) ∨ (f.p0 = g.p1 ∧ f.p1 = g.p0)

-- Generic first-occurrence dedup machinery
---------------------------------------------

/-- First non-`none` value of `f` along a list. -/

def listFirst {α β : Type} (f : α → Option β) : List α → Option β
  | [] => none
  | a :: l => match f a with | some b => some b | none => listFirst f l

/-- The payload of the first entry of an association list with the given
key. -/

def keyFirst {κ α : Type} [DecidableEq κ] (xs : List (κ × α)) (k : κ) :
    Option α :=
  listFirst (fun t => if t.1 = k then some t.2 else none) xs

/-- The generic dedup process underlying the `DataMesh` line tracker: walk
the entries in order, emit an entry's payload exactly when its key has not
been seen, and mark the key. -/

def dedupRun {κ α : Type} [DecidableEq κ] : List (κ × α) → List κ → List α
  | [], _ => []
  | (k, a) :: rest, seen =>
      if k ∈ seen then dedupRun rest seen
      else a :: dedupRun rest (k :: seen)

/-- The seen-key set after running the dedup process. -/

def dedupSeen {κ α : Type} [DecidableEq κ] : List (κ × α) → List κ → List κ
  | [], seen => seen
  | (k, _) :: rest, seen =>
      if k ∈ seen then dedupSeen rest seen
      else dedupSeen rest (k :: seen)

-- DataMesh line-table entries

------------------------------

/-- The dedup key (tracker cell and sub-line index) consulted by the line
loop for line `i` of cell `(i1, i2)`. -/

def dmKeyZ (hr : Bool) (i1 i2 : ℤ) (i : ℕ) : ℕ × ℕ × ℕ :=
  let lc := (if hr then linecell_highres else linecell_lowres) i
  ((i1 + (lc.1 : ℤ)).toNat, (i2 + (lc.2.1 : ℤ)).toNat, lc.2.2)

/-- The line fragment built for line `i` of cell `(i1, i2)`. -/

def dmFrag (tr : Vec3 → Vec3) (dm : DataMeshData) (n1 n2 i1 i2 : ℤ)
    (i : ℕ) : Fragment :=
  let lines := if dm.highres then linelist_highres else linelist_lowres
  { ftype := .lineseg
    p0 := tr (dmCorner dm n1 n2 i1 i2 (lines i).1)
    p1 := tr (dmCorner dm n1 n2 i1 i2 (lines i).2)
    hasLine := true, index := i1 * n2 + i2 }

/-- The in-plane (edge1, edge2) endpoint pair of line `i` of cell
`(i1, i2)`. -/

def dmLineSeg (dm : DataMeshData) (n1 n2 i1 i2 : ℤ) (i : ℕ) :
    (R × R) × (R × R) :=
  let lines := if dm.highres then linelist_highres else linelist_lowres
  (dmInplane dm (dmCorner dm n1 n2 i1 i2 (lines i).1),
   dmInplane dm (dmCorner dm n1 n2 i1 i2 (lines i).2))

/-- The (key, segment, fragment) entries of one cell's line loop, in loop
order. -/

def dmCellEntries (tr : Vec3 → Vec3) (dm : DataMeshData) (n1 n2 i1 i2 : ℤ) :
    List ((ℕ × ℕ × ℕ) × (((R × R) × (R × R)) × Fragment)) :=
  (List.range (if dm.highres then 8 else 4)).map (fun i =>
    (dmKeyZ dm.highres i1 i2 i,
     dmLineSeg dm n1 n2 i1 i2 i, dmFrag tr dm n1 n2 i1 i2 i))

/-- All line-table entries of the grid, in traversal order. -/

def dmEntries (tr : Vec3 → Vec3) (dm : DataMeshData) (n1 n2 : ℤ) :
    List ((ℕ × ℕ × ℕ) × (((R × R) × (R × R)) × Fragment)) :=
  (intRange n1).flatMap (fun i1 =>
    (intRange n2).flatMap (fun i2 => dmCellEntries tr dm n1 n2 i1 i2))

/-- A dedup key addresses a tracker slot in range. -/

def dmKeyValid (N1 N2 : ℕ) (k : ℕ × ℕ × ℕ) : Prop :=
  k.1 < N1 ∧ k.2.1 < N2 ∧ k.2.2 < MAXLINEIDX

/-- The tracker state holds exactly the keys of a seen-set. -/

def trackerRep (N1 N2 : ℕ) (t : LineCellTracker)
    (seen : List (ℕ × ℕ × ℕ)) : Prop :=
  t.n1 = N1 ∧ t.n2 = N2 ∧ t.data.length = N1 * N2 * MAXLINEIDX ∧
  ∀ k : ℕ × ℕ × ℕ, dmKeyValid N1 N2 k →
    (t.isLineSet k.1 k.2.1 k.2.2 = true ↔ k ∈ seen)

/-- A fully regular finite `DataMesh` grid as in the claim: valid role
indices, strictly increasing finite edge arrays, matching value-array
size, all cell values finite, and a line style present. -/

structure DMregular (dm : DataMeshData) (e1 e2 : List ℚ) : Prop where
  perm : isRolePerm dm.idxval dm.idxedge1 dm.idxedge2
  he1 : dm.edges1 = e1.map some
  he2 : dm.edges2 = e2.map some
  hs1 : e1.Pairwise (· < ·)
  hs2 : e2.Pairwise (· < ·)
  hsize : ((dm.edges1.length : ℤ) - 1) * ((dm.edges2.length : ℤ) - 1)
            = (dm.vals.length : ℤ)
  hvals : ∀ v ∈ dm.vals, v.isSome = true
  hline : dm.hasLine = true

-- In-plane coordinates of the cell corners

-------------------------------------------

/-- Grid coordinate `edges1[j]`. -/

def dmE1 (dm : DataMeshData) (j : ℕ) : R := getR dm.edges1 j

/-- Grid coordinate `edges2[j]`. -/

def dmE2 (dm : DataMeshData) (j : ℕ) : R := getR dm.edges2 j

/-- Midpoint `0.5*(edges1[j]+edges1[j+1])`. -/

def dmM1 (dm : DataMeshData) (j : ℕ) : R :=
  R.half (R.add (dmE1 dm j) (dmE1 dm (j + 1)))

/-- Midpoint `0.5*(edges2[j]+edges2[j+1])`. -/

def dmM2 (dm : DataMeshData) (j : ℕ) : R :=
  R.half (R.add (dmE2 dm j) (dmE2 dm (j + 1)))

/-- The in-plane coordinate pair of corner `j` of cell `(a, b)`. -/

def cornerCoord (dm : DataMeshData) (a b : ℕ) : ℕ → R × R
  | 0 => (dmE1 dm a, dmE2 dm b)
  | 1 => (dmM1 dm a, dmE2 dm b)
  | 2 => (dmE1 dm (a + 1), dmE2 dm b)
  | 3 => (dmE1 dm (a + 1), dmM2 dm b)
  | 4 => (dmE1 dm (a + 1), dmE2 dm (b + 1))
  | 5 => (dmM1 dm a, dmE2 dm (b + 1))
  | 6 => (dmE1 dm a, dmE2 dm (b + 1))
  | 7 => (dmE1 dm a, dmM2 dm b)
  | _ => (dmM1 dm a, dmM2 dm b)

-- The geometric grid edges of the line tables

----------------------------------------------

/-- Full dir-1 grid edge at grid position `(a, b)`. -/

def segH (dm : DataMeshData) (a b : ℕ) : (R × R) × (R × R) :=
  ((dmE1 dm a, dmE2 dm b), (dmE1 dm (a + 1), dmE2 dm b))

/-- Full dir-2 grid edge at grid position `(a, b)`. -/

def segV (dm : DataMeshData) (a b : ℕ) : (R × R) × (R × R) :=
  ((dmE1 dm a, dmE2 dm b), (dmE1 dm a, dmE2 dm (b + 1)))

/-- First half of the dir-1 edge at `(a, b)`. -/

def segH1 (dm : DataMeshData) (a b : ℕ) : (R × R) × (R × R) :=
  ((dmE1 dm a, dmE2 dm b), (dmM1 dm a, dmE2 dm b))

/-- Second half of the dir-1 edge at `(a, b)`. -/

def segH2 (dm : DataMeshData) (a b : ℕ) : (R × R) × (R × R) :=
  ((dmM1 dm a, dmE2 dm b), (dmE1 dm (a + 1), dmE2 dm b))

/-- First half of the dir-2 edge at `(a, b)`. -/

def segV1 (dm : DataMeshData) (a b : ℕ) : (R × R) × (R × R) :=
  ((dmE1 dm a, dmE2 dm b), (dmE1 dm a, dmM2 dm b))

/-- Second half of the dir-2 edge at `(a, b)`. -/

def segV2 (dm : DataMeshData) (a b : ℕ) : (R × R) × (R × R) :=
  ((dmE1 dm a, dmM2 dm b), (dmE1 dm a, dmE2 dm (b + 1)))

/-- The geometric edge drawn by low-resolution line `i` of cell `(a, b)`
(canonical orientation). -/

def loEdge (dm : DataMeshData) (a b : ℕ) : ℕ → (R × R) × (R × R)
  | 0 => segH dm a b
  | 1 => segV dm a b
  | 2 => segV dm (a + 1) b
  | _ => segH dm a (b + 1)

/-- The geometric edge drawn by high-resolution line `i` of cell `(a, b)`
(canonical orientation). -/

def hiEdge (dm : DataMeshData) (a b : ℕ) : ℕ → (R × R) × (R × R)
  | 0 => segH1 dm a b
  | 1 => segH2 dm a b
  | 2 => segV1 dm (a + 1) b
  | 3 => segV2 dm (a + 1) b
  | 4 => segH2 dm a (b + 1)
  | 5 => segH1 dm a (b + 1)
  | 6 => segV2 dm a b
  | _ => segV1 dm a b

-- The first-claim map: which geometric edge a dedup key ends up drawing

------------------------------------------------------------------------

/-- The geometric edge drawn under a dedup key by the first cell (in
row-major order) that consults the key.  At high resolution every user of a
key draws the same edge; at low resolution the tables cross keys between
cells and the row-major order decides. -/

def dmFCseg (dm : DataMeshData) (k : ℕ × ℕ × ℕ) : (R × R) × (R × R) :=
  if dm.highres then
    match k.2.2 with
    | 0 => segH1 dm k.1 k.2.1
    | 1 => segH2 dm k.1 k.2.1
    | 2 => segV1 dm k.1 k.2.1
    | _ => segV2 dm k.1 k.2.1
  else
    match k.2.2 with
    | 0 => if k.2.1 = 0 then segH dm k.1 0 else segV dm (k.1 + 1) (k.2.1 - 1)
    | _ => if k.1 = 0 then segV dm 0 k.2.1 else segH dm (k.1 - 1) (k.2.1 + 1)

/-- Index bounds satisfied by every key consulted by some cell. -/

def dmKeyBounds (hr : Bool) (n1 n2 : ℤ) (k : ℕ × ℕ × ℕ) : Prop :=
  if hr then
    k.2.2 < 4 ∧
    (k.2.2 = 0 ∨ k.2.2 = 1 → (k.1 : ℤ) < n1 ∧ (k.2.1 : ℤ) ≤ n2) ∧
    (k.2.2 = 2 ∨ k.2.2 = 3 → (k.1 : ℤ) ≤ n1 ∧ (k.2.1 : ℤ) < n2)
  else
    k.2.2 < 2 ∧
    (k.2.2 = 0 → (k.1 : ℤ) < n1 ∧ (k.2.1 : ℤ) ≤ n2) ∧
    (k.2.2 = 1 → (k.1 : ℤ) ≤ n1 ∧ (k.2.1 : ℤ) < n2)

/-- The key under which the geometric edge of line `i` of cell `(a, b)` is
actually drawn (by whichever cell first consults that key). -/

def dmCoverKey (dm : DataMeshData) (a b i : ℕ) : ℕ × ℕ × ℕ :=
  if dm.highres then
    (a + (linecell_highres i).1, b + (linecell_highres i).2.1,
     (linecell_highres i).2.2)
  else
    match i with
    | 0 => if b = 0 then (a, 0, 0) else (a + 1, b - 1, 1)
    | 1 => if a = 0 then (0, b, 1) else (a - 1, b + 1, 0)
    | 2 => (a, b + 1, 0)
    | _ => (a + 1, b, 1)

/-- A line fragment covers an in-plane endpoint pair: its endpoints are the
transforms of finite pre-projection points whose in-plane coordinates form
that pair (in either order). -/

def dmMatchSeg (tr : Vec3 → Vec3) (dm : DataMeshData)
    (s : (R × R) × (R × R)) (f : Fragment) : Prop :=
  ∃ P Q : Vec3, P.isfinite = true ∧ Q.isfinite = true ∧
    f.p0 = tr P ∧ f.p1 = tr Q ∧
    pairEqUnordered (dmInplane dm P, dmInplane dm Q) s

-- Concrete example data (used by witnesses and counterexamples)
----------------------------------------------------------------

/-- A 3×3-edge (2×2-cell) `DataMesh` with strictly increasing edges, all
cell values finite, and a line style. -/
def dmExample : DataMeshData where
  idxval := 0
  idxedge1 := 1
  idxedge2 := 2
  edges1 := [some 0, some 1, some 2]
  edges2 := [some 0, some 1, some 2]
  vals := [some 1, some 2, some 3, some 4]
  highres := false
  hasLine := true
  hasSurface := false

/-- A `DataMesh` whose role indices do not cover `{0,1,2}`. -/
def dmBadIdx : DataMeshData :=
  { dmExample with idxval := 1 }

/-- A `DataMesh` with empty edge arrays and exactly one cell value. -/
def dmEmptyEdges : DataMeshData :=
  { dmExample with edges1 := [], edges2 := [], vals := [some 5] }

/-- A `Mesh` over a 2×2 coordinate grid with finite data and both
styles. -/
def meshExample : MeshData where
  dirn := .z
  pos1 := [some 0, some 1]
  pos2 := [some 0, some 1]
  heights := [some 3, some 4, some 5, some 6]
  hasLine := true
  hasSurface := true

/-- A point list with one non-finite interior point: of its three
consecutive pairs, two are skipped. -/
def plExample : List Vec3 :=
  [⟨some 0, some 0, some 0⟩, ⟨none, some 1, some 0⟩,
   ⟨some 2, some 0, some 0⟩, ⟨some 3, some 0, some 0⟩]

/-- An `AxisTickLabels` whose cube is degenerate (every corner projects to
one point, so no candidate edge crosses any face) with two candidate
edges: edge 0 has its midpoint in front only (score `12`), edge 1 has its
midpoint left and below only (score `10 + 11 = 21`). -/
def atlFrontVsBottomLeft : AxisData where
  box1 := ⟨some 0, some 0, some 0⟩
  box2 := ⟨some 0, some 0, some 0⟩
  starts := [⟨some 5, some 0, some 1⟩, ⟨some (-5), some 5, some 0⟩]
  ends := [⟨some 5, some 0, some 1⟩, ⟨some (-5), some 5, some 0⟩]
  tickfracs := [some 0]

/-- An `AxisTickLabels` over the unit cube with a single candidate edge
that crosses the projection of the `z = 0` face, so that no candidate
survives the overlap filter. -/
def atlAllOverlap : AxisData where
  box1 := ⟨some 0, some 0, some 0⟩
  box2 := ⟨some 1, some 1, some 1⟩
  starts := [⟨some (1/2), some (-1), some 0⟩]
  ends := [⟨some (1/2), some 2, some 0⟩]
  tickfracs := [some 0, some (1/2)]

-- General bridge lemmas
------------------------

theorem R.isSome_add (a b : R) :
    (R.add a b).isSome = (a.isSome && b.isSome) := by
  cases a <;> cases b <;> rfl

theorem Vec3.isfinite_add (v w : Vec3) :
    (v.add w).isfinite = (v.isfinite && w.isfinite) := by
  obtain ⟨a, b, c⟩ := v
  obtain ⟨d, e, f⟩ := w
  cases a <;> cases b <;> cases c <;> cases d <;> cases e <;> cases f <;> rfl

theorem dmFoundOk_iff (a b c : ℕ) :
    dmFoundOk a b c = true ↔ isRolePerm a b c := by
  have h : dmFoundOk a b c = true ↔
      ((a = 0 ∨ b = 0 ∨ c = 0) ∧ (a = 1 ∨ b = 1 ∨ c = 1) ∧
        (a = 2 ∨ b = 2 ∨ c = 2)) := by
    simp only [dmFoundOk, List.any_cons, List.any_nil, Bool.or_false,
      Bool.and_eq_true, Bool.or_eq_true, beq_iff_eq, decide_eq_true_eq]
    constructor
    · rintro ⟨h0, h1, h2⟩
      exact ⟨h0.imp And.right (Or.imp And.right And.right),
             h1.imp And.right (Or.imp And.right And.right),
             h2.imp And.right (Or.imp And.right And.right)⟩
    · rintro ⟨h0, h1, h2⟩
      exact ⟨h0.imp (fun h => ⟨by omega, h⟩)
               (Or.imp (fun h => ⟨by omega, h⟩) (fun h => ⟨by omega, h⟩)),
             h1.imp (fun h => ⟨by omega, h⟩)
               (Or.imp (fun h => ⟨by omega, h⟩) (fun h => ⟨by omega, h⟩)),
             h2.imp (fun h => ⟨by omega, h⟩)
               (Or.imp (fun h => ⟨by omega, h⟩) (fun h => ⟨by omega, h⟩))⟩
  rw [h]
  unfold isRolePerm
  constructor
  · rintro ⟨h0, h1, h2⟩
    rcases h0 with h | h | h <;> rcases h1 with h' | h' | h' <;>
      rcases h2 with h'' | h'' | h'' <;> omega
  · intro h
    rcases h with hh | hh | hh | hh | hh | hh <;>
      obtain ⟨rfl, rfl, rfl⟩ := hh <;> simp

-- C9: packed-triple LineSegments constructor bounds
----------------------------------------------------

theorem packedRead_eq_none (l : List R) (i : ℕ) (h : l.length ≤ i + 2) :
    packedRead l i = none := by
  unfold packedRead
  have h2 : l.get? (i + 2) = none := List.get?_eq_none.2 h
  cases hg : l.get? i with
  | none => rfl
  | some a =>
    cases hg1 : l.get? (i + 1) with
    | none => rfl
    | some b =>
      have h2' : l[i + 2]? = none := (List.get?_eq_getElem? l (i + 2)) ▸ h2
      simp [hg, hg1, h2, h2']

theorem packedRead_isSome (l : List R) (i : ℕ) (h : i + 2 < l.length) :
    ∃ t, packedRead l i = some t := by
  unfold packedRead
  rw [List.get?_eq_get (show i < l.length by omega),
      List.get?_eq_get (show i + 1 < l.length by omega),
      List.get?_eq_get h]
  exact ⟨_, rfl⟩

theorem packedLoop_isSome_iff (l1 l2 : List R) (i : ℕ) :
    (packedLoop l1 l2 (min l1.length l2.length) i).isSome = true ↔
      (min l1.length l2.length - i) % 3 = 0 := by
  have main : ∀ n i, min l1.length l2.length - i = n →
      ((packedLoop l1 l2 (min l1.length l2.length) i).isSome = true ↔
        (min l1.length l2.length - i) % 3 = 0) := by
    intro n
    induction n using Nat.strong_induction_on with
    | _ n IH =>
      intro i hi
      set size := min l1.length l2.length with hsize
      by_cases h : i < size
      · rw [packedLoop, dif_pos h]
        by_cases h2 : i + 2 < size
        · obtain ⟨t1, ht1⟩ := packedRead_isSome l1 i
            (lt_of_lt_of_le h2 (hsize ▸ min_le_left _ _))
          obtain ⟨t2, ht2⟩ := packedRead_isSome l2 i
            (lt_of_lt_of_le h2 (hsize ▸ min_le_right _ _))
          rw [ht1, ht2]
          obtain ⟨a1, b1, c1⟩ := t1
          obtain ⟨a2, b2, c2⟩ := t2
          have hrec := IH (size - (i + 3)) (by omega) (i + 3) rfl
          cases hv : packedLoop l1 l2 size (i + 3) with
          | none => simp [hv] at hrec ⊢; omega
          | some v => simp [hv] at hrec ⊢; omega
        · have hnone : packedRead l1 i = none ∨ packedRead l2 i = none := by
            rcases le_total l1.length l2.length with hle | hle
            · exact Or.inl (packedRead_eq_none l1 i (by omega))
            · exact Or.inr (packedRead_eq_none l2 i (by omega))
          rcases hnone with hn | hn
          · simp [hn]; omega
          · cases hr : packedRead l1 i with
            | none => simp [hr]; omega
            | some t =>
              obtain ⟨a1, b1, c1⟩ := t
              simp [hr, hn]; omega
      · rw [packedLoop, dif_neg h]
        simp
        omega
  exact main _ i rfl

/-- C9 (amended): the packed-triple `LineSegments` constructor performs
only in-bounds element accesses precisely when the shorter array's length
is a multiple of 3; otherwise the final iteration reads up to two elements
past the end of the shorter array. -/
theorem lineSegmentsPacked_inbounds_iff (pts1 pts2 : List R) :
    (lineSegmentsCtorPacked pts1 pts2).isSome = true ↔
      min pts1.length pts2.length % 3 = 0 := by
  simpa using packedLoop_isSome_iff pts1 pts2 0

/-- C9 counterexample: with two one-element arrays the constructor's first
iteration (`i = 0 < size = 1`) reads indices 1 and 2 of both arrays, past
their end, so the checked model fails — refuting the claim that indices
`i+1, i+2` are read only when `i+2` is within bounds. -/
theorem lineSegmentsPacked_oob_cex :
    lineSegmentsCtorPacked [some 1] [some 1] = none := by
  have h := packedLoop_isSome_iff [some 1] [some 1] 0
  unfold lineSegmentsCtorPacked
  rw [← Option.not_isSome_iff_eq_none]
  intro hs
  have := h.1 (by simpa using hs)
  norm_num at this

-- C7 and C10: DataMesh validation
----------------------------------

/-- C7: for every `DataMesh` whose role indices are not a permutation
covering `{0,1,2}` exactly once each, or whose cell-value count differs
from `(edges1.length-1)*(edges2.length-1)` computed in signed arithmetic,
`getFragments` reports a diagnostic and appends zero fragments. -/
theorem dataMesh_rejects_invalid (tr : Vec3 → Vec3) (dm : DataMeshData)
    (h : ¬ isRolePerm dm.idxval dm.idxedge1 dm.idxedge2 ∨
      ((dm.edges1.length : ℤ) - 1) * ((dm.edges2.length : ℤ) - 1) ≠
        (dm.vals.length : ℤ)) :
    (dataMeshRun tr dm).1 = [] ∧ (dataMeshRun tr dm).2.isSome = true := by
  by_cases hf : dmFoundOk dm.idxval dm.idxedge1 dm.idxedge2 = true
  · rcases h with h | h
    · exact absurd ((dmFoundOk_iff _ _ _).1 hf) h
    · unfold dataMeshRun
      rw [hf]
      simp [h]
  · unfold dataMeshRun
    rw [Bool.not_eq_true] at hf
    rw [hf]
    simp

/-- Witness for C7: a `DataMesh` whose role indices `(1, 1, 2)` never set
`found[0]` is rejected with no fragments. -/
theorem dataMesh_rejects_invalid_witness :
    (dataMeshRun id dmBadIdx).1 = [] ∧
      (dataMeshRun id dmBadIdx).2.isSome = true :=
  dataMesh_rejects_invalid id dmBadIdx (Or.inl (by decide))

/-- C10: with both edge arrays empty and exactly one cell value, the
signed size check `(0-1)*(0-1) = 1` passes, the cell loop bounds are
`-1`, and `getFragments` returns normally with zero fragments and no
diagnostic. -/
theorem dataMesh_emptyEdges_ok (tr : Vec3 → Vec3) (dm : DataMeshData)
    (hperm : isRolePerm dm.idxval dm.idxedge1 dm.idxedge2)
    (h1 : dm.edges1 = []) (h2 : dm.edges2 = []) (hv : dm.vals.length = 1) :
    dataMeshRun tr dm = ([], none) := by
  have hf := (dmFoundOk_iff _ _ _).2 hperm
  unfold dataMeshRun
  rw [hf, h1, h2]
  simp only [List.length_nil, hv]
  norm_num
  cases dm.hasLine <;> cases dm.hasSurface <;> simp [intRange]

/-- Witness for C10 at a concrete empty-edged `DataMesh`. -/
theorem dataMesh_emptyEdges_ok_witness :
    dataMeshRun id dmEmptyEdges = ([], none) :=
  dataMesh_emptyEdges_ok id dmEmptyEdges (by decide) rfl rfl rfl

-- C3: PolyLine and Mesh wireframe segment counts
-------------------------------------------------

theorem badCount_eq_badPairs (tr : Vec3 → Vec3) :
    ∀ (pts : List Vec3) (p : Vec3),
      badCount tr (tr p) pts = badPairs tr (p :: pts) := by
  intro pts
  induction pts with
  | nil => intro p; rfl
  | cons q rest ih =>
    intro p
    show (if ((tr q).add (tr p)).isfinite then 0 else 1) +
        badCount tr (tr q) rest = _
    rw [ih q]
    show _ = (if !(tr p).isfinite || !(tr q).isfinite then 1 else 0) +
        badPairs tr (q :: rest)
    congr 1
    rw [Vec3.isfinite_add]
    cases h1 : (tr q).isfinite <;> cases h2 : (tr p).isfinite <;> simp

theorem chainFrags_length (tr : Vec3 → Vec3) (hl : Bool) :
    ∀ (pts : List Vec3) (prev : Vec3) (idx : ℤ),
      (chainFrags tr hl prev idx pts).length + badCount tr prev pts
        = pts.length := by
  intro pts
  induction pts with
  | nil => intro prev idx; rfl
  | cons p rest ih =>
    intro prev idx
    have h2 := ih (tr p) (idx + 1)
    unfold chainFrags badCount
    cases h : ((tr p).add prev).isfinite <;> simp [h] <;> omega

theorem polyLine_fold (tr : Vec3 → Vec3) (hl : Bool) :
    ∀ (pts : List Vec3) (prev : Vec3) (i : ℕ) (acc : List Fragment),
      0 < i →
      (pts.foldl (polyLineStep tr hl) (prev, i, acc)).2.2
        = acc ++ chainFrags tr hl prev (i : ℤ) pts := by
  intro pts
  induction pts with
  | nil => intro prev i acc h; simp [chainFrags]
  | cons p rest ih =>
    intro prev i acc h
    rw [List.foldl_cons]
    cases hf : ((tr p).add prev).isfinite with
    | false =>
      have hstep : polyLineStep tr hl (prev, i, acc) p = (tr p, i + 1, acc) := by
        unfold polyLineStep
        simp [hf]
      rw [hstep, ih (tr p) (i + 1) acc (by omega)]
      conv_rhs => rw [chainFrags]
      simp [hf]
    | true =>
      have hstep : polyLineStep tr hl (prev, i, acc) p
          = (tr p, i + 1,
             acc ++ [{ ftype := .lineseg, p0 := tr p, p1 := prev
                       hasLine := hl, index := (i : ℤ) }]) := by
        unfold polyLineStep
        simp [hf, h]
      rw [hstep, ih (tr p) (i + 1) _ (by omega)]
      conv_rhs => rw [chainFrags]
      simp [hf]

theorem polyLineFragments_eq_chain (tr : Vec3 → Vec3) (hl : Bool)
    (p : Vec3) (rest : List Vec3) :
    polyLineFragments tr (p :: rest) hl = chainFrags tr hl (tr p) 1 rest := by
  unfold polyLineFragments
  rw [List.foldl_cons]
  have hstep : polyLineStep tr hl (Vec3.zero, 0, []) p = (tr p, 1, []) := by
    unfold polyLineStep
    simp
  rw [hstep, polyLine_fold tr hl rest (tr p) 1 [] (by omega)]
  simp

theorem meshLineBody_fold_range' (tr : Vec3 → Vec3) (pf : ℕ → Vec3) :
    ∀ (cnt k : ℕ) (last : Vec3) (idx : ℤ) (acc : List Fragment), 0 < k →
      (List.range' k cnt).foldl (meshLineBody tr pf) (last, idx, acc)
        = ((if cnt = 0 then last else tr (pf (k + cnt - 1))), idx + cnt,
            acc ++ chainFrags tr true last idx ((List.range' k cnt).map pf)) := by
  intro cnt
  induction cnt with
  | zero =>
    intro k last idx acc hk
    simp [chainFrags]
  | succ n ih =>
    intro k last idx acc hk
    rw [List.range'_succ, List.foldl_cons]
    have hstep : meshLineBody tr pf (last, idx, acc) k
        = (tr (pf k), idx + 1,
           acc ++ (if ((tr (pf k)).add last).isfinite then
             [{ ftype := .lineseg, p0 := tr (pf k), p1 := last
                hasLine := true, index := idx }] else [])) := by
      unfold meshLineBody
      cases hf : ((tr (pf k)).add last).isfinite <;> simp [hf, hk]
    rw [hstep, ih (k + 1) (tr (pf k)) (idx + 1) _ (by omega)]
    rw [List.map_cons]
    conv_rhs => rw [chainFrags]
    simp only [Prod.mk.injEq]
    refine ⟨?_, ?_, ?_⟩
    · rcases Nat.eq_zero_or_pos n with rfl | hn
      · norm_num
      · rw [if_neg (by omega), if_neg (by omega)]
        have he : k + 1 + n - 1 = k + (n + 1) - 1 := by omega
        rw [he]
    · push_cast
      ring
    · rw [List.append_assoc]

theorem meshLineBody_fold_range (tr : Vec3 → Vec3) (pf : ℕ → Vec3)
    (n : ℕ) (last : Vec3) (idx : ℤ) (acc : List Fragment) :
    (List.range n).foldl (meshLineBody tr pf) (last, idx, acc)
      = ((if n = 0 then last else tr (pf (n - 1))), idx + n,
          acc ++ (if n = 0 then [] else
            chainFrags tr true (tr (pf 0)) (idx + 1)
              ((List.range' 1 (n - 1)).map pf))) := by
  cases n with
  | zero => simp
  | succ n' =>
    rw [List.range_eq_range', List.range'_succ, List.foldl_cons]
    have hstep : meshLineBody tr pf (last, idx, acc) 0 = (tr (pf 0), idx + 1, acc) := by
      unfold meshLineBody
      simp
    rw [hstep, meshLineBody_fold_range' tr pf n' (0 + 1) _ _ _ (by omega)]
    simp only [Nat.succ_ne_zero, if_false, Nat.add_sub_cancel, Prod.mk.injEq]
    refine ⟨?_, ?_, trivial⟩
    · rcases Nat.eq_zero_or_pos n' with rfl | hn
      · norm_num
      · rw [if_neg (by omega)]
        have he : 0 + 1 + n' - 1 = n' := by omega
        rw [he]
    · push_cast
      ring

theorem walkOut_length (tr : Vec3 → Vec3) (pf : ℕ → Vec3) (n : ℕ) (idx : ℤ) :
    (if n = 0 then ([] : List Fragment) else
      chainFrags tr true (tr (pf 0)) (idx + 1) ((List.range' 1 (n - 1)).map pf)).length
      = (n - 1) - badPairs tr ((List.range n).map pf) := by
  cases n with
  | zero => simp [badPairs]
  | succ n' =>
    simp only [Nat.succ_ne_zero, if_false, Nat.add_sub_cancel]
    have hchain := chainFrags_length tr true ((List.range' 1 n').map pf)
      (tr (pf 0)) (idx + 1)
    have hbad : badCount tr (tr (pf 0)) ((List.range' 1 n').map pf)
        = badPairs tr ((List.range (n' + 1)).map pf) := by
      rw [badCount_eq_badPairs]
      congr 1
      rw [List.range_eq_range', List.range'_succ, List.map_cons]
    have hlen : ((List.range' 1 n').map pf).length = n' := by simp
    omega

theorem meshWalks_fold_len (tr : Vec3 → Vec3) (nF : ℕ → ℕ)
    (pfF : ℕ → ℕ → Vec3) :
    ∀ (cis : List ℕ) (st : Vec3 × ℤ × List Fragment),
      ((cis.foldl (fun st ci =>
          (List.range (nF ci)).foldl (meshLineBody tr (pfF ci)) st) st).2.2).length
        = st.2.2.length + (cis.map (fun ci =>
            (nF ci - 1) - badPairs tr ((List.range (nF ci)).map (pfF ci)))).sum := by
  intro cis
  induction cis with
  | nil => intro st; simp
  | cons ci rest ih =>
    intro st
    rw [List.foldl_cons]
    obtain ⟨last, idx, acc⟩ := st
    rw [meshLineBody_fold_range, ih]
    simp only [List.map_cons, List.sum_cons, List.length_append]
    rw [walkOut_length tr (pfF ci) (nF ci) idx]
    omega

theorem meshLineDirFold_len (tr : Vec3 → Vec3) (m : MeshData) (si : ℕ)
    (st : Vec3 × ℤ × List Fragment) :
    ((meshLineDirFold tr m si st).2.2).length = st.2.2.length +
      ((List.range ((if si = 0 then m.pos2 else m.pos1).length)).map (fun ci =>
        ((if si = 0 then m.pos1 else m.pos2).length - 1) -
          badPairs tr (meshWalkPts m si ci))).sum := by
  have h := meshWalks_fold_len tr
    (fun _ => (if si = 0 then m.pos1 else m.pos2).length)
    (meshWalkPt m si)
    (List.range ((if si = 0 then m.pos2 else m.pos1).length)) st
  simp only [meshLineDirFold, meshWalkPts]
  exact h

/-- C3: a `PolyLine` with `N` stored points emits at most `N-1` line
fragments, and exactly `N-1` minus the number of consecutive pairs whose
either projected endpoint is non-finite; likewise `Mesh::getLineFragments`
emits, per fixed-coordinate walk, the walk length minus one minus the
walk's bad consecutive pairs. -/
theorem polyLine_mesh_segment_counts (tr : Vec3 → Vec3) (pts : List Vec3)
    (hl : Bool) (m : MeshData) (hml : m.hasLine = true) :
    (polyLineFragments tr pts hl).length = (pts.length - 1) - badPairs tr pts ∧
    (polyLineFragments tr pts hl).length ≤ pts.length - 1 ∧
    (meshLineFragments tr m).length =
      (([0, 1] : List ℕ).map (fun si =>
        ((List.range ((if si = 0 then m.pos2 else m.pos1).length)).map
          (fun ci =>
            ((if si = 0 then m.pos1 else m.pos2).length - 1) -
              badPairs tr (meshWalkPts m si ci))).sum)).sum := by
  have hpl : (polyLineFragments tr pts hl).length
      = (pts.length - 1) - badPairs tr pts := by
    cases pts with
    | nil => simp [polyLineFragments, badPairs]
    | cons p rest =>
      rw [polyLineFragments_eq_chain]
      have hc := chainFrags_length tr hl rest (tr p) 1
      have hb := badCount_eq_badPairs tr rest p
      simp only [List.length_cons]
      omega
  refine ⟨hpl, by omega, ?_⟩
  unfold meshLineFragments
  rw [hml]
  simp only [Bool.not_true, Bool.false_eq_true, if_false]
  rw [List.foldl_cons, List.foldl_cons, List.foldl_nil]
  rw [meshLineDirFold_len, meshLineDirFold_len]
  simp

/-- Witness for C3 at a concrete polyline (one non-finite point, so one of
three consecutive pairs survives) and the concrete 2×2 mesh. -/
theorem polyLine_mesh_segment_counts_witness :
    (polyLineFragments id plExample true).length =
        (plExample.length - 1) - badPairs id plExample ∧
    (polyLineFragments id plExample true).length ≤ plExample.length - 1 ∧
    (meshLineFragments id meshExample).length =
      (([0, 1] : List ℕ).map (fun si =>
        ((List.range ((if si = 0 then meshExample.pos2
            else meshExample.pos1).length)).map
          (fun ci =>
            ((if si = 0 then meshExample.pos1
                else meshExample.pos2).length - 1) -
              badPairs id (meshWalkPts meshExample si ci))).sum)).sum :=
  polyLine_mesh_segment_counts id plExample true meshExample rfl

-- C6: Mesh surface tessellation refines the spec-level cell description
------------------------------------------------------------------------

theorem meshSurfCellBody_eq (tr : Vec3 → Vec3) (m : MeshData) (i1 i2 : ℕ)
    (st : ℤ × List Fragment) :
    meshSurfCellBody tr m i1 st i2
      = (st.1 + 1, st.2 ++ meshCellTris tr m i1 i2 st.1) := by
  have hfin : ∀ a b c : Vec3, (a.add (b.add c)).isfinite
      = (a.isfinite && (b.isfinite && c.isfinite)) := by
    intro a b c
    rw [Vec3.isfinite_add, Vec3.isfinite_add]
  have hr2 : List.range 2 = [0, 1] := rfl
  simp only [meshSurfCellBody, meshCellTris, hfin, hr2, List.foldl_cons,
    List.foldl_nil]
  split_ifs <;> simp

theorem meshRow_fold (tr : Vec3 → Vec3) (m : MeshData) (i1 : ℕ) :
    ∀ (cnt : ℕ) (c : ℤ) (acc : List Fragment),
      (List.range cnt).foldl (meshSurfCellBody tr m i1) (c, acc)
        = (c + cnt, acc ++ (List.range cnt).flatMap
            (fun i2 => meshCellTris tr m i1 i2 (c + i2))) := by
  intro cnt
  induction cnt with
  | zero => intro c acc; simp
  | succ n ih =>
    intro c acc
    rw [List.range_succ, List.foldl_append, List.foldl_cons, List.foldl_nil,
      ih, meshSurfCellBody_eq, List.flatMap_append]
    simp only [List.flatMap_cons, List.flatMap_nil, List.append_nil,
      List.append_assoc, Prod.mk.injEq]
    refine ⟨by push_cast; ring, trivial⟩

theorem meshSurf_outer_fold (tr : Vec3 → Vec3) (m : MeshData) :
    ∀ (cnt : ℕ) (c : ℤ) (acc : List Fragment),
      (List.range cnt).foldl (fun st i1 =>
          (List.range (m.pos2.length - 1)).foldl (meshSurfCellBody tr m i1) st)
          (c, acc)
        = (c + cnt * ((m.pos2.length - 1 : ℕ) : ℤ),
           acc ++ (List.range cnt).flatMap (fun i1 =>
             (List.range (m.pos2.length - 1)).flatMap (fun i2 =>
               meshCellTris tr m i1 i2
                 (c + i1 * ((m.pos2.length - 1 : ℕ) : ℤ) + i2)))) := by
  intro cnt
  induction cnt with
  | zero => intro c acc; simp
  | succ n ih =>
    intro c acc
    rw [List.range_succ, List.foldl_append, List.foldl_cons, List.foldl_nil,
      ih, meshRow_fold, List.flatMap_append]
    simp only [List.flatMap_cons, List.flatMap_nil, List.append_nil,
      List.append_assoc, Prod.mk.injEq]
    constructor
    · push_cast
      ring
    · trivial

/-- C6: `Mesh::getSurfaceFragments` equals the spec-level tessellation:
every unit cell contributes the two triangles of the diagonal split
selected by `(i1+i2) mod 2`, each emitted exactly when its three
pre-projection corner points are finite. -/
theorem mesh_surface_refines_spec (tr : Vec3 → Vec3) (m : MeshData)
    (hs : m.hasSurface = true) :
    meshSurfaceFragments tr m = meshSurfaceSpec tr m := by
  unfold meshSurfaceFragments meshSurfaceSpec
  rw [hs]
  simp only [Bool.not_true, Bool.false_eq_true, if_false]
  rw [meshSurf_outer_fold]
  simp [Nat.cast_add, Nat.cast_mul]

/-- Witness for C6: the concrete 2×2 mesh satisfies the refinement and, as
the claim notes, produces exactly 2 triangle fragments. -/
theorem mesh_surface_refines_spec_witness :
    meshSurfaceFragments id meshExample = meshSurfaceSpec id meshExample ∧
    (meshSurfaceFragments id meshExample).length = 2 :=
  ⟨mesh_surface_refines_spec id meshExample rfl, by decide⟩

-- C5: facing-based culling
---------------------------

/-- C5: `TriangleFacing` emits its wrapped triangle, and `FacingContainer`
recurses into its children (as the plain container would), exactly when
the depth (z) component of the transformed local normal strictly exceeds
the depth component of the transformed local origin; otherwise no
fragments are appended. -/
theorem facing_cull_iff (tr : Vec3 → Vec3) (pts : Vec3 × Vec3 × Vec3)
    (hs : Bool) (norm : Vec3) (objM : Vec3 → Vec3) (children : List Obj) :
    (triangleFacingFragments tr pts hs =
      (if R.gt ((tr (Vec3.cross (pts.2.1.sub pts.1) (pts.2.2.sub pts.1))).get 2)
          ((tr Vec3.zero).get 2) = true
       then triangleFragments tr pts hs else [])) ∧
    (Obj.getFragments tr (.facingContainer norm objM children) =
      (if R.gt ((tr norm).get 2) ((tr Vec3.zero).get 2) = true
       then Obj.getFragments tr (.container objM children) else [])) := by
  constructor
  · rfl
  · simp only [Obj.getFragments]

-- C4: finiteness of emitted non-triangle fragments
---------------------------------------------------

/-- C4 counterexample: `LineSegments::getFragments` does no finiteness
filtering, so an object of the hierarchy emits a line-segment
(non-triangle) fragment whose first endpoint is not finite — refuting the
claim that every non-triangle fragment has finite used points. -/
theorem nontriangle_nonfinite_cex :
    Obj.getFragments id (.lineSegmentsObj
        [⟨none, some 0, some 0⟩, ⟨some 1, some 0, some 0⟩] true)
      = [{ ftype := .lineseg, p0 := ⟨none, some 0, some 0⟩
           p1 := ⟨some 1, some 0, some 0⟩, hasLine := true, index := 0 }] ∧
    (⟨none, some 0, some 0⟩ : Vec3).isfinite = false := by
  constructor
  · show lineSegmentsFragments id _ true = _
    decide
  · decide

theorem chainFrags_mem_finite (tr : Vec3 → Vec3) (hl : Bool) :
    ∀ (pts : List Vec3) (prev : Vec3) (idx : ℤ) (f : Fragment),
      f ∈ chainFrags tr hl prev idx pts →
      f.p0.isfinite = true ∧ f.p1.isfinite = true := by
  intro pts
  induction pts with
  | nil => intro prev idx f h; simp [chainFrags] at h
  | cons p rest ih =>
    intro prev idx f h
    rw [chainFrags] at h
    rcases List.mem_append.1 h with h1 | h1
    · rcases hf : ((tr p).add prev).isfinite with _ | _
      · rw [hf] at h1; simp at h1
      · rw [hf] at h1
        simp at h1
        subst h1
        rw [Vec3.isfinite_add, Bool.and_eq_true] at hf
        exact hf
    · exact ih (tr p) (idx + 1) f h1

theorem meshLineBody_fold_mem (tr : Vec3 → Vec3) (pf : ℕ → Vec3) :
    ∀ (l : List ℕ) (st : Vec3 × ℤ × List Fragment) (f : Fragment),
      f ∈ (l.foldl (meshLineBody tr pf) st).2.2 →
      f ∈ st.2.2 ∨ (f.p0.isfinite = true ∧ f.p1.isfinite = true) := by
  intro l
  induction l with
  | nil => intro st f h; exact Or.inl h
  | cons i rest ih =>
    intro st f h
    rw [List.foldl_cons] at h
    rcases ih _ f h with h1 | h1
    · simp only [meshLineBody] at h1
      by_cases hg : (decide (i > 0) && ((tr (pf i)).add st.1).isfinite) = true
      · rw [if_pos hg] at h1
        rcases List.mem_append.1 h1 with h2 | h2
        · exact Or.inl h2
        · simp at h2
          subst h2
          have hfin := (Bool.and_eq_true _ _ ▸ hg).2
          rw [Vec3.isfinite_add, Bool.and_eq_true] at hfin
          exact Or.inr hfin
      · rw [if_neg hg] at h1
        exact Or.inl h1
    · exact Or.inr h1

theorem meshLineFragments_mem_finite (tr : Vec3 → Vec3) (m : MeshData)
    (f : Fragment) (h : f ∈ meshLineFragments tr m) :
    f.p0.isfinite = true ∧ f.p1.isfinite = true := by
  unfold meshLineFragments at h
  by_cases hl : m.hasLine
  · rw [hl] at h
    simp only [Bool.not_true, Bool.false_eq_true, if_false] at h
    rw [List.foldl_cons, List.foldl_cons, List.foldl_nil] at h
    unfold meshLineDirFold at h
    have step : ∀ (si : ℕ) (st : Vec3 × ℤ × List Fragment),
        f ∈ ((List.range ((if si = 0 then m.pos2 else m.pos1).length)).foldl
          (fun st consti =>
            (List.range ((if si = 0 then m.pos1 else m.pos2).length)).foldl
              (meshLineBody tr (meshWalkPt m si consti)) st) st).2.2 →
        f ∈ st.2.2 ∨ (f.p0.isfinite = true ∧ f.p1.isfinite = true) := by
      intro si
      induction (List.range ((if si = 0 then m.pos2 else m.pos1).length)) with
      | nil => intro st h; exact Or.inl h
      | cons c rest ih =>
        intro st h
        rw [List.foldl_cons] at h
        rcases ih _ h with h1 | h1
        · exact meshLineBody_fold_mem tr _ _ st f h1
        · exact Or.inr h1
    rcases step 1 _ (by exact h) with h1 | h1
    · rcases step 0 _ h1 with h2 | h2
      · simp at h2
      · exact h2
    · exact h1
  · rw [Bool.not_eq_true] at hl
    rw [hl] at h
    simp at h


theorem dmLineBody_fold_mem (tr : Vec3 → Vec3) (dm : DataMeshData)
    (n1 n2 i1 i2 : ℤ) :
    ∀ (l : List ℕ) (st : LineCellTracker × List Fragment) (f : Fragment),
      f ∈ (l.foldl (dmLineBody tr dm n1 n2 i1 i2) st).2 →
      f ∈ st.2 ∨ (f.p0.isfinite = true ∧ f.p1.isfinite = true) := by
  intro l
  induction l with
  | nil => intro st f h; exact Or.inl h
  | cons i rest ih =>
    intro st f h
    rw [List.foldl_cons] at h
    rcases ih _ f h with h1 | h1
    · simp only [dmLineBody] at h1
      by_cases hset : (st.1.isLineSet
          (i1 + (((if dm.highres then linecell_highres else linecell_lowres) i).1 : ℤ)).toNat
          (i2 + (((if dm.highres then linecell_highres else linecell_lowres) i).2.1 : ℤ)).toNat
          ((if dm.highres then linecell_highres else linecell_lowres) i).2.2) = true
      · rw [hset] at h1
        simp at h1
        exact Or.inl h1
      · rw [Bool.not_eq_true] at hset
        rw [hset] at h1
        simp only [Bool.not_false, if_true] at h1
        by_cases hfin : ((tr (dmCorner dm n1 n2 i1 i2
            ((if dm.highres then linelist_highres else linelist_lowres) i).1)).isfinite &&
            (tr (dmCorner dm n1 n2 i1 i2
            ((if dm.highres then linelist_highres else linelist_lowres) i).2)).isfinite) = true
        · rw [if_pos hfin] at h1
          rcases List.mem_append.1 h1 with h2 | h2
          · exact Or.inl h2
          · simp at h2
            subst h2
            rw [Bool.and_eq_true] at hfin
            exact Or.inr hfin
        · rw [if_neg hfin] at h1
          exact Or.inl h1
    · exact Or.inr h1

theorem dmProcessCell_mem (tr : Vec3 → Vec3) (dm : DataMeshData)
    (n1 n2 i1 i2 : ℤ) (st : LineCellTracker × List Fragment) (f : Fragment)
    (h : f ∈ (dmProcessCell tr dm n1 n2 i1 i2 st).2) :
    f ∈ st.2 ∨
      (f.ftype = FragType.lineseg →
        f.p0.isfinite = true ∧ f.p1.isfinite = true) := by
  unfold dmProcessCell at h
  by_cases hskip : (getRZ dm.vals (i1 * n2 + i2)).isfinite = true
  · rw [hskip] at h
    simp only [Bool.not_true, Bool.false_eq_true, if_false] at h
    have hmem1 : ∀ g : Fragment,
        g ∈ (if dm.hasSurface then
              st.2 ++ dmTriFrags tr dm n1 n2 i1 i2 else st.2) →
        g ∈ st.2 ∨ g.ftype = FragType.triangle := by
      intro g hg
      by_cases hs : dm.hasSurface = true
      · rw [if_pos hs] at hg
        rcases List.mem_append.1 hg with h2 | h2
        · exact Or.inl h2
        · unfold dmTriFrags at h2
          rcases List.mem_map.1 h2 with ⟨j, _, hj⟩
          subst hj
          exact Or.inr rfl
      · rw [if_neg hs] at hg
        exact Or.inl hg
    by_cases hl : dm.hasLine = true
    · rw [if_pos hl] at h
      rcases dmLineBody_fold_mem tr dm n1 n2 i1 i2 _ _ f h with h1 | h1
      · rcases hmem1 f h1 with h2 | h2
        · exact Or.inl h2
        · exact Or.inr (fun hc => by rw [h2] at hc; cases hc)
      · exact Or.inr (fun _ => h1)
    · rw [if_neg hl] at h
      rcases hmem1 f h with h2 | h2
      · exact Or.inl h2
      · exact Or.inr (fun hc => by rw [h2] at hc; cases hc)
  · rw [Bool.not_eq_true] at hskip
    rw [hskip] at h
    simp only [Bool.not_false, if_true] at h
    exact Or.inl h

theorem dataMeshRun_lineseg_finite (tr : Vec3 → Vec3) (dm : DataMeshData)
    (f : Fragment) (h : f ∈ (dataMeshRun tr dm).1)
    (hft : f.ftype = FragType.lineseg) :
    f.p0.isfinite = true ∧ f.p1.isfinite = true := by
  unfold dataMeshRun at h
  by_cases h1 : dmFoundOk dm.idxval dm.idxedge1 dm.idxedge2 = true
  · rw [h1] at h
    simp only [Bool.not_true, Bool.false_eq_true, if_false] at h
    by_cases h2 : ((dm.edges1.length : ℤ) - 1) * ((dm.edges2.length : ℤ) - 1)
        ≠ (dm.vals.length : ℤ)
    · rw [if_pos h2] at h
      simp at h
    · rw [if_neg h2] at h
      by_cases h3 : (!dm.hasLine && !dm.hasSurface) = true
      · rw [if_pos h3] at h
        simp at h
      · rw [if_neg h3] at h
        simp only at h
        have hrow : ∀ (l2 : List ℤ) (i1 : ℤ)
            (st : LineCellTracker × List Fragment),
            f ∈ (l2.foldl (fun st i2 => dmProcessCell tr dm
                ((dm.edges1.length : ℤ) - 1) ((dm.edges2.length : ℤ) - 1)
                i1 i2 st) st).2 →
            f ∈ st.2 ∨ (f.p0.isfinite = true ∧ f.p1.isfinite = true) := by
          intro l2
          induction l2 with
          | nil => intro i1 st h; exact Or.inl h
          | cons c rest ih =>
            intro i1 st h
            rw [List.foldl_cons] at h
            rcases ih i1 _ h with hh | hh
            · rcases dmProcessCell_mem tr dm _ _ i1 c st f hh with hh2 | hh2
              · exact Or.inl hh2
              · exact Or.inr (hh2 hft)
            · exact Or.inr hh
        have houter : ∀ (l1 : List ℤ) (st : LineCellTracker × List Fragment),
            f ∈ (l1.foldl (fun st i1 =>
              (intRange ((dm.edges2.length : ℤ) - 1)).foldl
                (fun st i2 => dmProcessCell tr dm
                  ((dm.edges1.length : ℤ) - 1) ((dm.edges2.length : ℤ) - 1)
                  i1 i2 st) st) st).2 →
            f ∈ st.2 ∨ (f.p0.isfinite = true ∧ f.p1.isfinite = true) := by
          intro l1
          induction l1 with
          | nil => intro st h; exact Or.inl h
          | cons c rest ih =>
            intro st h
            rw [List.foldl_cons] at h
            rcases ih _ h with hh | hh
            · exact hrow _ c st hh
            · exact Or.inr hh
        rcases houter _ _ h with hh | hh
        · simp at hh
        · exact hh
  · rw [Bool.not_eq_true] at h1
    rw [h1] at h
    simp at h

theorem pointsFragments_mem_finite (tr : Vec3 → Vec3)
    (x y z sizes : List R) (hl hs : Bool) (f : Fragment)
    (h : f ∈ pointsFragments tr x y z sizes hl hs) :
    f.p0.isfinite = true := by
  unfold pointsFragments at h
  rcases List.mem_filterMap.1 h with ⟨i, _, hi⟩
  by_cases hfin : (tr ⟨getR x i, getR y i, getR z i⟩).isfinite = true
  · rw [if_pos hfin] at hi
    cases hi
    exact hfin
  · rw [if_neg hfin] at hi
    cases hi

/-- C4 (amended): the producers that do filter — `PolyLine`, the `Mesh`
wireframe, `DataMesh` line segments, and `Points` — emit only fragments
whose used points are finite; `LineSegments`, `Text` and `AxisTickLabels`
perform no such filtering (see the counterexample), so the invariant holds
for the filtering producers only. -/
theorem filtered_producers_emit_finite (tr : Vec3 → Vec3) :
    (∀ (pts : List Vec3) (hl : Bool) (f : Fragment),
      f ∈ polyLineFragments tr pts hl →
      f.p0.isfinite = true ∧ f.p1.isfinite = true) ∧
    (∀ (m : MeshData) (f : Fragment), f ∈ meshLineFragments tr m →
      f.p0.isfinite = true ∧ f.p1.isfinite = true) ∧
    (∀ (dm : DataMeshData) (f : Fragment), f ∈ (dataMeshRun tr dm).1 →
      f.ftype = FragType.lineseg →
      f.p0.isfinite = true ∧ f.p1.isfinite = true) ∧
    (∀ (x y z sizes : List R) (hl hs : Bool) (f : Fragment),
      f ∈ pointsFragments tr x y z sizes hl hs →
      f.p0.isfinite = true) := by
  refine ⟨?_, ?_, ?_, ?_⟩
  · intro pts hl f h
    cases pts with
    | nil => simp [polyLineFragments] at h
    | cons p rest =>
      rw [polyLineFragments_eq_chain] at h
      exact chainFrags_mem_finite tr hl rest (tr p) 1 f h
  · intro m f h
    exact meshLineFragments_mem_finite tr m f h
  · intro dm f h hft
    exact dataMeshRun_lineseg_finite tr dm f h hft
  · intro x y z sizes hl hs f h
    exact pointsFragments_mem_finite tr x y z sizes hl hs f h

/-- Witness for the amended C4: the single fragments emitted by a concrete
finite polyline and a concrete one-point `Points` object are finite. -/
theorem filtered_producers_emit_finite_witness :
    (((polyLineFragments id [⟨some 0, some 0, some 0⟩,
        ⟨some 1, some 2, some 3⟩] true).headD
      { ftype := .lineseg }).p0.isfinite = true ∧
     ((polyLineFragments id [⟨some 0, some 0, some 0⟩,
        ⟨some 1, some 2, some 3⟩] true).headD
      { ftype := .lineseg }).p1.isfinite = true) ∧
    ((pointsFragments id [some 4] [some 5] [some 6] [] false false).headD
      { ftype := .path }).p0.isfinite = true :=
  ⟨(filtered_producers_emit_finite id).1
      [⟨some 0, some 0, some 0⟩, ⟨some 1, some 2, some 3⟩] true _ (by decide),
   (filtered_producers_emit_finite id).2.2.2
      [some 4] [some 5] [some 6] [] false false _ (by decide)⟩

-- C2 and C8: axis-label edge selection
---------------------------------------

theorem atlScore_nonneg (tr : Vec3 → Vec3) (a : AxisData) (axis : ℕ) :
    0 ≤ atlScore tr a axis := by
  simp only [atlScore]
  split_ifs <;> omega

theorem firstMaxBy_cons_none {f : ℕ → ℤ} {c : ℕ} {rest : List ℕ}
    (h : firstMaxBy f rest = none) :
    firstMaxBy f (c :: rest) = some c := by
  unfold firstMaxBy
  rw [h]

theorem firstMaxBy_cons_some {f : ℕ → ℤ} {c m : ℕ} {rest : List ℕ}
    (h : firstMaxBy f rest = some m) :
    firstMaxBy f (c :: rest)
      = if f m > f c then some m else some c := by
  unfold firstMaxBy
  rw [h]

theorem bestFold_firstMaxBy (f : ℕ → ℤ) :
    ∀ (l : List ℕ) (b : ℤ × ℕ),
      (firstMaxBy f l = none →
        l.foldl (fun best c => if f c > best.1 then (f c, c) else best) b = b) ∧
      (∀ m, firstMaxBy f l = some m →
        l.foldl (fun best c => if f c > best.1 then (f c, c) else best) b
          = if f m > b.1 then (f m, m) else b) := by
  intro l
  induction l with
  | nil =>
    intro b
    refine ⟨fun _ => rfl, fun m hm => ?_⟩
    rw [show firstMaxBy f [] = none from rfl] at hm
    cases hm
  | cons c rest ih =>
    intro b
    constructor
    · intro hnone
      exfalso
      cases hr : firstMaxBy f rest with
      | none => rw [firstMaxBy_cons_none hr] at hnone; cases hnone
      | some m =>
        rw [firstMaxBy_cons_some hr] at hnone
        by_cases hx : f m > f c
        · rw [if_pos hx] at hnone; cases hnone
        · rw [if_neg hx] at hnone; cases hnone
    · intro m hm
      rw [List.foldl_cons]
      cases hr : firstMaxBy f rest with
      | none =>
        rw [firstMaxBy_cons_none hr] at hm
        obtain rfl := Option.some.inj hm
        by_cases hc : f c > b.1
        · rw [if_pos hc, (ih (f c, c)).1 hr]
        · rw [if_neg hc, (ih b).1 hr]
      | some m2 =>
        rw [firstMaxBy_cons_some hr] at hm
        by_cases hcmp : f m2 > f c
        · rw [if_pos hcmp] at hm
          obtain rfl := Option.some.inj hm
          by_cases hc : f c > b.1
          · rw [if_pos hc, (ih (f c, c)).2 m2 hr, if_pos (by omega),
              if_pos (by omega)]
          · rw [if_neg hc, (ih b).2 m2 hr]
        · rw [if_neg hcmp] at hm
          obtain rfl := Option.some.inj hm
          by_cases hc : f c > b.1
          · rw [if_pos hc, (ih (f c, c)).2 m2 hr, if_neg (by omega)]
          · rw [if_neg hc, (ih b).2 m2 hr, if_neg (by omega)]

theorem firstMaxBy_isSome (f : ℕ → ℤ) :
    ∀ (l : List ℕ), l ≠ [] → (firstMaxBy f l).isSome = true := by
  intro l
  induction l with
  | nil => intro h; cases h rfl
  | cons c rest _ =>
    intro _
    cases hr : firstMaxBy f rest with
    | none => rw [firstMaxBy_cons_none hr]; rfl
    | some m =>
      rw [firstMaxBy_cons_some hr]
      by_cases hx : f m > f c
      · rw [if_pos hx]; rfl
      · rw [if_neg hx]; rfl

theorem atlChoices_ne_nil (tr : Vec3 → Vec3) (a : AxisData)
    (h : 0 < min a.starts.length a.ends.length) :
    atlChoices tr a ≠ [] := by
  unfold atlChoices
  by_cases hs : (atlSurviving tr a).isEmpty = true
  · rw [if_pos hs]
    simp only [ne_eq, List.range_eq_nil]
    omega
  · rw [if_neg hs]
    rw [List.isEmpty_iff] at hs
    exact hs

/-- C2 (amended): among the viable candidate edges (after the fallback),
`AxisTickLabels::getFragments` selects the first edge attaining the
maximal score, where the score adds the plain decimal weights `10` (left
of centre), `11` (below centre) and `12` (in front of centre) — additive
integers, not bit weights, so an edge satisfying only the front criterion
(score 12) scores below one satisfying bottom and left (score 21) — and
emits the ticks of the selected edge. -/
theorem atl_selects_first_max (tr : Vec3 → Vec3) (a : AxisData)
    (h : 0 < min a.starts.length a.ends.length) :
    atlBestAxis tr a
      = (firstMaxBy (atlScore tr a) (atlChoices tr a)).getD 0 ∧
    axisTickLabelsFragments tr a = atlTicks tr a (atlBestAxis tr a) := by
  constructor
  · have hne := atlChoices_ne_nil tr a h
    have hsome := firstMaxBy_isSome (atlScore tr a) (atlChoices tr a) hne
    cases hm : firstMaxBy (atlScore tr a) (atlChoices tr a) with
    | none => rw [hm] at hsome; cases hsome
    | some m =>
      unfold atlBestAxis
      rw [(bestFold_firstMaxBy (atlScore tr a) (atlChoices tr a) (-1, 0)).2
        m hm]
      rw [if_pos (by have := atlScore_nonneg tr a m; omega)]
      rfl
  · unfold axisTickLabelsFragments
    rw [if_neg (by omega)]

unseal Rat.add Rat.mul Rat.sub Rat.inv in
/-- C2 counterexample: with a degenerate cube both candidate edges are
viable; edge 0 satisfies only the front criterion (score 12) while edge 1
satisfies only the bottom and left criteria (score 10+11 = 21); the code
selects edge 1 and places the tick on it, refuting the claim that an edge
satisfying only the front criterion outscores one satisfying bottom and
left. -/
theorem atl_front_vs_bottomleft_cex :
    atlChoices id atlFrontVsBottomLeft = [0, 1] ∧
    atlScore id atlFrontVsBottomLeft 0 = 12 ∧
    atlScore id atlFrontVsBottomLeft 1 = 21 ∧
    atlBestAxis id atlFrontVsBottomLeft = 1 ∧
    (axisTickLabelsFragments id atlFrontVsBottomLeft).map Fragment.p0
      = [⟨some (-5), some 5, some 0⟩] := by
  decide

/-- Witness for the amended C2 at the concrete two-edge example. -/
theorem atl_selects_first_max_witness :
    atlBestAxis id atlFrontVsBottomLeft
      = (firstMaxBy (atlScore id atlFrontVsBottomLeft)
          (atlChoices id atlFrontVsBottomLeft)).getD 0 ∧
    axisTickLabelsFragments id atlFrontVsBottomLeft
      = atlTicks id atlFrontVsBottomLeft
          (atlBestAxis id atlFrontVsBottomLeft) :=
  atl_selects_first_max id atlFrontVsBottomLeft (by decide)

/-- C8: when no candidate edge survives the 2D face-crossing filter, all
candidates become viable, an edge is still chosen, and exactly one path
fragment is emitted per tick fraction. -/
theorem atl_fallback_emits (tr : Vec3 → Vec3) (a : AxisData)
    (hn : 0 < min a.starts.length a.ends.length)
    (hall : atlSurviving tr a = []) :
    atlChoices tr a = List.range (min a.starts.length a.ends.length) ∧
    (axisTickLabelsFragments tr a).length = a.tickfracs.length ∧
    (axisTickLabelsFragments tr a).all
      (fun f => f.ftype == FragType.path) = true := by
  have hch : atlChoices tr a
      = List.range (min a.starts.length a.ends.length) := by
    unfold atlChoices
    rw [hall]
    rfl
  refine ⟨hch, ?_, ?_⟩
  · unfold axisTickLabelsFragments
    rw [if_neg (by omega)]
    unfold atlTicks
    simp
  · unfold axisTickLabelsFragments
    rw [if_neg (by omega)]
    unfold atlTicks
    simp

unseal Rat.add Rat.mul Rat.sub Rat.inv in
/-- Witness for C8 at a concrete single-edge example whose edge crosses
the projected `z = 0` cube face. -/
theorem atl_fallback_emits_witness :
    atlChoices id atlAllOverlap
      = List.range (min atlAllOverlap.starts.length
          atlAllOverlap.ends.length) ∧
    (axisTickLabelsFragments id atlAllOverlap).length
      = atlAllOverlap.tickfracs.length ∧
    (axisTickLabelsFragments id atlAllOverlap).all
      (fun f => f.ftype == FragType.path) = true :=
  atl_fallback_emits id atlAllOverlap (by decide) (by decide)

-- C1: DataMesh line dedup
----------------------------

theorem listFirst_cons {α β : Type} (f : α → Option β) (a : α) (l : List α) :
    listFirst f (a :: l) =
      match f a with | some b => some b | none => listFirst f l := rfl

theorem listFirst_append_some {α β : Type} (f : α → Option β)
    {xs : List α} (ys : List α) {b : β} (h : listFirst f xs = some b) :
    listFirst f (xs ++ ys) = some b := by
  induction xs with
  | nil => simp [listFirst] at h
  | cons a l ih =>
      rw [List.cons_append, listFirst_cons]
      rw [listFirst_cons] at h
      cases hfa : f a with
      | some c => rw [hfa] at h; exact h
      | none => rw [hfa] at h; exact ih h

theorem listFirst_eq_none {α β : Type} (f : α → Option β) {l : List α}
    (h : ∀ a ∈ l, f a = none) : listFirst f l = none := by
  induction l with
  | nil => rfl
  | cons a l ih =>
      unfold listFirst
      rw [h a (List.mem_cons_self a l)]
      exact ih (fun x hx => h x (List.mem_cons_of_mem a hx))

theorem listFirst_append_none {α β : Type} (f : α → Option β)
    {xs : List α} (ys : List α) (h : listFirst f xs = none) :
    listFirst f (xs ++ ys) = listFirst f ys := by
  induction xs with
  | nil => rfl
  | cons a l ih =>
      rw [List.cons_append, listFirst_cons]
      rw [listFirst_cons] at h
      cases hfa : f a with
      | some c => rw [hfa] at h; simp at h
      | none => rw [hfa] at h; exact ih h

theorem listFirst_map {α β γ : Type} (g : α → β) (f : β → Option γ)
    (l : List α) :
    listFirst f (l.map g) = listFirst (fun a => f (g a)) l := by
  induction l with
  | nil => rfl
  | cons a l ih =>
      rw [List.map_cons, listFirst_cons, listFirst_cons]
      cases f (g a) with
      | some c => rfl
      | none => exact ih

theorem listFirst_range {β : Type} (f : ℕ → Option β) {n b : ℕ} {v : β}
    (hb : b < n) (hv : f b = some v) (hmin : ∀ j, j < b → f j = none) :
    listFirst f (List.range n) = some v := by
  induction n with
  | zero => omega
  | succ m ih =>
      rw [List.range_succ]
      rcases Nat.lt_or_ge b m with hbm | hbm
      · exact listFirst_append_some f [m] (ih hbm)
      · have hbm' : b = m := by omega
        subst hbm'
        rw [listFirst_append_none f [b]
          (listFirst_eq_none f (fun j hj => hmin j (List.mem_range.mp hj)))]
        simp [listFirst, hv]

theorem intRange_mem (n x : ℤ) : x ∈ intRange n ↔ 0 ≤ x ∧ x < n := by
  simp only [intRange, List.mem_map, List.mem_range, Int.ofNat_eq_natCast]
  constructor
  · rintro ⟨i, hi, rfl⟩; omega
  · rintro ⟨h0, hn⟩; exact ⟨x.toNat, by omega, by omega⟩

theorem listFirst_intRange {β : Type} (f : ℤ → Option β) {n b : ℤ} {v : β}
    (h0 : 0 ≤ b) (hb : b < n) (hv : f b = some v)
    (hmin : ∀ j, 0 ≤ j → j < b → f j = none) :
    listFirst f (intRange n) = some v := by
  unfold intRange
  rw [listFirst_map]
  refine listFirst_range (fun i => f (Int.ofNat i)) (b := b.toNat)
    (by omega) ?_ ?_
  · show f (Int.ofNat b.toNat) = some v
    rw [Int.ofNat_eq_natCast, Int.toNat_of_nonneg h0]
    exact hv
  · intro j hj
    show f (Int.ofNat j) = none
    rw [Int.ofNat_eq_natCast]
    exact hmin j (by omega) (by omega)

theorem listFirst_flatMap {α β γ : Type} (g : α → List β) (f : β → Option γ)
    (l : List α) :
    listFirst f (l.flatMap g) = listFirst (fun a => listFirst f (g a)) l := by
  induction l with
  | nil => rfl
  | cons a l ih =>
      rw [List.flatMap_cons]
      cases hga : listFirst f (g a) with
      | some c =>
          rw [listFirst_append_some f _ hga, listFirst_cons, hga]
      | none =>
          rw [listFirst_append_none f _ hga, ih, listFirst_cons, hga]

theorem keyFirst_cons_self {κ α : Type} [DecidableEq κ] (k : κ) (a : α)
    (rest : List (κ × α)) : keyFirst ((k, a) :: rest) k = some a := by
  simp [keyFirst, listFirst]

theorem keyFirst_cons_ne {κ α : Type} [DecidableEq κ] {k' k : κ} (a : α)
    (rest : List (κ × α)) (h : k' ≠ k) :
    keyFirst ((k', a) :: rest) k = keyFirst rest k := by
  simp [keyFirst, listFirst, h]

theorem keyFirst_mem {κ α : Type} [DecidableEq κ] {xs : List (κ × α)}
    {k : κ} {a : α} (h : keyFirst xs k = some a) : (k, a) ∈ xs := by
  induction xs with
  | nil => simp [keyFirst, listFirst] at h
  | cons t rest ih =>
      by_cases hk : t.1 = k
      · rw [show t = (k, t.2) by rw [← hk], keyFirst_cons_self] at h
        rw [show t = (k, t.2) by rw [← hk]]
        obtain rfl := Option.some.inj h
        exact List.mem_cons_self _ _
      · rw [show t = (t.1, t.2) by rfl, keyFirst_cons_ne _ _ hk] at h
        exact List.mem_cons_of_mem _ (ih h)

theorem dedupRun_cons {κ α : Type} [DecidableEq κ] (k : κ) (a : α)
    (rest : List (κ × α)) (seen : List κ) :
    dedupRun ((k, a) :: rest) seen =
      if k ∈ seen then dedupRun rest seen
      else a :: dedupRun rest (k :: seen) := rfl

theorem dedupSeen_cons {κ α : Type} [DecidableEq κ] (k : κ) (a : α)
    (rest : List (κ × α)) (seen : List κ) :
    dedupSeen ((k, a) :: rest) seen =
      if k ∈ seen then dedupSeen rest seen
      else dedupSeen rest (k :: seen) := rfl

theorem dedupRun_append {κ α : Type} [DecidableEq κ] (xs ys : List (κ × α)) :
    ∀ seen, dedupRun (xs ++ ys) seen =
      dedupRun xs seen ++ dedupRun ys (dedupSeen xs seen) := by
  induction xs with
  | nil => intro seen; rfl
  | cons t rest ih =>
      intro seen
      obtain ⟨k, a⟩ := t
      rw [List.cons_append, dedupRun_cons, dedupRun_cons, dedupSeen_cons]
      by_cases h : k ∈ seen
      · rw [if_pos h, if_pos h, if_pos h, ih]
      · rw [if_neg h, if_neg h, if_neg h, ih, List.cons_append]

theorem dedupSeen_append {κ α : Type} [DecidableEq κ] (xs ys : List (κ × α)) :
    ∀ seen, dedupSeen (xs ++ ys) seen = dedupSeen ys (dedupSeen xs seen) := by
  induction xs with
  | nil => intro seen; rfl
  | cons t rest ih =>
      intro seen
      obtain ⟨k, a⟩ := t
      rw [List.cons_append, dedupSeen_cons, dedupSeen_cons]
      by_cases h : k ∈ seen
      · rw [if_pos h, if_pos h, ih]
      · rw [if_neg h, if_neg h, ih]

theorem dedupRun_subset {κ α : Type} [DecidableEq κ] {xs : List (κ × α)}
    {a : α} : ∀ {seen}, a ∈ dedupRun xs seen → ∃ k, (k, a) ∈ xs := by
  induction xs with
  | nil => intro seen h; simp [dedupRun] at h
  | cons t rest ih =>
      intro seen h
      rw [show t = (t.1, t.2) by rfl] at h
      unfold dedupRun at h
      by_cases hm : t.1 ∈ seen
      · rw [if_pos hm] at h
        obtain ⟨k, hk⟩ := ih h
        exact ⟨k, List.mem_cons_of_mem _ hk⟩
      · rw [if_neg hm] at h
        rcases List.mem_cons.mp h with rfl | h'
        · exact ⟨t.1, by simp⟩
        · obtain ⟨k, hk⟩ := ih h'
          exact ⟨k, List.mem_cons_of_mem _ hk⟩

theorem forall₂_imp_mem {α β : Type} {P Q : α → β → Prop} :
    ∀ {l₁ : List α} {l₂ : List β}, List.Forall₂ P l₁ l₂ →
      (∀ a b, a ∈ l₁ → P a b → Q a b) → List.Forall₂ Q l₁ l₂ := by
  intro l₁ l₂ h
  induction h with
  | nil => intro _; exact List.Forall₂.nil
  | cons hab _ ih =>
      intro himp
      exact List.Forall₂.cons (himp _ _ (List.mem_cons_self _ _) hab)
        (ih (fun a b ha hb => himp a b (List.mem_cons_of_mem _ ha) hb))

theorem forall₂_mem_left {α β : Type} {P : α → β → Prop} :
    ∀ {l₁ : List α} {l₂ : List β}, List.Forall₂ P l₁ l₂ →
      ∀ {a}, a ∈ l₁ → ∃ b ∈ l₂, P a b := by
  intro l₁ l₂ h
  induction h with
  | nil => intro a ha; cases ha
  | cons hab _ ih =>
      intro a ha
      rcases List.mem_cons.mp ha with rfl | ha'
      · exact ⟨_, List.mem_cons_self _ _, hab⟩
      · obtain ⟨b, hb, hPb⟩ := ih ha'
        exact ⟨b, List.mem_cons_of_mem _ hb, hPb⟩

theorem forall₂_mem_right {α β : Type} {P : α → β → Prop} :
    ∀ {l₁ : List α} {l₂ : List β}, List.Forall₂ P l₁ l₂ →
      ∀ {b}, b ∈ l₂ → ∃ a ∈ l₁, P a b := by
  intro l₁ l₂ h
  induction h with
  | nil => intro b hb; cases hb
  | cons hab _ ih =>
      intro b hb
      rcases List.mem_cons.mp hb with rfl | hb'
      · exact ⟨_, List.mem_cons_self _ _, hab⟩
      · obtain ⟨a, ha, hPa⟩ := ih hb'
        exact ⟨a, List.mem_cons_of_mem _ ha, hPa⟩

theorem pairwise_of_forall₂ {α β : Type} {P : α → β → Prop}
    {Rel : α → α → Prop} {Q : β → β → Prop} :
    ∀ {l₁ : List α} {l₂ : List β}, List.Forall₂ P l₁ l₂ →
      l₁.Pairwise Rel →
      (∀ a a' b b', Rel a a' → P a b → P a' b' → Q b b') →
      l₂.Pairwise Q := by
  intro l₁ l₂ h
  induction h with
  | nil => intro _ _; exact List.Pairwise.nil
  | cons hab htail ih =>
      intro hpw himp
      rcases List.pairwise_cons.mp hpw with ⟨hhead, htl⟩
      refine List.Pairwise.cons ?_ (ih htl himp)
      intro b' hb'
      obtain ⟨a', ha', hPa'⟩ := forall₂_mem_right htail hb'
      exact himp _ _ _ _ (hhead a' ha') hab hPa'

/-- The dedup process emits, for each not-previously-seen key of the entry
list, exactly the payload of that key's first entry, in order of first
occurrence. -/

theorem dedupRun_spec {κ α : Type} [DecidableEq κ] (xs : List (κ × α)) :
    ∀ seen : List κ, ∃ ks : List κ, ks.Nodup ∧
      (∀ k, k ∈ ks ↔ (k ∉ seen ∧ ∃ a, (k, a) ∈ xs)) ∧
      List.Forall₂ (fun k a => keyFirst xs k = some a) ks
        (dedupRun xs seen) := by
  induction xs with
  | nil =>
      intro seen
      exact ⟨[], List.nodup_nil, by simp, List.Forall₂.nil⟩
  | cons t rest ih =>
      intro seen
      obtain ⟨k, e⟩ := t
      by_cases hmem : k ∈ seen
      · obtain ⟨ks, hnd, hiff, hf⟩ := ih seen
        refine ⟨ks, hnd, ?_, ?_⟩
        · intro k'
          rw [hiff k']
          constructor
          · rintro ⟨hns, a, ha⟩
            exact ⟨hns, a, List.mem_cons_of_mem _ ha⟩
          · rintro ⟨hns, a, ha⟩
            rcases List.mem_cons.mp ha with heq | h'
            · injection heq with h1 h2
              subst h1
              exact absurd hmem hns
            · exact ⟨hns, a, h'⟩
        · show List.Forall₂ _ ks (dedupRun ((k, e) :: rest) seen)
          unfold dedupRun
          rw [if_pos hmem]
          refine forall₂_imp_mem hf ?_
          intro k' a hk' hfirst
          have hne : k ≠ k' := by
            rintro rfl
            exact ((hiff k).mp hk').1 hmem
          rw [keyFirst_cons_ne _ _ hne]
          exact hfirst
      · obtain ⟨ks, hnd, hiff, hf⟩ := ih (k :: seen)
        refine ⟨k :: ks, ?_, ?_, ?_⟩
        · refine List.Pairwise.cons ?_ hnd
          intro k' hk' heq
          exact ((hiff k').mp hk').1 (heq ▸ List.mem_cons_self k seen)
        · intro k'
          by_cases hk : k' = k
          · subst hk
            simp only [List.mem_cons, true_or, true_iff]
            exact ⟨hmem, e, by simp⟩
          · rw [List.mem_cons, or_iff_right hk, hiff k']
            constructor
            · rintro ⟨hns, a, ha⟩
              refine ⟨fun hc => hns (List.mem_cons_of_mem _ hc),
                a, List.mem_cons_of_mem _ ha⟩
            · rintro ⟨hns, a, ha⟩
              rcases List.mem_cons.mp ha with heq | h'
              · exact absurd (congrArg Prod.fst heq) hk
              · exact ⟨by simp [hk, hns], a, h'⟩
        · show List.Forall₂ _ _ (dedupRun ((k, e) :: rest) seen)
          unfold dedupRun
          rw [if_neg hmem]
          refine List.Forall₂.cons (keyFirst_cons_self k e rest) ?_
          refine forall₂_imp_mem hf ?_
          intro k' a hk' hfirst
          have hne : k ≠ k' := by
            rintro rfl
            exact ((hiff k).mp hk').1 (List.mem_cons_self _ _)
          rw [keyFirst_cons_ne _ _ hne]
          exact hfirst

theorem pairEqUnordered_symm {α : Type} {p q : α × α}
    (h : pairEqUnordered p q) : pairEqUnordered q p := by
  rcases h with ⟨h1, h2⟩ | ⟨h1, h2⟩
  · exact Or.inl ⟨h1.symm, h2.symm⟩
  · exact Or.inr ⟨h2.symm, h1.symm⟩

theorem pairEqUnordered_trans {α : Type} {p q r : α × α}
    (h1 : pairEqUnordered p q) (h2 : pairEqUnordered q r) :
    pairEqUnordered p r := by
  rcases h1 with ⟨a1, a2⟩ | ⟨a1, a2⟩ <;> rcases h2 with ⟨b1, b2⟩ | ⟨b1, b2⟩
  · exact Or.inl ⟨a1.trans b1, a2.trans b2⟩
  · exact Or.inr ⟨a1.trans b1, a2.trans b2⟩
  · exact Or.inr ⟨a1.trans b2, a2.trans b1⟩
  · exact Or.inl ⟨a1.trans b2, a2.trans b1⟩

-- Finiteness of the cell corners

---------------------------------

theorem getR_isSome {l : List R} (hl : ∀ v ∈ l, v.isSome = true) {i : ℕ}
    (hi : i < l.length) : (getR l i).isSome = true := by
  unfold getR
  rw [List.get?_eq_getElem?, List.getElem?_eq_getElem hi]
  exact hl _ (List.getElem_mem hi)

theorem average4_isSome (a b c d : R) (ha : a.isSome = true) :
    (average4 a b c d).isSome = true := by
  rcases a with _ | qa
  · simp at ha
  rcases b with _ | qb <;> rcases c with _ | qc <;> rcases d with _ | qd <;>
    simp [average4]

theorem average2_isSome (a b : R) (ha : a.isSome = true) :
    (average2 a b).isSome = true := by
  rcases a with _ | qa
  · simp at ha
  rcases b with _ | qb <;> simp [average2]

theorem dmNeigh_isSome {vals : List R} (hvals : ∀ v ∈ vals, v.isSome = true)
    {n1 n2 i1 i2 : ℤ} (hsz : n1 * n2 = (vals.length : ℤ))
    (h1 : 0 ≤ i1) (h2 : i1 < n1) (h3 : 0 ≤ i2) (h4 : i2 < n2) (k : ℕ) :
    (dmNeigh vals n1 n2 i1 i2 k).isSome = true := by
  have key : ∀ c1 c2 : ℤ, 0 ≤ c1 → c1 ≤ n1 - 1 → 0 ≤ c2 → c2 ≤ n2 - 1 →
      (getRZ vals (c1 * n2 + c2)).isSome = true := by
    intro c1 c2 hc10 hc11 hc20 hc21
    have hmul : c1 * n2 ≤ (n1 - 1) * n2 :=
      mul_le_mul_of_nonneg_right hc11 (by omega)
    have hmul2 : (n1 - 1) * n2 = n1 * n2 - n2 := by ring
    have h0 : 0 ≤ c1 * n2 := mul_nonneg hc10 (by omega)
    unfold getRZ
    rw [if_neg (by omega)]
    exact getR_isSome hvals (by omega)
  simp only [dmNeigh]
  apply key
  · exact le_max_right _ _
  · exact max_le (le_trans (min_le_right _ _) (by omega)) (by omega)
  · exact le_max_right _ _
  · exact max_le (le_trans (min_le_right _ _) (by omega)) (by omega)

theorem R.isSome_half (a : R) : (R.half a).isSome = a.isSome := by
  cases a <;> rfl

theorem dmCornerVals_isSome (dm : DataMeshData) {e1 e2 : List ℚ}
    (hreg : DMregular dm e1 e2) {n1 n2 i1 i2 : ℤ}
    (hn1 : n1 = (dm.edges1.length : ℤ) - 1)
    (hn2 : n2 = (dm.edges2.length : ℤ) - 1)
    (h1 : 0 ≤ i1) (h2 : i1 < n1) (h3 : 0 ≤ i2) (h4 : i2 < n2) (j : ℕ) :
    (dmCornerVals dm n1 n2 i1 i2 j).1.isSome = true ∧
    (dmCornerVals dm n1 n2 i1 i2 j).2.1.isSome = true ∧
    (dmCornerVals dm n1 n2 i1 i2 j).2.2.isSome = true := by
  have hsz : n1 * n2 = (dm.vals.length : ℤ) := by
    rw [hn1, hn2]; exact hreg.hsize
  have hngh := fun k => dmNeigh_isSome hreg.hvals hsz h1 h2 h3 h4 k
  have he1s : ∀ v ∈ dm.edges1, v.isSome = true := by
    rw [hreg.he1]; intro v hv
    obtain ⟨q, _, rfl⟩ := List.mem_map.mp hv
    rfl
  have he2s : ∀ v ∈ dm.edges2, v.isSome = true := by
    rw [hreg.he2]; intro v hv
    obtain ⟨q, _, rfl⟩ := List.mem_map.mp hv
    rfl
  have he1a : (getRZ dm.edges1 i1).isSome = true := by
    unfold getRZ
    rw [if_neg (by omega)]
    exact getR_isSome he1s (by omega)
  have he1b : (getRZ dm.edges1 (i1 + 1)).isSome = true := by
    unfold getRZ
    rw [if_neg (by omega)]
    exact getR_isSome he1s (by omega)
  have he2a : (getRZ dm.edges2 i2).isSome = true := by
    unfold getRZ
    rw [if_neg (by omega)]
    exact getR_isSome he2s (by omega)
  have he2b : (getRZ dm.edges2 (i2 + 1)).isSome = true := by
    unfold getRZ
    rw [if_neg (by omega)]
    exact getR_isSome he2s (by omega)
  have hm1 : (R.half (R.add (getRZ dm.edges1 i1)
      (getRZ dm.edges1 (i1 + 1)))).isSome = true := by
    rw [R.isSome_half, R.isSome_add, he1a, he1b]; rfl
  have hm2 : (R.half (R.add (getRZ dm.edges2 i2)
      (getRZ dm.edges2 (i2 + 1)))).isSome = true := by
    rw [R.isSome_half, R.isSome_add, he2a, he2b]; rfl
  rcases j with _ | _ | _ | _ | _ | _ | _ | _ | j
  · exact ⟨average4_isSome _ _ _ _ (hngh 0), he1a, he2a⟩
  · exact ⟨average2_isSome _ _ (hngh 4), hm1, he2a⟩
  · exact ⟨average4_isSome _ _ _ _ (hngh 3), he1b, he2a⟩
  · exact ⟨average2_isSome _ _ (hngh 4), he1b, hm2⟩
  · exact ⟨average4_isSome _ _ _ _ (hngh 4), he1b, he2b⟩
  · exact ⟨average2_isSome _ _ (hngh 4), hm1, he2b⟩
  · exact ⟨average4_isSome _ _ _ _ (hngh 1), he1a, he2b⟩
  · exact ⟨average2_isSome _ _ (hngh 4), he1a, hm2⟩
  · exact ⟨hngh 4, hm1, hm2⟩

theorem Vec3.isfinite_set (v : Vec3) (i : ℕ) (r : R)
    (hv : v.isfinite = true) (hr : r.isSome = true) :
    (v.set i r).isfinite = true := by
  rcases i with _ | _ | _ | i <;>
    simp only [Vec3.set, Vec3.isfinite, Bool.and_eq_true] at hv ⊢ <;>
    simp_all

theorem dmCorner_finite (dm : DataMeshData) {e1 e2 : List ℚ}
    (hreg : DMregular dm e1 e2) {n1 n2 i1 i2 : ℤ}
    (hn1 : n1 = (dm.edges1.length : ℤ) - 1)
    (hn2 : n2 = (dm.edges2.length : ℤ) - 1)
    (h1 : 0 ≤ i1) (h2 : i1 < n1) (h3 : 0 ≤ i2) (h4 : i2 < n2) (j : ℕ) :
    (dmCorner dm n1 n2 i1 i2 j).isfinite = true := by
  obtain ⟨hv, ha, hb⟩ :=
    dmCornerVals_isSome dm hreg hn1 hn2 h1 h2 h3 h4 j
  unfold dmCorner
  refine Vec3.isfinite_set _ _ _ (Vec3.isfinite_set _ _ _
    (Vec3.isfinite_set _ _ _ (by rfl) hv) ha) hb

-- Tracker representation

-------------------------

theorem linecell_lowres_bounds (i : ℕ) :
    (linecell_lowres i).1 ≤ 1 ∧ (linecell_lowres i).2.1 ≤ 1 ∧
    (linecell_lowres i).2.2 < 4 := by
  rcases i with _ | _ | _ | i <;> simp [linecell_lowres]

theorem linecell_highres_bounds (i : ℕ) :
    (linecell_highres i).1 ≤ 1 ∧ (linecell_highres i).2.1 ≤ 1 ∧
    (linecell_highres i).2.2 < 4 := by
  rcases i with _ | _ | _ | _ | _ | _ | _ | _ | i <;> simp [linecell_highres]

theorem dmKeyZ_valid (hr : Bool) {i1 i2 n1 n2 : ℤ} {N1 N2 : ℕ}
    (hn1 : n1 = (N1 : ℤ) - 1) (hn2 : n2 = (N2 : ℤ) - 1)
    (h1 : 0 ≤ i1) (h2 : i1 < n1) (h3 : 0 ≤ i2) (h4 : i2 < n2) (i : ℕ) :
    dmKeyValid N1 N2 (dmKeyZ hr i1 i2 i) := by
  have hb : ((if hr then linecell_highres else linecell_lowres) i).1 ≤ 1 ∧
      ((if hr then linecell_highres else linecell_lowres) i).2.1 ≤ 1 ∧
      ((if hr then linecell_highres else linecell_lowres) i).2.2 < 4 := by
    cases hr
    · exact linecell_lowres_bounds i
    · exact linecell_highres_bounds i
  simp only [dmKeyZ, dmKeyValid, MAXLINEIDX]
  refine ⟨?_, ?_, hb.2.2⟩ <;> omega

theorem trackerRep_init (N1 N2 : ℕ) :
    trackerRep N1 N2 (LineCellTracker.init N1 N2) [] := by
  refine ⟨rfl, rfl, by simp [LineCellTracker.init], ?_⟩
  intro k hk
  unfold LineCellTracker.isLineSet LineCellTracker.init
  rw [List.getD_eq_getElem?_getD, List.getElem?_replicate]
  by_cases h : (k.1 * N2 + k.2.1) * MAXLINEIDX + k.2.2 < N1 * N2 * MAXLINEIDX
  · simp [h]
  · simp [h]

theorem flatIdx_lt {N1 N2 x y l : ℕ} (hx : x < N1) (hy : y < N2)
    (hl : l < MAXLINEIDX) :
    (x * N2 + y) * MAXLINEIDX + l < N1 * N2 * MAXLINEIDX := by
  have h1 : x * N2 + y < N1 * N2 := by
    have h2 : (x + 1) * N2 ≤ N1 * N2 := Nat.mul_le_mul_right _ (by omega)
    have h3 : (x + 1) * N2 = x * N2 + N2 := by ring
    omega
  have h4 : (x * N2 + y + 1) * MAXLINEIDX ≤ (N1 * N2) * MAXLINEIDX :=
    Nat.mul_le_mul_right _ (by omega)
  have h5 : (x * N2 + y + 1) * MAXLINEIDX =
      (x * N2 + y) * MAXLINEIDX + MAXLINEIDX := by ring
  omega

theorem flatIdx_inj {N2 x y l x' y' l' : ℕ} (hy : y < N2) (hy' : y' < N2)
    (hl : l < MAXLINEIDX) (hl' : l' < MAXLINEIDX)
    (h : (x * N2 + y) * MAXLINEIDX + l = (x' * N2 + y') * MAXLINEIDX + l') :
    x = x' ∧ y = y' ∧ l = l' := by
  have hM : MAXLINEIDX = 4 := rfl
  rw [hM] at h hl hl'
  have h1 : x * N2 + y = x' * N2 + y' ∧ l = l' := by omega
  have h2 : (N2 * x + y) % N2 = (N2 * x' + y') % N2 := by
    rw [Nat.mul_comm N2 x, Nat.mul_comm N2 x', h1.1]
  rw [Nat.mul_add_mod, Nat.mul_add_mod, Nat.mod_eq_of_lt hy,
    Nat.mod_eq_of_lt hy'] at h2
  subst h2
  have h3 : x * N2 = x' * N2 := by omega
  have h4 : x = x' := Nat.eq_of_mul_eq_mul_right (by omega) h3
  exact ⟨h4, rfl, h1.2⟩

theorem trackerRep_set {N1 N2 : ℕ} {t : LineCellTracker}
    {seen : List (ℕ × ℕ × ℕ)} (hrep : trackerRep N1 N2 t seen)
    {k : ℕ × ℕ × ℕ} (hk : dmKeyValid N1 N2 k) :
    trackerRep N1 N2 (t.setLine k.1 k.2.1 k.2.2) (k :: seen) := by
  obtain ⟨hn1, hn2, hlen, hiff⟩ := hrep
  obtain ⟨hk1, hk2, hk3⟩ := hk
  refine ⟨hn1, hn2, by simp [LineCellTracker.setLine, hlen], ?_⟩
  intro k' hkv'
  obtain ⟨hk1', hk2', hk3'⟩ := hkv'
  have hbase := hiff k' ⟨hk1', hk2', hk3'⟩
  simp only [LineCellTracker.isLineSet, LineCellTracker.setLine] at hbase ⊢
  rw [hn2] at hbase ⊢
  rw [List.getD_eq_getElem?_getD, List.getElem?_set]
  by_cases heq : (k.1 * N2 + k.2.1) * MAXLINEIDX + k.2.2 =
      (k'.1 * N2 + k'.2.1) * MAXLINEIDX + k'.2.2
  · obtain ⟨e1, e2, e3⟩ := flatIdx_inj hk2 hk2' hk3 hk3' heq
    have hkk : k = k' := by
      obtain ⟨a, b, c⟩ := k
      obtain ⟨a', b', c'⟩ := k'
      simp_all
    rw [if_pos heq, if_pos (by rw [hlen]; exact flatIdx_lt hk1 hk2 hk3)]
    simp [hkk]
  · rw [if_neg heq, ← List.getD_eq_getElem?_getD, hbase]
    have hne : k' ≠ k := fun hc => heq (by rw [hc])
    simp [List.mem_cons, hne]

-- The line loop as the generic dedup process

---------------------------------------------

theorem dmLineBody_eq (tr : Vec3 → Vec3) (dm : DataMeshData)
    (n1 n2 i1 i2 : ℤ) {N1 N2 : ℕ} {t : LineCellTracker}
    {seen : List (ℕ × ℕ × ℕ)} (acc : List Fragment) (i : ℕ)
    (hrep : trackerRep N1 N2 t seen)
    (hkv : dmKeyValid N1 N2 (dmKeyZ dm.highres i1 i2 i))
    (hfin : (dmFrag tr dm n1 n2 i1 i2 i).p0.isfinite = true ∧
            (dmFrag tr dm n1 n2 i1 i2 i).p1.isfinite = true) :
    dmLineBody tr dm n1 n2 i1 i2 (t, acc) i =
      if dmKeyZ dm.highres i1 i2 i ∈ seen then (t, acc)
      else (t.setLine (dmKeyZ dm.highres i1 i2 i).1
              (dmKeyZ dm.highres i1 i2 i).2.1 (dmKeyZ dm.highres i1 i2 i).2.2,
            acc ++ [dmFrag tr dm n1 n2 i1 i2 i]) := by
  have hiff := hrep.2.2.2 _ hkv
  by_cases hmem : dmKeyZ dm.highres i1 i2 i ∈ seen
  · rw [if_pos hmem]
    have hset := hiff.mpr hmem
    simp only [dmKeyZ] at hset
    simp only [dmLineBody]
    rw [hset]
    rfl
  · rw [if_neg hmem]
    have hset : t.isLineSet (dmKeyZ dm.highres i1 i2 i).1
        (dmKeyZ dm.highres i1 i2 i).2.1 (dmKeyZ dm.highres i1 i2 i).2.2
          = false := by
      rcases hb : t.isLineSet (dmKeyZ dm.highres i1 i2 i).1
        (dmKeyZ dm.highres i1 i2 i).2.1 (dmKeyZ dm.highres i1 i2 i).2.2 with _ | _
      · rfl
      · exact absurd (hiff.mp hb) hmem
    have h0 := hfin.1
    have h1 := hfin.2
    simp only [dmFrag] at h0 h1
    simp only [dmKeyZ] at hset
    simp only [dmLineBody]
    rw [hset]
    simp only [Bool.not_false, if_true, h0, h1, Bool.and_self]
    simp only [dmKeyZ, dmFrag]

theorem dmLineFold_eq (tr : Vec3 → Vec3) (dm : DataMeshData)
    (n1 n2 i1 i2 : ℤ) {N1 N2 : ℕ} :
    ∀ (is : List ℕ) (t : LineCellTracker) (seen : List (ℕ × ℕ × ℕ))
      (acc : List Fragment),
    trackerRep N1 N2 t seen →
    (∀ i ∈ is, dmKeyValid N1 N2 (dmKeyZ dm.highres i1 i2 i)) →
    (∀ i ∈ is, (dmFrag tr dm n1 n2 i1 i2 i).p0.isfinite = true ∧
               (dmFrag tr dm n1 n2 i1 i2 i).p1.isfinite = true) →
    (is.foldl (dmLineBody tr dm n1 n2 i1 i2) (t, acc)).2 =
      acc ++ (dedupRun (is.map (fun i => (dmKeyZ dm.highres i1 i2 i,
        dmLineSeg dm n1 n2 i1 i2 i, dmFrag tr dm n1 n2 i1 i2 i))) seen).map
          (fun e => e.2) ∧
    trackerRep N1 N2
      (is.foldl (dmLineBody tr dm n1 n2 i1 i2) (t, acc)).1
      (dedupSeen (is.map (fun i => (dmKeyZ dm.highres i1 i2 i,
        dmLineSeg dm n1 n2 i1 i2 i, dmFrag tr dm n1 n2 i1 i2 i))) seen) := by
  intro is
  induction is with
  | nil =>
      intro t seen acc hrep _ _
      exact ⟨by simp [dedupRun], hrep⟩
  | cons i is ih =>
      intro t seen acc hrep hkey hfin
      rw [List.foldl_cons, List.map_cons,
        dmLineBody_eq tr dm n1 n2 i1 i2 acc i hrep
          (hkey i (List.mem_cons_self _ _)) (hfin i (List.mem_cons_self _ _)),
        dedupRun_cons, dedupSeen_cons]
      by_cases hmem : dmKeyZ dm.highres i1 i2 i ∈ seen
      · rw [if_pos hmem, if_pos hmem, if_pos hmem]
        exact ih t seen acc hrep
          (fun j hj => hkey j (List.mem_cons_of_mem _ hj))
          (fun j hj => hfin j (List.mem_cons_of_mem _ hj))
      · rw [if_neg hmem, if_neg hmem, if_neg hmem]
        have hrep' := trackerRep_set hrep (hkey i (List.mem_cons_self _ _))
        obtain ⟨ha, hb⟩ := ih _ (dmKeyZ dm.highres i1 i2 i :: seen)
          (acc ++ [dmFrag tr dm n1 n2 i1 i2 i]) hrep'
          (fun j hj => hkey j (List.mem_cons_of_mem _ hj))
          (fun j hj => hfin j (List.mem_cons_of_mem _ hj))
        refine ⟨?_, hb⟩
        rw [ha, List.map_cons, List.append_assoc]
        rfl

theorem dmCellEmitted_lineseg (tr : Vec3 → Vec3) (dm : DataMeshData)
    (n1 n2 i1 i2 : ℤ) (seen : List (ℕ × ℕ × ℕ)) :
    ∀ f ∈ (dedupRun (dmCellEntries tr dm n1 n2 i1 i2) seen).map
        (fun e => e.2),
      (f.ftype == FragType.lineseg) = true := by
  intro f hf
  obtain ⟨e, he, rfl⟩ := List.mem_map.mp hf
  obtain ⟨k, hk⟩ := dedupRun_subset he
  unfold dmCellEntries at hk
  obtain ⟨i, _, heq⟩ := List.mem_map.mp hk
  have he2 : e = (dmLineSeg dm n1 n2 i1 i2 i, dmFrag tr dm n1 n2 i1 i2 i) := by
    have := congrArg Prod.snd heq
    exact this.symm
  rw [he2]
  rfl

theorem dmProcessCell_eq (tr : Vec3 → Vec3) (dm : DataMeshData)
    {e1 e2 : List ℚ} (hreg : DMregular dm e1 e2)
    (htrf : ∀ p : Vec3, p.isfinite = true → (tr p).isfinite = true)
    {n1 n2 i1 i2 : ℤ}
    (hn1 : n1 = (dm.edges1.length : ℤ) - 1)
    (hn2 : n2 = (dm.edges2.length : ℤ) - 1)
    (h1 : 0 ≤ i1) (h2 : i1 < n1) (h3 : 0 ≤ i2) (h4 : i2 < n2)
    {t : LineCellTracker} {seen : List (ℕ × ℕ × ℕ)} (acc : List Fragment)
    (hrep : trackerRep dm.edges1.length dm.edges2.length t seen) :
    (dmProcessCell tr dm n1 n2 i1 i2 (t, acc)).2.filter
        (fun f => f.ftype == FragType.lineseg) =
      acc.filter (fun f => f.ftype == FragType.lineseg) ++
        (dedupRun (dmCellEntries tr dm n1 n2 i1 i2) seen).map (fun e => e.2) ∧
    trackerRep dm.edges1.length dm.edges2.length
      (dmProcessCell tr dm n1 n2 i1 i2 (t, acc)).1
      (dedupSeen (dmCellEntries tr dm n1 n2 i1 i2) seen) := by
  have hgate : (getRZ dm.vals (i1 * n2 + i2)).isfinite = true := by
    have hsz : n1 * n2 = (dm.vals.length : ℤ) := by
      rw [hn1, hn2]; exact hreg.hsize
    have hmul : i1 * n2 ≤ (n1 - 1) * n2 :=
      mul_le_mul_of_nonneg_right (by omega) (by omega)
    have hmul2 : (n1 - 1) * n2 = n1 * n2 - n2 := by ring
    have h0 : 0 ≤ i1 * n2 := mul_nonneg h1 (by omega)
    unfold getRZ
    rw [if_neg (by omega)]
    exact getR_isSome hreg.hvals (by omega)
  have hkeys : ∀ i ∈ List.range (if dm.highres then 8 else 4),
      dmKeyValid dm.edges1.length dm.edges2.length
        (dmKeyZ dm.highres i1 i2 i) :=
    fun i _ => dmKeyZ_valid dm.highres hn1 hn2 h1 h2 h3 h4 i
  have hfins : ∀ i ∈ List.range (if dm.highres then 8 else 4),
      (dmFrag tr dm n1 n2 i1 i2 i).p0.isfinite = true ∧
      (dmFrag tr dm n1 n2 i1 i2 i).p1.isfinite = true := by
    intro i _
    constructor
    · exact htrf _ (dmCorner_finite dm hreg hn1 hn2 h1 h2 h3 h4 _)
    · exact htrf _ (dmCorner_finite dm hreg hn1 hn2 h1 h2 h3 h4 _)
  simp only [dmProcessCell, hgate, Bool.not_true, Bool.false_eq_true,
    if_false, hreg.hline, if_true, dmCellEntries]
  obtain ⟨ha, hb⟩ := dmLineFold_eq tr dm n1 n2 i1 i2
    (List.range (if dm.highres then 8 else 4)) t seen
    (if dm.hasSurface then acc ++ dmTriFrags tr dm n1 n2 i1 i2 else acc)
    hrep hkeys hfins
  constructor
  · rw [ha, List.filter_append]
    have hfilt1 : (if dm.hasSurface then acc ++ dmTriFrags tr dm n1 n2 i1 i2
        else acc).filter (fun f => f.ftype == FragType.lineseg) =
          acc.filter (fun f => f.ftype == FragType.lineseg) := by
      by_cases hs : dm.hasSurface
      · rw [if_pos hs, List.filter_append]
        have : (dmTriFrags tr dm n1 n2 i1 i2).filter
            (fun f => f.ftype == FragType.lineseg) = [] := by
          rw [List.filter_eq_nil_iff]
          intro f hf
          obtain ⟨j, _, rfl⟩ := List.mem_map.mp hf
          simp
        rw [this, List.append_nil]
      · rw [if_neg hs]
    rw [hfilt1]
    congr 1
    rw [List.filter_eq_self]
    exact dmCellEmitted_lineseg tr dm n1 n2 i1 i2 seen
  · exact hb

theorem dmRow_eq (tr : Vec3 → Vec3) (dm : DataMeshData)
    {e1 e2 : List ℚ} (hreg : DMregular dm e1 e2)
    (htrf : ∀ p : Vec3, p.isfinite = true → (tr p).isfinite = true)
    {n1 n2 i1 : ℤ}
    (hn1 : n1 = (dm.edges1.length : ℤ) - 1)
    (hn2 : n2 = (dm.edges2.length : ℤ) - 1)
    (h1 : 0 ≤ i1) (h2 : i1 < n1) :
    ∀ (l : List ℤ) (t : LineCellTracker) (seen : List (ℕ × ℕ × ℕ))
      (acc : List Fragment),
    trackerRep dm.edges1.length dm.edges2.length t seen →
    (∀ i2 ∈ l, 0 ≤ i2 ∧ i2 < n2) →
    (l.foldl (fun st i2 => dmProcessCell tr dm n1 n2 i1 i2 st)
        (t, acc)).2.filter (fun f => f.ftype == FragType.lineseg) =
      acc.filter (fun f => f.ftype == FragType.lineseg) ++
        (dedupRun (l.flatMap (fun i2 => dmCellEntries tr dm n1 n2 i1 i2))
          seen).map (fun e => e.2) ∧
    trackerRep dm.edges1.length dm.edges2.length
      (l.foldl (fun st i2 => dmProcessCell tr dm n1 n2 i1 i2 st) (t, acc)).1
      (dedupSeen (l.flatMap (fun i2 => dmCellEntries tr dm n1 n2 i1 i2))
        seen) := by
  intro l
  induction l with
  | nil =>
      intro t seen acc hrep _
      exact ⟨by simp [dedupRun], hrep⟩
  | cons i2 l ih =>
      intro t seen acc hrep hbound
      obtain ⟨hb0, hb1⟩ := hbound i2 (List.mem_cons_self _ _)
      obtain ⟨ha, hb⟩ := dmProcessCell_eq tr dm hreg htrf hn1 hn2
        h1 h2 hb0 hb1 acc hrep
      rw [List.foldl_cons, List.flatMap_cons]
      obtain ⟨ha', hb'⟩ := ih (dmProcessCell tr dm n1 n2 i1 i2 (t, acc)).1
        (dedupSeen (dmCellEntries tr dm n1 n2 i1 i2) seen)
        (dmProcessCell tr dm n1 n2 i1 i2 (t, acc)).2 hb
        (fun j hj => hbound j (List.mem_cons_of_mem _ hj))
      constructor
      · rw [ha', ha, dedupRun_append, List.map_append, List.append_assoc]
      · rw [dedupSeen_append]
        exact hb'

theorem dmGrid_eq (tr : Vec3 → Vec3) (dm : DataMeshData)
    {e1 e2 : List ℚ} (hreg : DMregular dm e1 e2)
    (htrf : ∀ p : Vec3, p.isfinite = true → (tr p).isfinite = true)
    {n1 n2 : ℤ}
    (hn1 : n1 = (dm.edges1.length : ℤ) - 1)
    (hn2 : n2 = (dm.edges2.length : ℤ) - 1) :
    ∀ (l : List ℤ) (t : LineCellTracker) (seen : List (ℕ × ℕ × ℕ))
      (acc : List Fragment),
    trackerRep dm.edges1.length dm.edges2.length t seen →
    (∀ i1 ∈ l, 0 ≤ i1 ∧ i1 < n1) →
    (l.foldl (fun st i1 => (intRange n2).foldl
        (fun st i2 => dmProcessCell tr dm n1 n2 i1 i2 st) st)
        (t, acc)).2.filter (fun f => f.ftype == FragType.lineseg) =
      acc.filter (fun f => f.ftype == FragType.lineseg) ++
        (dedupRun (l.flatMap (fun i1 => (intRange n2).flatMap
          (fun i2 => dmCellEntries tr dm n1 n2 i1 i2))) seen).map
            (fun e => e.2) ∧
    trackerRep dm.edges1.length dm.edges2.length
      (l.foldl (fun st i1 => (intRange n2).foldl
        (fun st i2 => dmProcessCell tr dm n1 n2 i1 i2 st) st) (t, acc)).1
      (dedupSeen (l.flatMap (fun i1 => (intRange n2).flatMap
        (fun i2 => dmCellEntries tr dm n1 n2 i1 i2))) seen) := by
  intro l
  induction l with
  | nil =>
      intro t seen acc hrep _
      exact ⟨by simp [dedupRun], hrep⟩
  | cons i1 l ih =>
      intro t seen acc hrep hbound
      obtain ⟨hb0, hb1⟩ := hbound i1 (List.mem_cons_self _ _)
      obtain ⟨ha, hb⟩ := dmRow_eq tr dm hreg htrf hn1 hn2 hb0 hb1
        (intRange n2) t seen acc hrep
        (fun j hj => (intRange_mem n2 j).mp hj)
      rw [List.foldl_cons, List.flatMap_cons]
      obtain ⟨ha', hb'⟩ := ih
        ((intRange n2).foldl
          (fun st i2 => dmProcessCell tr dm n1 n2 i1 i2 st) (t, acc)).1
        (dedupSeen ((intRange n2).flatMap
          (fun i2 => dmCellEntries tr dm n1 n2 i1 i2)) seen)
        ((intRange n2).foldl
          (fun st i2 => dmProcessCell tr dm n1 n2 i1 i2 st) (t, acc)).2 hb
        (fun j hj => hbound j (List.mem_cons_of_mem _ hj))
      constructor
      · rw [ha', ha, dedupRun_append, List.map_append, List.append_assoc]
      · rw [dedupSeen_append]
        exact hb'

theorem dataMeshRun_filter (tr : Vec3 → Vec3) (dm : DataMeshData)
    {e1 e2 : List ℚ} (hreg : DMregular dm e1 e2)
    (htrf : ∀ p : Vec3, p.isfinite = true → (tr p).isfinite = true) :
    (dataMeshRun tr dm).1.filter (fun f => f.ftype == FragType.lineseg) =
      (dedupRun (dmEntries tr dm ((dm.edges1.length : ℤ) - 1)
        ((dm.edges2.length : ℤ) - 1)) []).map (fun e => e.2) := by
  have hfound : dmFoundOk dm.idxval dm.idxedge1 dm.idxedge2 = true :=
    (dmFoundOk_iff _ _ _).mpr hreg.perm
  unfold dataMeshRun
  rw [hfound]
  rw [if_neg (by simp)]
  rw [if_neg (by simp [hreg.hsize])]
  rw [if_neg (by simp [hreg.hline])]
  obtain ⟨ha, _⟩ := dmGrid_eq tr dm hreg htrf rfl rfl
    (intRange ((dm.edges1.length : ℤ) - 1))
    (LineCellTracker.init dm.edges1.length dm.edges2.length) [] []
    (trackerRep_init _ _)
    (fun j hj => (intRange_mem _ j).mp hj)
  rw [ha]
  rfl

theorem dmCornerVals_coords (dm : DataMeshData) (n1 n2 : ℤ) (a b : ℕ)
    (j : ℕ) :
    (dmCornerVals dm n1 n2 (a : ℤ) (b : ℤ) j).2 = cornerCoord dm a b j := by
  have h1 : getRZ dm.edges1 (a : ℤ) = dmE1 dm a := by
    unfold getRZ dmE1
    rw [if_neg (by omega)]
    congr 1
  have h2 : getRZ dm.edges1 ((a : ℤ) + 1) = dmE1 dm (a + 1) := by
    unfold getRZ dmE1
    rw [if_neg (by omega)]
    congr 1
  have h3 : getRZ dm.edges2 (b : ℤ) = dmE2 dm b := by
    unfold getRZ dmE2
    rw [if_neg (by omega)]
    congr 1
  have h4 : getRZ dm.edges2 ((b : ℤ) + 1) = dmE2 dm (b + 1) := by
    unfold getRZ dmE2
    rw [if_neg (by omega)]
    congr 1
  rcases j with _ | _ | _ | _ | _ | _ | _ | _ | j <;>
    simp [dmCornerVals, cornerCoord, dmM1, dmM2, h1, h2, h3, h4]

theorem dmInplane_corner (dm : DataMeshData)
    (hperm : isRolePerm dm.idxval dm.idxedge1 dm.idxedge2)
    (n1 n2 i1 i2 : ℤ) (j : ℕ) :
    dmInplane dm (dmCorner dm n1 n2 i1 i2 j) =
      ((dmCornerVals dm n1 n2 i1 i2 j).2.1,
       (dmCornerVals dm n1 n2 i1 i2 j).2.2) := by
  rcases hperm with ⟨h1, h2, h3⟩ | ⟨h1, h2, h3⟩ | ⟨h1, h2, h3⟩ |
    ⟨h1, h2, h3⟩ | ⟨h1, h2, h3⟩ | ⟨h1, h2, h3⟩ <;>
    simp [dmInplane, dmCorner, Vec3.set, Vec3.get, h1, h2, h3]

theorem dmLineSeg_lowres (dm : DataMeshData)
    (hperm : isRolePerm dm.idxval dm.idxedge1 dm.idxedge2)
    (hlr : dm.highres = false) (n1 n2 : ℤ) (a b : ℕ) (i : ℕ) :
    pairEqUnordered (dmLineSeg dm n1 n2 (a : ℤ) (b : ℤ) i)
      (loEdge dm a b i) := by
  have hc : ∀ j, dmInplane dm (dmCorner dm n1 n2 (a : ℤ) (b : ℤ) j) =
      cornerCoord dm a b j := by
    intro j
    rw [dmInplane_corner dm hperm, dmCornerVals_coords]
  rcases i with _ | _ | _ | i
  · rw [show dmLineSeg dm n1 n2 (a : ℤ) (b : ℤ) 0 =
        (cornerCoord dm a b 0, cornerCoord dm a b 2) from by
      simp [dmLineSeg, hlr, linelist_lowres, hc]]
    exact Or.inl ⟨rfl, rfl⟩
  · rw [show dmLineSeg dm n1 n2 (a : ℤ) (b : ℤ) 1 =
        (cornerCoord dm a b 0, cornerCoord dm a b 6) from by
      simp [dmLineSeg, hlr, linelist_lowres, hc]]
    exact Or.inl ⟨rfl, rfl⟩
  · rw [show dmLineSeg dm n1 n2 (a : ℤ) (b : ℤ) 2 =
        (cornerCoord dm a b 4, cornerCoord dm a b 2) from by
      simp [dmLineSeg, hlr, linelist_lowres, hc]]
    exact Or.inr ⟨rfl, rfl⟩
  · rw [show dmLineSeg dm n1 n2 (a : ℤ) (b : ℤ) (i + 3) =
        (cornerCoord dm a b 4, cornerCoord dm a b 6) from by
      simp [dmLineSeg, hlr, linelist_lowres, hc]]
    exact Or.inr ⟨rfl, rfl⟩

theorem dmLineSeg_highres (dm : DataMeshData)
    (hperm : isRolePerm dm.idxval dm.idxedge1 dm.idxedge2)
    (hhr : dm.highres = true) (n1 n2 : ℤ) (a b : ℕ) (i : ℕ) :
    pairEqUnordered (dmLineSeg dm n1 n2 (a : ℤ) (b : ℤ) i)
      (hiEdge dm a b i) := by
  have hc : ∀ j, dmInplane dm (dmCorner dm n1 n2 (a : ℤ) (b : ℤ) j) =
      cornerCoord dm a b j := by
    intro j
    rw [dmInplane_corner dm hperm, dmCornerVals_coords]
  rcases i with _ | _ | _ | _ | _ | _ | _ | _ | i
  · rw [show dmLineSeg dm n1 n2 (a : ℤ) (b : ℤ) 0 =
        (cornerCoord dm a b 0, cornerCoord dm a b 1) from by
      simp [dmLineSeg, hhr, linelist_highres, hc]]
    exact Or.inl ⟨rfl, rfl⟩
  · rw [show dmLineSeg dm n1 n2 (a : ℤ) (b : ℤ) 1 =
        (cornerCoord dm a b 1, cornerCoord dm a b 2) from by
      simp [dmLineSeg, hhr, linelist_highres, hc]]
    exact Or.inl ⟨rfl, rfl⟩
  · rw [show dmLineSeg dm n1 n2 (a : ℤ) (b : ℤ) 2 =
        (cornerCoord dm a b 2, cornerCoord dm a b 3) from by
      simp [dmLineSeg, hhr, linelist_highres, hc]]
    exact Or.inl ⟨rfl, rfl⟩
  · rw [show dmLineSeg dm n1 n2 (a : ℤ) (b : ℤ) 3 =
        (cornerCoord dm a b 3, cornerCoord dm a b 4) from by
      simp [dmLineSeg, hhr, linelist_highres, hc]]
    exact Or.inl ⟨rfl, rfl⟩
  · rw [show dmLineSeg dm n1 n2 (a : ℤ) (b : ℤ) 4 =
        (cornerCoord dm a b 4, cornerCoord dm a b 5) from by
      simp [dmLineSeg, hhr, linelist_highres, hc]]
    exact Or.inr ⟨rfl, rfl⟩
  · rw [show dmLineSeg dm n1 n2 (a : ℤ) (b : ℤ) 5 =
        (cornerCoord dm a b 5, cornerCoord dm a b 6) from by
      simp [dmLineSeg, hhr, linelist_highres, hc]]
    exact Or.inr ⟨rfl, rfl⟩
  · rw [show dmLineSeg dm n1 n2 (a : ℤ) (b : ℤ) 6 =
        (cornerCoord dm a b 6, cornerCoord dm a b 7) from by
      simp [dmLineSeg, hhr, linelist_highres, hc]]
    exact Or.inr ⟨rfl, rfl⟩
  · rw [show dmLineSeg dm n1 n2 (a : ℤ) (b : ℤ) 7 =
        (cornerCoord dm a b 7, cornerCoord dm a b 0) from by
      simp [dmLineSeg, hhr, linelist_highres, hc]]
    exact Or.inr ⟨rfl, rfl⟩
  · rw [show dmLineSeg dm n1 n2 (a : ℤ) (b : ℤ) (i + 8) =
        (cornerCoord dm a b 7, cornerCoord dm a b 0) from by
      simp [dmLineSeg, hhr, linelist_highres, hc]]
    exact Or.inr ⟨rfl, rfl⟩

-- Which cells consult which dedup keys

---------------------------------------

theorem keyUsers_lowres {a b : ℤ} (ha : 0 ≤ a) (hb : 0 ≤ b) {i : ℕ}
    (hi : i < 4) (x y c : ℕ) :
    dmKeyZ false a b i = (x, y, c) ↔
      ((i = 0 ∧ a = (x : ℤ) ∧ b = (y : ℤ) ∧ c = 0) ∨
       (i = 1 ∧ a = (x : ℤ) ∧ b = (y : ℤ) ∧ c = 1) ∨
       (i = 2 ∧ a = (x : ℤ) ∧ b + 1 = (y : ℤ) ∧ c = 0) ∨
       (i = 3 ∧ a + 1 = (x : ℤ) ∧ b = (y : ℤ) ∧ c = 1)) := by
  rcases i with _ | _ | _ | _ | i
  · simp [dmKeyZ, linecell_lowres, Prod.ext_iff]
    omega
  · simp [dmKeyZ, linecell_lowres, Prod.ext_iff]
    omega
  · simp [dmKeyZ, linecell_lowres, Prod.ext_iff]
    omega
  · simp [dmKeyZ, linecell_lowres, Prod.ext_iff]
    omega
  · omega

theorem keyUsers_highres {a b : ℤ} (ha : 0 ≤ a) (hb : 0 ≤ b) {i : ℕ}
    (hi : i < 8) (x y c : ℕ) :
    dmKeyZ true a b i = (x, y, c) ↔
      ((i = 0 ∧ a = (x : ℤ) ∧ b = (y : ℤ) ∧ c = 0) ∨
       (i = 1 ∧ a = (x : ℤ) ∧ b = (y : ℤ) ∧ c = 1) ∨
       (i = 2 ∧ a + 1 = (x : ℤ) ∧ b = (y : ℤ) ∧ c = 2) ∨
       (i = 3 ∧ a + 1 = (x : ℤ) ∧ b = (y : ℤ) ∧ c = 3) ∨
       (i = 4 ∧ a = (x : ℤ) ∧ b + 1 = (y : ℤ) ∧ c = 1) ∨
       (i = 5 ∧ a = (x : ℤ) ∧ b + 1 = (y : ℤ) ∧ c = 0) ∨
       (i = 6 ∧ a = (x : ℤ) ∧ b = (y : ℤ) ∧ c = 3) ∨
       (i = 7 ∧ a = (x : ℤ) ∧ b = (y : ℤ) ∧ c = 2)) := by
  rcases i with _ | _ | _ | _ | _ | _ | _ | _ | i
  · simp [dmKeyZ, linecell_highres, Prod.ext_iff]
    omega
  · simp [dmKeyZ, linecell_highres, Prod.ext_iff]
    omega
  · simp [dmKeyZ, linecell_highres, Prod.ext_iff]
    omega
  · simp [dmKeyZ, linecell_highres, Prod.ext_iff]
    omega
  · simp [dmKeyZ, linecell_highres, Prod.ext_iff]
    omega
  · simp [dmKeyZ, linecell_highres, Prod.ext_iff]
    omega
  · simp [dmKeyZ, linecell_highres, Prod.ext_iff]
    omega
  · simp [dmKeyZ, linecell_highres, Prod.ext_iff]
    omega
  · omega

theorem mem_dmEntries {tr : Vec3 → Vec3} {dm : DataMeshData} {n1 n2 : ℤ}
    {s : (ℕ × ℕ × ℕ) × (((R × R) × (R × R)) × Fragment)} :
    s ∈ dmEntries tr dm n1 n2 ↔
      ∃ (i1 i2 : ℤ) (i : ℕ), 0 ≤ i1 ∧ i1 < n1 ∧ 0 ≤ i2 ∧ i2 < n2 ∧
        i < (if dm.highres then 8 else 4) ∧
        s = (dmKeyZ dm.highres i1 i2 i, dmLineSeg dm n1 n2 i1 i2 i,
             dmFrag tr dm n1 n2 i1 i2 i) := by
  constructor
  · intro h
    obtain ⟨i1, hi1, h⟩ := List.mem_flatMap.mp h
    obtain ⟨i2, hi2, h⟩ := List.mem_flatMap.mp h
    obtain ⟨i, hi, rfl⟩ := List.mem_map.mp h
    obtain ⟨h10, h11⟩ := (intRange_mem n1 i1).mp hi1
    obtain ⟨h20, h21⟩ := (intRange_mem n2 i2).mp hi2
    exact ⟨i1, i2, i, h10, h11, h20, h21, List.mem_range.mp hi, rfl⟩
  · rintro ⟨i1, i2, i, h10, h11, h20, h21, hi, rfl⟩
    refine List.mem_flatMap.mpr ⟨i1, (intRange_mem n1 i1).mpr ⟨h10, h11⟩, ?_⟩
    refine List.mem_flatMap.mpr ⟨i2, (intRange_mem n2 i2).mpr ⟨h20, h21⟩, ?_⟩
    exact List.mem_map.mpr ⟨i, List.mem_range.mpr hi, rfl⟩

-- Computing the first entry of a key from the traversal order

--------------------------------------------------------------

theorem keyFirst_dmEntries (tr : Vec3 → Vec3) (dm : DataMeshData)
    {n1 n2 : ℤ} {k : ℕ × ℕ × ℕ} {a b : ℤ} {j : ℕ}
    (ha0 : 0 ≤ a) (ha1 : a < n1) (hb0 : 0 ≤ b) (hb1 : b < n2)
    (hj : j < (if dm.highres then 8 else 4))
    (hkey : dmKeyZ dm.highres a b j = k)
    (hmin : ∀ i1 i2 : ℤ, ∀ i : ℕ, 0 ≤ i1 → i1 < n1 → 0 ≤ i2 → i2 < n2 →
      i < (if dm.highres then 8 else 4) → dmKeyZ dm.highres i1 i2 i = k →
      (a < i1 ∨ (a = i1 ∧ (b < i2 ∨ (b = i2 ∧ j ≤ i))))) :
    keyFirst (dmEntries tr dm n1 n2) k =
      some (dmLineSeg dm n1 n2 a b j, dmFrag tr dm n1 n2 a b j) := by
  have hcell : ∀ i1 i2 : ℤ,
      (∀ i : ℕ, i < (if dm.highres then 8 else 4) →
        dmKeyZ dm.highres i1 i2 i ≠ k) →
      listFirst (fun t => if t.1 = k then some t.2 else none)
        (dmCellEntries tr dm n1 n2 i1 i2) = none := by
    intro i1 i2 hne
    apply listFirst_eq_none
    intro s hs
    obtain ⟨i, hi, rfl⟩ := List.mem_map.mp hs
    exact if_neg (hne i (List.mem_range.mp hi))
  unfold keyFirst dmEntries
  rw [listFirst_flatMap]
  refine listFirst_intRange _ ha0 ha1 ?_ ?_
  · show listFirst _
      ((intRange n2).flatMap fun i2 => dmCellEntries tr dm n1 n2 a i2) = _
    rw [listFirst_flatMap]
    refine listFirst_intRange _ hb0 hb1 ?_ ?_
    · show listFirst _ (dmCellEntries tr dm n1 n2 a b) = _
      unfold dmCellEntries
      rw [listFirst_map]
      refine listFirst_range _ hj ?_ ?_
      · show (if dmKeyZ dm.highres a b j = k
            then some (dmLineSeg dm n1 n2 a b j, dmFrag tr dm n1 n2 a b j)
            else none) = _
        rw [if_pos hkey]
      · intro i hij
        refine if_neg ?_
        intro hc
        have hnl : i < (if dm.highres then 8 else 4) := by omega
        have h := hmin a b i ha0 ha1 hb0 hb1 hnl hc
        omega
    · intro i2 h0 hi2b
      show listFirst _ (dmCellEntries tr dm n1 n2 a i2) = none
      apply hcell
      intro i hi hc
      have h := hmin a i2 i ha0 ha1 h0 (by omega) hi hc
      omega
  · intro i1 h0 hi1a
    show listFirst _
      ((intRange n2).flatMap fun i2 => dmCellEntries tr dm n1 n2 i1 i2) = none
    rw [listFirst_flatMap]
    apply listFirst_eq_none
    intro i2 hi2
    obtain ⟨hh0, hh1⟩ := (intRange_mem n2 i2).mp hi2
    apply hcell
    intro i hi hc
    have h := hmin i1 i2 i h0 (by omega) hh0 hh1 hi hc
    omega

-- Coordinate distinctness from strictly increasing edges

---------------------------------------------------------

theorem R.add_some (x y : ℚ) : R.add (some x) (some y) = some (x + y) := rfl

theorem R.half_some (z : ℚ) :
    R.half (some z) = some ((1/2 : ℚ) * z) := rfl

theorem getR_map_some {l : List ℚ} {j : ℕ} (hj : j < l.length) :
    getR (l.map some) j = some l[j] := by
  unfold getR
  rw [List.get?_eq_getElem?, List.getElem?_map,
    List.getElem?_eq_getElem hj]
  rfl

theorem listE_lt {l : List ℚ} (hs : l.Pairwise (· < ·)) {i j : ℕ}
    (hi : i < l.length) (hj : j < l.length) (hij : i < j) : l[i] < l[j] :=
  List.pairwise_iff_getElem.mp hs i j hi hj hij

theorem listE_le {l : List ℚ} (hs : l.Pairwise (· < ·)) {i j : ℕ}
    (hi : i < l.length) (hj : j < l.length) (hij : i ≤ j) : l[i] ≤ l[j] := by
  rcases Nat.eq_or_lt_of_le hij with rfl | h
  · exact le_refl _
  · exact le_of_lt (listE_lt hs hi hj h)

theorem gridE_ne {l : List ℚ} (hs : l.Pairwise (· < ·)) {j j' : ℕ}
    (hj : j < l.length) (hj' : j' < l.length) (hne : j ≠ j') :
    getR (l.map some) j ≠ getR (l.map some) j' := by
  rw [getR_map_some hj, getR_map_some hj']
  intro h
  have h' := Option.some.inj h
  rcases Nat.lt_or_ge j j' with hlt | hge
  · exact absurd h' (ne_of_lt (listE_lt hs hj hj' hlt))
  · have hlt : j' < j := by omega
    exact absurd h'.symm (ne_of_lt (listE_lt hs hj' hj hlt))

theorem gridE_ne_mid {l : List ℚ} (hs : l.Pairwise (· < ·)) {j j' : ℕ}
    (hj : j < l.length) (hj' : j' + 1 < l.length) :
    getR (l.map some) j ≠
      R.half (R.add (getR (l.map some) j') (getR (l.map some) (j' + 1))) := by
  rw [getR_map_some hj, getR_map_some (by omega : j' < l.length),
    getR_map_some hj', R.add_some, R.half_some]
  intro h
  have h' := Option.some.inj h
  have hlt : l[j'] < l[j' + 1] := listE_lt hs (by omega) hj' (by omega)
  rcases Nat.lt_or_ge j (j' + 1) with hle | hge
  · have : l[j] ≤ l[j'] := listE_le hs hj (by omega) (by omega)
    nlinarith
  · have : l[j' + 1] ≤ l[j] := listE_le hs hj' hj (by omega)
    nlinarith

theorem gridMid_ne {l : List ℚ} (hs : l.Pairwise (· < ·)) {j j' : ℕ}
    (hj : j + 1 < l.length) (hj' : j' + 1 < l.length) (hne : j ≠ j') :
    R.half (R.add (getR (l.map some) j) (getR (l.map some) (j + 1))) ≠
    R.half (R.add (getR (l.map some) j') (getR (l.map some) (j' + 1))) := by
  rw [getR_map_some (by omega : j < l.length), getR_map_some hj,
    getR_map_some (by omega : j' < l.length), getR_map_some hj',
    R.add_some, R.add_some, R.half_some, R.half_some]
  intro h
  have h' := Option.some.inj h
  rcases Nat.lt_or_ge j j' with hlt | hge
  · have h1 : l[j] < l[j + 1] := listE_lt hs (by omega) hj (by omega)
    have h2 : l[j + 1] ≤ l[j'] := listE_le hs hj (by omega) (by omega)
    have h3 : l[j'] < l[j' + 1] := listE_lt hs (by omega) hj' (by omega)
    nlinarith
  · have hlt : j' < j := by omega
    have h1 : l[j'] < l[j' + 1] := listE_lt hs (by omega) hj' (by omega)
    have h2 : l[j' + 1] ≤ l[j] := listE_le hs hj' (by omega) (by omega)
    have h3 : l[j] < l[j + 1] := listE_lt hs (by omega) hj (by omega)
    nlinarith

theorem dmE1_inj (dm : DataMeshData) {e1 e2 : List ℚ}
    (hreg : DMregular dm e1 e2) {j j' : ℕ}
    (hj : j < e1.length) (hj' : j' < e1.length)
    (h : dmE1 dm j = dmE1 dm j') : j = j' := by
  by_contra hne
  exact gridE_ne hreg.hs1 hj hj' hne (by rw [← hreg.he1] at *; exact h)

theorem dmE2_inj (dm : DataMeshData) {e1 e2 : List ℚ}
    (hreg : DMregular dm e1 e2) {j j' : ℕ}
    (hj : j < e2.length) (hj' : j' < e2.length)
    (h : dmE2 dm j = dmE2 dm j') : j = j' := by
  by_contra hne
  exact gridE_ne hreg.hs2 hj hj' hne (by rw [← hreg.he2] at *; exact h)

theorem dmE1_ne_dmM1 (dm : DataMeshData) {e1 e2 : List ℚ}
    (hreg : DMregular dm e1 e2) {j j' : ℕ}
    (hj : j < e1.length) (hj' : j' + 1 < e1.length) :
    dmE1 dm j ≠ dmM1 dm j' := by
  unfold dmM1 dmE1
  rw [hreg.he1]
  exact gridE_ne_mid hreg.hs1 hj hj'

theorem dmE2_ne_dmM2 (dm : DataMeshData) {e1 e2 : List ℚ}
    (hreg : DMregular dm e1 e2) {j j' : ℕ}
    (hj : j < e2.length) (hj' : j' + 1 < e2.length) :
    dmE2 dm j ≠ dmM2 dm j' := by
  unfold dmM2 dmE2
  rw [hreg.he2]
  exact gridE_ne_mid hreg.hs2 hj hj'

theorem dmM1_inj (dm : DataMeshData) {e1 e2 : List ℚ}
    (hreg : DMregular dm e1 e2) {j j' : ℕ}
    (hj : j + 1 < e1.length) (hj' : j' + 1 < e1.length)
    (h : dmM1 dm j = dmM1 dm j') : j = j' := by
  by_contra hne
  refine gridMid_ne hreg.hs1 hj hj' hne ?_
  unfold dmM1 dmE1 at h
  rw [hreg.he1] at h
  exact h

theorem dmM2_inj (dm : DataMeshData) {e1 e2 : List ℚ}
    (hreg : DMregular dm e1 e2) {j j' : ℕ}
    (hj : j + 1 < e2.length) (hj' : j' + 1 < e2.length)
    (h : dmM2 dm j = dmM2 dm j') : j = j' := by
  by_contra hne
  refine gridMid_ne hreg.hs2 hj hj' hne ?_
  unfold dmM2 dmE2 at h
  rw [hreg.he2] at h
  exact h

-- Unordered-pair inequality helpers

------------------------------------

theorem pairNe_snd {s s' : (R × R) × (R × R)} (h : s.1.2 = s.2.2)
    (h' : s'.1.2 ≠ s'.2.2) : ¬ pairEqUnordered s s' := by
  rintro (⟨h1, h2⟩ | ⟨h1, h2⟩)
  · exact h' (by rw [← h1, ← h2, ← h])
  · exact h' (by rw [← h2, ← h1, h])

theorem pairEq_horiz {p q c p' q' c' : R} :
    pairEqUnordered ((p, c), (q, c)) ((p', c'), (q', c')) ↔
      (c = c' ∧ ((p = p' ∧ q = q') ∨ (p = q' ∧ q = p'))) := by
  unfold pairEqUnordered
  simp only [Prod.ext_iff]
  tauto

theorem pairEq_vert {p q c p' q' c' : R} :
    pairEqUnordered ((c, p), (c, q)) ((c', p'), (c', q')) ↔
      (c = c' ∧ ((p = p' ∧ q = q') ∨ (p = q' ∧ q = p'))) := by
  unfold pairEqUnordered
  simp only [Prod.ext_iff]
  tauto

theorem dmKey_bounds {tr : Vec3 → Vec3} {dm : DataMeshData} {n1 n2 : ℤ}
    {k : ℕ × ℕ × ℕ} {t : ((R × R) × (R × R)) × Fragment}
    (h : (k, t) ∈ dmEntries tr dm n1 n2) :
    dmKeyBounds dm.highres n1 n2 k := by
  obtain ⟨a, b, i, h10, h11, h20, h21, hi, heq⟩ := mem_dmEntries.mp h
  have hk : dmKeyZ dm.highres a b i = k := congrArg Prod.fst heq.symm
  obtain ⟨x, y, c⟩ := k
  by_cases hhr : dm.highres = true
  · rw [hhr] at hk hi ⊢
    have hi' : i < 8 := by simpa using hi
    rcases (keyUsers_highres h10 h20 hi' x y c).mp hk with
      ⟨_, h1, h2, h3⟩ | ⟨_, h1, h2, h3⟩ | ⟨_, h1, h2, h3⟩ | ⟨_, h1, h2, h3⟩ |
      ⟨_, h1, h2, h3⟩ | ⟨_, h1, h2, h3⟩ | ⟨_, h1, h2, h3⟩ | ⟨_, h1, h2, h3⟩ <;>
      simp only [dmKeyBounds, if_true] <;>
      exact ⟨by omega, fun hc => by omega, fun hc => by omega⟩
  · have hhr' : dm.highres = false := by simpa using hhr
    rw [hhr'] at hk hi ⊢
    have hi' : i < 4 := by simpa using hi
    rcases (keyUsers_lowres h10 h20 hi' x y c).mp hk with
      ⟨_, h1, h2, h3⟩ | ⟨_, h1, h2, h3⟩ | ⟨_, h1, h2, h3⟩ | ⟨_, h1, h2, h3⟩ <;>
      simp only [dmKeyBounds, Bool.false_eq_true, if_false] <;>
      exact ⟨by omega, fun hc => by omega, fun hc => by omega⟩

theorem hiEdge_eq_FCseg (dm : DataMeshData) (hhr : dm.highres = true)
    {A B : ℕ} {i : ℕ} (hi : i < 8) {x y c : ℕ}
    (hk : dmKeyZ true (A : ℤ) (B : ℤ) i = (x, y, c)) :
    hiEdge dm A B i = dmFCseg dm (x, y, c) := by
  rcases (keyUsers_highres (by omega) (by omega) hi x y c).mp hk with
    ⟨hie, h1, h2, h3⟩ | ⟨hie, h1, h2, h3⟩ | ⟨hie, h1, h2, h3⟩ |
    ⟨hie, h1, h2, h3⟩ | ⟨hie, h1, h2, h3⟩ | ⟨hie, h1, h2, h3⟩ |
    ⟨hie, h1, h2, h3⟩ | ⟨hie, h1, h2, h3⟩
  · subst hie; subst h3
    obtain rfl : x = A := by omega
    obtain rfl : y = B := by omega
    simp [hiEdge, dmFCseg, hhr]
  · subst hie; subst h3
    obtain rfl : x = A := by omega
    obtain rfl : y = B := by omega
    simp [hiEdge, dmFCseg, hhr]
  · subst hie; subst h3
    obtain rfl : x = A + 1 := by omega
    obtain rfl : y = B := by omega
    simp [hiEdge, dmFCseg, hhr]
  · subst hie; subst h3
    obtain rfl : x = A + 1 := by omega
    obtain rfl : y = B := by omega
    simp [hiEdge, dmFCseg, hhr]
  · subst hie; subst h3
    obtain rfl : x = A := by omega
    obtain rfl : y = B + 1 := by omega
    simp [hiEdge, dmFCseg, hhr]
  · subst hie; subst h3
    obtain rfl : x = A := by omega
    obtain rfl : y = B + 1 := by omega
    simp [hiEdge, dmFCseg, hhr]
  · subst hie; subst h3
    obtain rfl : x = A := by omega
    obtain rfl : y = B := by omega
    simp [hiEdge, dmFCseg, hhr]
  · subst hie; subst h3
    obtain rfl : x = A := by omega
    obtain rfl : y = B := by omega
    simp [hiEdge, dmFCseg, hhr]

theorem dmEntry_FCseg_highres (tr : Vec3 → Vec3) (dm : DataMeshData)
    (hperm : isRolePerm dm.idxval dm.idxedge1 dm.idxedge2)
    (hhr : dm.highres = true) {n1 n2 : ℤ} {k : ℕ × ℕ × ℕ}
    {t : ((R × R) × (R × R)) × Fragment}
    (hmem : (k, t) ∈ dmEntries tr dm n1 n2) :
    pairEqUnordered t.1 (dmFCseg dm k) := by
  obtain ⟨a, b, i, h10, h11, h20, h21, hi, heq⟩ := mem_dmEntries.mp hmem
  injection heq with hk ht
  subst ht
  have ha : ((a.toNat : ℕ) : ℤ) = a := by omega
  have hb : ((b.toNat : ℕ) : ℤ) = b := by omega
  have hseg := dmLineSeg_highres dm hperm hhr n1 n2 a.toNat b.toNat i
  rw [ha, hb] at hseg
  obtain ⟨x, y, c⟩ := k
  rw [hhr] at hk hi
  have hk' : dmKeyZ true ((a.toNat : ℕ) : ℤ) ((b.toNat : ℕ) : ℤ) i
      = (x, y, c) := by
    rw [ha, hb]
    exact hk.symm
  rw [hiEdge_eq_FCseg dm hhr hi hk'] at hseg
  exact hseg

theorem dmFirst_lowres (tr : Vec3 → Vec3) (dm : DataMeshData)
    {e1 e2 : List ℚ} (hreg : DMregular dm e1 e2)
    (hlr : dm.highres = false) {n1 n2 : ℤ} {k : ℕ × ℕ × ℕ}
    {t : ((R × R) × (R × R)) × Fragment}
    (h : keyFirst (dmEntries tr dm n1 n2) k = some t) :
    pairEqUnordered t.1 (dmFCseg dm k) := by
  have hmem := keyFirst_mem h
  obtain ⟨a0, b0, i0, h10, h11, h20, h21, hi0, heq⟩ := mem_dmEntries.mp hmem
  have hk : dmKeyZ dm.highres a0 b0 i0 = k := congrArg Prod.fst heq.symm
  rw [hlr] at hk hi0
  obtain ⟨x, y, c⟩ := k
  have hclass :
      (c = 0 ∧ (x : ℤ) < n1 ∧ (y : ℤ) ≤ n2 ∧ (y : ℤ) - 1 < n2 ∧ 0 < n2) ∨
      (c = 1 ∧ (y : ℤ) < n2 ∧ (x : ℤ) ≤ n1 ∧ (x : ℤ) - 1 < n1 ∧ 0 < n1) := by
    rcases (keyUsers_lowres h10 h20 hi0 x y c).mp hk with
      ⟨_, h1, h2, h3⟩ | ⟨_, h1, h2, h3⟩ | ⟨_, h1, h2, h3⟩ | ⟨_, h1, h2, h3⟩
    · exact Or.inl ⟨h3, by omega, by omega, by omega, by omega⟩
    · exact Or.inr ⟨h3, by omega, by omega, by omega, by omega⟩
    · exact Or.inl ⟨h3, by omega, by omega, by omega, by omega⟩
    · exact Or.inr ⟨h3, by omega, by omega, by omega, by omega⟩
  rcases hclass with ⟨rfl, hx1, hy1, hy2, hn2⟩ | ⟨rfl, hy1, hx1, hx2, hn1⟩
  · by_cases hy : y = 0
    · subst hy
      have hkey : dmKeyZ dm.highres ((x : ℕ) : ℤ) (((0 : ℕ) : ℕ) : ℤ) 0
          = (x, 0, 0) := by
        rw [hlr]
        exact (keyUsers_lowres (by omega) (by omega) (by omega) x 0 0).mpr
          (Or.inl ⟨rfl, rfl, by omega, rfl⟩)
      have hmin : ∀ i1 i2 : ℤ, ∀ i : ℕ, 0 ≤ i1 → i1 < n1 → 0 ≤ i2 →
          i2 < n2 → i < (if dm.highres then 8 else 4) →
          dmKeyZ dm.highres i1 i2 i = (x, 0, 0) →
          (((x : ℕ) : ℤ) < i1 ∨ (((x : ℕ) : ℤ) = i1 ∧
            ((((0 : ℕ) : ℕ) : ℤ) < i2 ∨ ((((0 : ℕ) : ℕ) : ℤ) = i2 ∧
              0 ≤ i)))) := by
        intro i1 i2 i hh1 hh2 hh3 hh4 hhi hhk
        rw [hlr] at hhi hhk
        rcases (keyUsers_lowres hh1 hh3 hhi x 0 0).mp hhk with
          ⟨_, u1, u2, u3⟩ | ⟨_, u1, u2, u3⟩ | ⟨_, u1, u2, u3⟩ |
          ⟨_, u1, u2, u3⟩ <;> omega
      have hfirst := @keyFirst_dmEntries tr dm n1 n2 (x, 0, 0)
        ((x : ℕ) : ℤ) (((0 : ℕ) : ℕ) : ℤ) 0 (by omega) (by omega) (by omega)
        (by omega) (by simp [hlr]) hkey hmin
      obtain rfl := Option.some.inj (h.symm.trans hfirst)
      show pairEqUnordered
        (dmLineSeg dm n1 n2 ((x : ℕ) : ℤ) (((0 : ℕ) : ℕ) : ℤ) 0)
        (dmFCseg dm (x, 0, 0))
      have hFC : dmFCseg dm (x, 0, 0) = segH dm x 0 := by
        simp [dmFCseg, hlr]
      rw [hFC]
      exact dmLineSeg_lowres dm hreg.perm hlr n1 n2 x 0 0
    · have hkey : dmKeyZ dm.highres ((x : ℕ) : ℤ) (((y - 1 : ℕ)) : ℤ) 2
          = (x, y, 0) := by
        rw [hlr]
        exact (keyUsers_lowres (by omega) (by omega) (by omega) x y 0).mpr
          (Or.inr (Or.inr (Or.inl ⟨rfl, rfl, by omega, rfl⟩)))
      have hmin : ∀ i1 i2 : ℤ, ∀ i : ℕ, 0 ≤ i1 → i1 < n1 → 0 ≤ i2 →
          i2 < n2 → i < (if dm.highres then 8 else 4) →
          dmKeyZ dm.highres i1 i2 i = (x, y, 0) →
          (((x : ℕ) : ℤ) < i1 ∨ (((x : ℕ) : ℤ) = i1 ∧
            ((((y - 1 : ℕ)) : ℤ) < i2 ∨ ((((y - 1 : ℕ)) : ℤ) = i2 ∧
              2 ≤ i)))) := by
        intro i1 i2 i hh1 hh2 hh3 hh4 hhi hhk
        rw [hlr] at hhi hhk
        rcases (keyUsers_lowres hh1 hh3 hhi x y 0).mp hhk with
          ⟨_, u1, u2, u3⟩ | ⟨_, u1, u2, u3⟩ | ⟨_, u1, u2, u3⟩ |
          ⟨_, u1, u2, u3⟩ <;> omega
      have hfirst := @keyFirst_dmEntries tr dm n1 n2 (x, y, 0)
        ((x : ℕ) : ℤ) (((y - 1 : ℕ)) : ℤ) 2 (by omega) (by omega) (by omega)
        (by omega) (by simp [hlr]) hkey hmin
      obtain rfl := Option.some.inj (h.symm.trans hfirst)
      show pairEqUnordered
        (dmLineSeg dm n1 n2 ((x : ℕ) : ℤ) (((y - 1 : ℕ)) : ℤ) 2)
        (dmFCseg dm (x, y, 0))
      have hFC : dmFCseg dm (x, y, 0) = segV dm (x + 1) (y - 1) := by
        simp [dmFCseg, hlr, hy]
      rw [hFC]
      exact dmLineSeg_lowres dm hreg.perm hlr n1 n2 x (y - 1) 2
  · by_cases hx : x = 0
    · subst hx
      have hkey : dmKeyZ dm.highres (((0 : ℕ) : ℕ) : ℤ) ((y : ℕ) : ℤ) 1
          = (0, y, 1) := by
        rw [hlr]
        exact (keyUsers_lowres (by omega) (by omega) (by omega) 0 y 1).mpr
          (Or.inr (Or.inl ⟨rfl, by omega, rfl, rfl⟩))
      have hmin : ∀ i1 i2 : ℤ, ∀ i : ℕ, 0 ≤ i1 → i1 < n1 → 0 ≤ i2 →
          i2 < n2 → i < (if dm.highres then 8 else 4) →
          dmKeyZ dm.highres i1 i2 i = (0, y, 1) →
          ((((0 : ℕ) : ℕ) : ℤ) < i1 ∨ ((((0 : ℕ) : ℕ) : ℤ) = i1 ∧
            (((y : ℕ) : ℤ) < i2 ∨ (((y : ℕ) : ℤ) = i2 ∧ 1 ≤ i)))) := by
        intro i1 i2 i hh1 hh2 hh3 hh4 hhi hhk
        rw [hlr] at hhi hhk
        rcases (keyUsers_lowres hh1 hh3 hhi 0 y 1).mp hhk with
          ⟨_, u1, u2, u3⟩ | ⟨_, u1, u2, u3⟩ | ⟨_, u1, u2, u3⟩ |
          ⟨_, u1, u2, u3⟩ <;> omega
      have hfirst := @keyFirst_dmEntries tr dm n1 n2 (0, y, 1)
        (((0 : ℕ) : ℕ) : ℤ) ((y : ℕ) : ℤ) 1 (by omega) (by omega) (by omega)
        (by omega) (by simp [hlr]) hkey hmin
      obtain rfl := Option.some.inj (h.symm.trans hfirst)
      show pairEqUnordered
        (dmLineSeg dm n1 n2 (((0 : ℕ) : ℕ) : ℤ) ((y : ℕ) : ℤ) 1)
        (dmFCseg dm (0, y, 1))
      have hFC : dmFCseg dm (0, y, 1) = segV dm 0 y := by
        simp [dmFCseg, hlr]
      rw [hFC]
      exact dmLineSeg_lowres dm hreg.perm hlr n1 n2 0 y 1
    · have hkey : dmKeyZ dm.highres (((x - 1 : ℕ)) : ℤ) ((y : ℕ) : ℤ) 3
          = (x, y, 1) := by
        rw [hlr]
        exact (keyUsers_lowres (by omega) (by omega) (by omega) x y 1).mpr
          (Or.inr (Or.inr (Or.inr ⟨rfl, by omega, rfl, rfl⟩)))
      have hmin : ∀ i1 i2 : ℤ, ∀ i : ℕ, 0 ≤ i1 → i1 < n1 → 0 ≤ i2 →
          i2 < n2 → i < (if dm.highres then 8 else 4) →
          dmKeyZ dm.highres i1 i2 i = (x, y, 1) →
          ((((x - 1 : ℕ)) : ℤ) < i1 ∨ ((((x - 1 : ℕ)) : ℤ) = i1 ∧
            (((y : ℕ) : ℤ) < i2 ∨ (((y : ℕ) : ℤ) = i2 ∧ 3 ≤ i)))) := by
        intro i1 i2 i hh1 hh2 hh3 hh4 hhi hhk
        rw [hlr] at hhi hhk
        rcases (keyUsers_lowres hh1 hh3 hhi x y 1).mp hhk with
          ⟨_, u1, u2, u3⟩ | ⟨_, u1, u2, u3⟩ | ⟨_, u1, u2, u3⟩ |
          ⟨_, u1, u2, u3⟩ <;> omega
      have hfirst := @keyFirst_dmEntries tr dm n1 n2 (x, y, 1)
        (((x - 1 : ℕ)) : ℤ) ((y : ℕ) : ℤ) 3 (by omega) (by omega) (by omega)
        (by omega) (by simp [hlr]) hkey hmin
      obtain rfl := Option.some.inj (h.symm.trans hfirst)
      show pairEqUnordered
        (dmLineSeg dm n1 n2 (((x - 1 : ℕ)) : ℤ) ((y : ℕ) : ℤ) 3)
        (dmFCseg dm (x, y, 1))
      have hFC : dmFCseg dm (x, y, 1) = segH dm (x - 1) (y + 1) := by
        simp [dmFCseg, hlr, hx]
      rw [hFC]
      exact dmLineSeg_lowres dm hreg.perm hlr n1 n2 (x - 1) y 3

theorem dmFirst_edge (tr : Vec3 → Vec3) (dm : DataMeshData)
    {e1 e2 : List ℚ} (hreg : DMregular dm e1 e2) {n1 n2 : ℤ}
    {k : ℕ × ℕ × ℕ} {t : ((R × R) × (R × R)) × Fragment}
    (h : keyFirst (dmEntries tr dm n1 n2) k = some t) :
    pairEqUnordered t.1 (dmFCseg dm k) := by
  by_cases hhr : dm.highres = true
  · exact dmEntry_FCseg_highres tr dm hreg.perm hhr (keyFirst_mem h)
  · exact dmFirst_lowres tr dm hreg (by simpa using hhr) h

theorem dmFCseg_ne_lowres (dm : DataMeshData) {e1 e2 : List ℚ}
    (hreg : DMregular dm e1 e2) (hlr : dm.highres = false) {n1 n2 : ℤ}
    (hn1 : n1 = (dm.edges1.length : ℤ) - 1)
    (hn2 : n2 = (dm.edges2.length : ℤ) - 1)
    {x y c x' y' c' : ℕ}
    (hb : dmKeyBounds false n1 n2 (x, y, c))
    (hb' : dmKeyBounds false n1 n2 (x', y', c'))
    (hne : (x, y, c) ≠ (x', y', c')) :
    ¬ pairEqUnordered (dmFCseg dm (x, y, c)) (dmFCseg dm (x', y', c')) := by
  have hlen1 : dm.edges1.length = e1.length := by
    rw [hreg.he1]; exact List.length_map _ _
  have hlen2 : dm.edges2.length = e2.length := by
    rw [hreg.he2]; exact List.length_map _ _
  have hL1 : n1 = (e1.length : ℤ) - 1 := by rw [hn1, hlen1]
  have hL2 : n2 = (e2.length : ℤ) - 1 := by rw [hn2, hlen2]
  simp only [dmKeyBounds, Bool.false_eq_true, if_false] at hb hb'
  obtain ⟨hbc, hb0, hb1⟩ := hb
  obtain ⟨hbc', hb0', hb1'⟩ := hb'
  rcases (show c = 0 ∨ c = 1 by omega) with rfl | rfl <;>
    rcases (show c' = 0 ∨ c' = 1 by omega) with rfl | rfl
  · obtain ⟨hxa, hya⟩ := hb0 rfl
    obtain ⟨hxa', hya'⟩ := hb0' rfl
    by_cases hy : y = 0 <;> by_cases hy' : y' = 0
    · subst hy; subst hy'
      rw [show dmFCseg dm (x, 0, 0) = segH dm x 0 from by simp [dmFCseg, hlr],
        show dmFCseg dm (x', 0, 0) = segH dm x' 0 from by
          simp [dmFCseg, hlr]]
      intro hc
      simp only [segH] at hc
      rw [pairEq_horiz] at hc
      obtain ⟨hcc, ⟨hp, hq⟩ | ⟨hp, hq⟩⟩ := hc
      · exact hne (by
          rw [dmE1_inj dm hreg (by omega) (by omega) hp])
      · have h1 := dmE1_inj dm hreg (by omega) (by omega) hp
        have h2 := dmE1_inj dm hreg (by omega) (by omega) hq
        omega
    · subst hy
      rw [show dmFCseg dm (x, 0, 0) = segH dm x 0 from by simp [dmFCseg, hlr],
        show dmFCseg dm (x', y', 0) = segV dm (x' + 1) (y' - 1) from by
          simp [dmFCseg, hlr, hy']]
      exact pairNe_snd rfl (fun heq => by
        have := dmE2_inj dm hreg (by omega) (by omega) heq
        omega)
    · subst hy'
      rw [show dmFCseg dm (x, y, 0) = segV dm (x + 1) (y - 1) from by
          simp [dmFCseg, hlr, hy],
        show dmFCseg dm (x', 0, 0) = segH dm x' 0 from by
          simp [dmFCseg, hlr]]
      intro hc
      refine pairNe_snd rfl (fun heq => ?_) (pairEqUnordered_symm hc)
      have := dmE2_inj dm hreg (by omega) (by omega) heq
      omega
    · rw [show dmFCseg dm (x, y, 0) = segV dm (x + 1) (y - 1) from by
          simp [dmFCseg, hlr, hy],
        show dmFCseg dm (x', y', 0) = segV dm (x' + 1) (y' - 1) from by
          simp [dmFCseg, hlr, hy']]
      intro hc
      simp only [segV] at hc
      rw [pairEq_vert] at hc
      obtain ⟨hcc, ⟨hp, hq⟩ | ⟨hp, hq⟩⟩ := hc
      · have h1 := dmE1_inj dm hreg (by omega) (by omega) hcc
        have h2 := dmE2_inj dm hreg (by omega) (by omega) hp
        exact hne (by
          have hxx : x = x' := by omega
          have hyy : y = y' := by omega
          rw [hxx, hyy])
      · have h1 := dmE2_inj dm hreg (by omega) (by omega) hp
        have h2 := dmE2_inj dm hreg (by omega) (by omega) hq
        omega
  · obtain ⟨hxa, hya⟩ := hb0 rfl
    obtain ⟨hxa', hya'⟩ := hb1' rfl
    by_cases hy : y = 0 <;> by_cases hx' : x' = 0
    · subst hy; subst hx'
      rw [show dmFCseg dm (x, 0, 0) = segH dm x 0 from by simp [dmFCseg, hlr],
        show dmFCseg dm (0, y', 1) = segV dm 0 y' from by
          simp [dmFCseg, hlr]]
      exact pairNe_snd rfl (fun heq => by
        have := dmE2_inj dm hreg (by omega) (by omega) heq
        omega)
    · subst hy
      rw [show dmFCseg dm (x, 0, 0) = segH dm x 0 from by simp [dmFCseg, hlr],
        show dmFCseg dm (x', y', 1) = segH dm (x' - 1) (y' + 1) from by
          simp [dmFCseg, hlr, hx']]
      intro hc
      simp only [segH] at hc
      rw [pairEq_horiz] at hc
      obtain ⟨hcc, _⟩ := hc
      have := dmE2_inj dm hreg (by omega) (by omega) hcc
      omega
    · subst hx'
      rw [show dmFCseg dm (x, y, 0) = segV dm (x + 1) (y - 1) from by
          simp [dmFCseg, hlr, hy],
        show dmFCseg dm (0, y', 1) = segV dm 0 y' from by
          simp [dmFCseg, hlr]]
      intro hc
      simp only [segV] at hc
      rw [pairEq_vert] at hc
      obtain ⟨hcc, _⟩ := hc
      have := dmE1_inj dm hreg (by omega) (by omega) hcc
      omega
    · rw [show dmFCseg dm (x, y, 0) = segV dm (x + 1) (y - 1) from by
          simp [dmFCseg, hlr, hy],
        show dmFCseg dm (x', y', 1) = segH dm (x' - 1) (y' + 1) from by
          simp [dmFCseg, hlr, hx']]
      intro hc
      refine pairNe_snd rfl (fun heq => ?_) (pairEqUnordered_symm hc)
      have := dmE2_inj dm hreg (by omega) (by omega) heq
      omega
  · obtain ⟨hxa, hya⟩ := hb1 rfl
    obtain ⟨hxa', hya'⟩ := hb0' rfl
    by_cases hx : x = 0 <;> by_cases hy' : y' = 0
    · subst hx; subst hy'
      rw [show dmFCseg dm (0, y, 1) = segV dm 0 y from by simp [dmFCseg, hlr],
        show dmFCseg dm (x', 0, 0) = segH dm x' 0 from by
          simp [dmFCseg, hlr]]
      intro hc
      refine pairNe_snd rfl (fun heq => ?_) (pairEqUnordered_symm hc)
      have := dmE2_inj dm hreg (by omega) (by omega) heq
      omega
    · subst hx
      rw [show dmFCseg dm (0, y, 1) = segV dm 0 y from by simp [dmFCseg, hlr],
        show dmFCseg dm (x', y', 0) = segV dm (x' + 1) (y' - 1) from by
          simp [dmFCseg, hlr, hy']]
      intro hc
      simp only [segV] at hc
      rw [pairEq_vert] at hc
      obtain ⟨hcc, _⟩ := hc
      have := dmE1_inj dm hreg (by omega) (by omega) hcc
      omega
    · subst hy'
      rw [show dmFCseg dm (x, y, 1) = segH dm (x - 1) (y + 1) from by
          simp [dmFCseg, hlr, hx],
        show dmFCseg dm (x', 0, 0) = segH dm x' 0 from by
          simp [dmFCseg, hlr]]
      intro hc
      simp only [segH] at hc
      rw [pairEq_horiz] at hc
      obtain ⟨hcc, _⟩ := hc
      have := dmE2_inj dm hreg (by omega) (by omega) hcc
      omega
    · rw [show dmFCseg dm (x, y, 1) = segH dm (x - 1) (y + 1) from by
          simp [dmFCseg, hlr, hx],
        show dmFCseg dm (x', y', 0) = segV dm (x' + 1) (y' - 1) from by
          simp [dmFCseg, hlr, hy']]
      exact pairNe_snd rfl (fun heq => by
        have := dmE2_inj dm hreg (by omega) (by omega) heq
        omega)
  · obtain ⟨hxa, hya⟩ := hb1 rfl
    obtain ⟨hxa', hya'⟩ := hb1' rfl
    by_cases hx : x = 0 <;> by_cases hx' : x' = 0
    · subst hx; subst hx'
      rw [show dmFCseg dm (0, y, 1) = segV dm 0 y from by simp [dmFCseg, hlr],
        show dmFCseg dm (0, y', 1) = segV dm 0 y' from by
          simp [dmFCseg, hlr]]
      intro hc
      simp only [segV] at hc
      rw [pairEq_vert] at hc
      obtain ⟨hcc, ⟨hp, hq⟩ | ⟨hp, hq⟩⟩ := hc
      · exact hne (by
          rw [dmE2_inj dm hreg (by omega) (by omega) hp])
      · have h1 := dmE2_inj dm hreg (by omega) (by omega) hp
        have h2 := dmE2_inj dm hreg (by omega) (by omega) hq
        omega
    · subst hx
      rw [show dmFCseg dm (0, y, 1) = segV dm 0 y from by simp [dmFCseg, hlr],
        show dmFCseg dm (x', y', 1) = segH dm (x' - 1) (y' + 1) from by
          simp [dmFCseg, hlr, hx']]
      intro hc
      refine pairNe_snd rfl (fun heq => ?_) (pairEqUnordered_symm hc)
      have := dmE2_inj dm hreg (by omega) (by omega) heq
      omega
    · subst hx'
      rw [show dmFCseg dm (x, y, 1) = segH dm (x - 1) (y + 1) from by
          simp [dmFCseg, hlr, hx],
        show dmFCseg dm (0, y', 1) = segV dm 0 y' from by
          simp [dmFCseg, hlr]]
      exact pairNe_snd rfl (fun heq => by
        have := dmE2_inj dm hreg (by omega) (by omega) heq
        omega)
    · rw [show dmFCseg dm (x, y, 1) = segH dm (x - 1) (y + 1) from by
          simp [dmFCseg, hlr, hx],
        show dmFCseg dm (x', y', 1) = segH dm (x' - 1) (y' + 1) from by
          simp [dmFCseg, hlr, hx']]
      intro hc
      simp only [segH] at hc
      rw [pairEq_horiz] at hc
      obtain ⟨hcc, ⟨hp, hq⟩ | ⟨hp, hq⟩⟩ := hc
      · have h0 := dmE2_inj dm hreg (by omega) (by omega) hcc
        have h1 := dmE1_inj dm hreg (by omega) (by omega) hp
        exact hne (by
          have hxx : x = x' := by omega
          have hyy : y = y' := by omega
          rw [hxx, hyy])
      · have h1 := dmE1_inj dm hreg (by omega) (by omega) hp
        have h2 := dmE1_inj dm hreg (by omega) (by omega) hq
        omega

theorem dmFCseg_ne_highres (dm : DataMeshData) {e1 e2 : List ℚ}
    (hreg : DMregular dm e1 e2) (hhr : dm.highres = true) {n1 n2 : ℤ}
    (hn1 : n1 = (dm.edges1.length : ℤ) - 1)
    (hn2 : n2 = (dm.edges2.length : ℤ) - 1)
    {x y c x' y' c' : ℕ}
    (hb : dmKeyBounds true n1 n2 (x, y, c))
    (hb' : dmKeyBounds true n1 n2 (x', y', c'))
    (hne : (x, y, c) ≠ (x', y', c')) :
    ¬ pairEqUnordered (dmFCseg dm (x, y, c)) (dmFCseg dm (x', y', c')) := by
  have hlen1 : dm.edges1.length = e1.length := by
    rw [hreg.he1]; exact List.length_map _ _
  have hlen2 : dm.edges2.length = e2.length := by
    rw [hreg.he2]; exact List.length_map _ _
  have hL1 : n1 = (e1.length : ℤ) - 1 := by rw [hn1, hlen1]
  have hL2 : n2 = (e2.length : ℤ) - 1 := by rw [hn2, hlen2]
  simp only [dmKeyBounds, if_true] at hb hb'
  obtain ⟨hbc, hb0, hb1⟩ := hb
  obtain ⟨hbc', hb0', hb1'⟩ := hb'
  have hVne1 : ∀ z : ℕ, (z : ℤ) < n2 → dmE2 dm z ≠ dmM2 dm z := by
    intro z hz
    exact dmE2_ne_dmM2 dm hreg (by omega) (by omega)
  have hVne2 : ∀ z : ℕ, (z : ℤ) < n2 → dmM2 dm z ≠ dmE2 dm (z + 1) := by
    intro z hz
    exact (dmE2_ne_dmM2 dm hreg (by omega) (by omega)).symm
  rcases (show c = 0 ∨ c = 1 ∨ c = 2 ∨ c = 3 by omega) with rfl | rfl | rfl | rfl <;>
    rcases (show c' = 0 ∨ c' = 1 ∨ c' = 2 ∨ c' = 3 by omega) with
      rfl | rfl | rfl | rfl
  · obtain ⟨hxa, hya⟩ := hb0 (Or.inl rfl)
    obtain ⟨hxa', hya'⟩ := hb0' (Or.inl rfl)
    rw [show dmFCseg dm (x, y, 0) = segH1 dm x y from by simp [dmFCseg, hhr],
      show dmFCseg dm (x', y', 0) = segH1 dm x' y' from by simp [dmFCseg, hhr]]
    intro hc
    simp only [segH1] at hc
    rw [pairEq_horiz] at hc
    obtain ⟨hcc, ⟨hp, hq⟩ | ⟨hp, hq⟩⟩ := hc
    · have h0 := dmE2_inj dm hreg (by omega) (by omega) hcc
      have h1 := dmE1_inj dm hreg (by omega) (by omega) hp
      exact hne (by rw [h0, h1])
    · exact dmE1_ne_dmM1 dm hreg (by omega) (by omega) hp
  · obtain ⟨hxa, hya⟩ := hb0 (Or.inl rfl)
    obtain ⟨hxa', hya'⟩ := hb0' (Or.inr rfl)
    rw [show dmFCseg dm (x, y, 0) = segH1 dm x y from by simp [dmFCseg, hhr],
      show dmFCseg dm (x', y', 1) = segH2 dm x' y' from by simp [dmFCseg, hhr]]
    intro hc
    simp only [segH1, segH2] at hc
    rw [pairEq_horiz] at hc
    obtain ⟨hcc, ⟨hp, hq⟩ | ⟨hp, hq⟩⟩ := hc
    · exact dmE1_ne_dmM1 dm hreg (by omega) (by omega) hp
    · have h1 := dmE1_inj dm hreg (by omega) (by omega) hp
      have h2 := dmM1_inj dm hreg (by omega) (by omega) hq
      omega
  · obtain ⟨hxa', hya'⟩ := hb1' (Or.inl rfl)
    rw [show dmFCseg dm (x, y, 0) = segH1 dm x y from by simp [dmFCseg, hhr],
      show dmFCseg dm (x', y', 2) = segV1 dm x' y' from by simp [dmFCseg, hhr]]
    exact pairNe_snd rfl (hVne1 y' (by omega))
  · obtain ⟨hxa', hya'⟩ := hb1' (Or.inr rfl)
    rw [show dmFCseg dm (x, y, 0) = segH1 dm x y from by simp [dmFCseg, hhr],
      show dmFCseg dm (x', y', 3) = segV2 dm x' y' from by simp [dmFCseg, hhr]]
    exact pairNe_snd rfl (hVne2 y' (by omega))
  · obtain ⟨hxa, hya⟩ := hb0 (Or.inr rfl)
    obtain ⟨hxa', hya'⟩ := hb0' (Or.inl rfl)
    rw [show dmFCseg dm (x, y, 1) = segH2 dm x y from by simp [dmFCseg, hhr],
      show dmFCseg dm (x', y', 0) = segH1 dm x' y' from by simp [dmFCseg, hhr]]
    intro hc
    simp only [segH1, segH2] at hc
    rw [pairEq_horiz] at hc
    obtain ⟨hcc, ⟨hp, hq⟩ | ⟨hp, hq⟩⟩ := hc
    · exact dmE1_ne_dmM1 dm hreg (by omega) (by omega) hp.symm
    · have h1 := dmM1_inj dm hreg (by omega) (by omega) hp
      have h2 := dmE1_inj dm hreg (by omega) (by omega) hq
      omega
  · obtain ⟨hxa, hya⟩ := hb0 (Or.inr rfl)
    obtain ⟨hxa', hya'⟩ := hb0' (Or.inr rfl)
    rw [show dmFCseg dm (x, y, 1) = segH2 dm x y from by simp [dmFCseg, hhr],
      show dmFCseg dm (x', y', 1) = segH2 dm x' y' from by simp [dmFCseg, hhr]]
    intro hc
    simp only [segH2] at hc
    rw [pairEq_horiz] at hc
    obtain ⟨hcc, ⟨hp, hq⟩ | ⟨hp, hq⟩⟩ := hc
    · have h0 := dmE2_inj dm hreg (by omega) (by omega) hcc
      have h1 := dmM1_inj dm hreg (by omega) (by omega) hp
      exact hne (by rw [h0, h1])
    · exact dmE1_ne_dmM1 dm hreg (by omega) (by omega) hq
  · obtain ⟨hxa', hya'⟩ := hb1' (Or.inl rfl)
    rw [show dmFCseg dm (x, y, 1) = segH2 dm x y from by simp [dmFCseg, hhr],
      show dmFCseg dm (x', y', 2) = segV1 dm x' y' from by simp [dmFCseg, hhr]]
    exact pairNe_snd rfl (hVne1 y' (by omega))
  · obtain ⟨hxa', hya'⟩ := hb1' (Or.inr rfl)
    rw [show dmFCseg dm (x, y, 1) = segH2 dm x y from by simp [dmFCseg, hhr],
      show dmFCseg dm (x', y', 3) = segV2 dm x' y' from by simp [dmFCseg, hhr]]
    exact pairNe_snd rfl (hVne2 y' (by omega))
  · obtain ⟨hxa, hya⟩ := hb1 (Or.inl rfl)
    rw [show dmFCseg dm (x, y, 2) = segV1 dm x y from by simp [dmFCseg, hhr],
      show dmFCseg dm (x', y', 0) = segH1 dm x' y' from by simp [dmFCseg, hhr]]
    intro hc
    exact pairNe_snd rfl (hVne1 y (by omega)) (pairEqUnordered_symm hc)
  · obtain ⟨hxa, hya⟩ := hb1 (Or.inl rfl)
    rw [show dmFCseg dm (x, y, 2) = segV1 dm x y from by simp [dmFCseg, hhr],
      show dmFCseg dm (x', y', 1) = segH2 dm x' y' from by simp [dmFCseg, hhr]]
    intro hc
    exact pairNe_snd rfl (hVne1 y (by omega)) (pairEqUnordered_symm hc)
  · obtain ⟨hxa, hya⟩ := hb1 (Or.inl rfl)
    obtain ⟨hxa', hya'⟩ := hb1' (Or.inl rfl)
    rw [show dmFCseg dm (x, y, 2) = segV1 dm x y from by simp [dmFCseg, hhr],
      show dmFCseg dm (x', y', 2) = segV1 dm x' y' from by simp [dmFCseg, hhr]]
    intro hc
    simp only [segV1] at hc
    rw [pairEq_vert] at hc
    obtain ⟨hcc, ⟨hp, hq⟩ | ⟨hp, hq⟩⟩ := hc
    · have h0 := dmE1_inj dm hreg (by omega) (by omega) hcc
      have h1 := dmE2_inj dm hreg (by omega) (by omega) hp
      exact hne (by rw [h0, h1])
    · exact dmE2_ne_dmM2 dm hreg (by omega) (by omega) hp
  · obtain ⟨hxa, hya⟩ := hb1 (Or.inl rfl)
    obtain ⟨hxa', hya'⟩ := hb1' (Or.inr rfl)
    rw [show dmFCseg dm (x, y, 2) = segV1 dm x y from by simp [dmFCseg, hhr],
      show dmFCseg dm (x', y', 3) = segV2 dm x' y' from by simp [dmFCseg, hhr]]
    intro hc
    simp only [segV1, segV2] at hc
    rw [pairEq_vert] at hc
    obtain ⟨hcc, ⟨hp, hq⟩ | ⟨hp, hq⟩⟩ := hc
    · exact dmE2_ne_dmM2 dm hreg (by omega) (by omega) hp
    · have h1 := dmE2_inj dm hreg (by omega) (by omega) hp
      have h2 := dmM2_inj dm hreg (by omega) (by omega) hq
      omega
  · obtain ⟨hxa, hya⟩ := hb1 (Or.inr rfl)
    rw [show dmFCseg dm (x, y, 3) = segV2 dm x y from by simp [dmFCseg, hhr],
      show dmFCseg dm (x', y', 0) = segH1 dm x' y' from by simp [dmFCseg, hhr]]
    intro hc
    exact pairNe_snd rfl (hVne2 y (by omega)) (pairEqUnordered_symm hc)
  · obtain ⟨hxa, hya⟩ := hb1 (Or.inr rfl)
    rw [show dmFCseg dm (x, y, 3) = segV2 dm x y from by simp [dmFCseg, hhr],
      show dmFCseg dm (x', y', 1) = segH2 dm x' y' from by simp [dmFCseg, hhr]]
    intro hc
    exact pairNe_snd rfl (hVne2 y (by omega)) (pairEqUnordered_symm hc)
  · obtain ⟨hxa, hya⟩ := hb1 (Or.inr rfl)
    obtain ⟨hxa', hya'⟩ := hb1' (Or.inl rfl)
    rw [show dmFCseg dm (x, y, 3) = segV2 dm x y from by simp [dmFCseg, hhr],
      show dmFCseg dm (x', y', 2) = segV1 dm x' y' from by simp [dmFCseg, hhr]]
    intro hc
    simp only [segV1, segV2] at hc
    rw [pairEq_vert] at hc
    obtain ⟨hcc, ⟨hp, hq⟩ | ⟨hp, hq⟩⟩ := hc
    · exact dmE2_ne_dmM2 dm hreg (by omega) (by omega) hp.symm
    · have h1 := dmM2_inj dm hreg (by omega) (by omega) hp
      have h2 := dmE2_inj dm hreg (by omega) (by omega) hq
      omega
  · obtain ⟨hxa, hya⟩ := hb1 (Or.inr rfl)
    obtain ⟨hxa', hya'⟩ := hb1' (Or.inr rfl)
    rw [show dmFCseg dm (x, y, 3) = segV2 dm x y from by simp [dmFCseg, hhr],
      show dmFCseg dm (x', y', 3) = segV2 dm x' y' from by simp [dmFCseg, hhr]]
    intro hc
    simp only [segV2] at hc
    rw [pairEq_vert] at hc
    obtain ⟨hcc, ⟨hp, hq⟩ | ⟨hp, hq⟩⟩ := hc
    · have h0 := dmE1_inj dm hreg (by omega) (by omega) hcc
      have h1 := dmM2_inj dm hreg (by omega) (by omega) hp
      exact hne (by rw [h0, h1])
    · exact (dmE2_ne_dmM2 dm hreg (by omega) (by omega) hp.symm).elim

theorem dmFCseg_ne (dm : DataMeshData) {e1 e2 : List ℚ}
    (hreg : DMregular dm e1 e2) {n1 n2 : ℤ}
    (hn1 : n1 = (dm.edges1.length : ℤ) - 1)
    (hn2 : n2 = (dm.edges2.length : ℤ) - 1)
    {k k' : ℕ × ℕ × ℕ}
    (hb : dmKeyBounds dm.highres n1 n2 k)
    (hb' : dmKeyBounds dm.highres n1 n2 k')
    (hne : k ≠ k') :
    ¬ pairEqUnordered (dmFCseg dm k) (dmFCseg dm k') := by
  obtain ⟨x, y, c⟩ := k
  obtain ⟨x', y', c'⟩ := k'
  by_cases hhr : dm.highres = true
  · rw [hhr] at hb hb'
    exact dmFCseg_ne_highres dm hreg hhr hn1 hn2 hb hb' hne
  · have hlr : dm.highres = false := by simpa using hhr
    rw [hlr] at hb hb'
    exact dmFCseg_ne_lowres dm hreg hlr hn1 hn2 hb hb' hne

theorem dmCoverKey_spec (tr : Vec3 → Vec3) (dm : DataMeshData)
    {e1 e2 : List ℚ} (hreg : DMregular dm e1 e2) {n1 n2 : ℤ}
    {a b : ℕ} (ha : (a : ℤ) < n1) (hb : (b : ℤ) < n2) {i : ℕ}
    (hi : i < (if dm.highres then 8 else 4)) :
    (∃ t', (dmCoverKey dm a b i, t') ∈ dmEntries tr dm n1 n2) ∧
    pairEqUnordered (dmFCseg dm (dmCoverKey dm a b i))
      (dmLineSeg dm n1 n2 (a : ℤ) (b : ℤ) i) := by
  by_cases hhr : dm.highres = true
  · have hi8 : i < 8 := by rw [hhr] at hi; exact hi
    have hkeq : dmKeyZ dm.highres ((a : ℕ) : ℤ) ((b : ℕ) : ℤ) i
        = dmCoverKey dm a b i := by
      rw [hhr]
      simp only [dmKeyZ, dmCoverKey, hhr, if_true, Prod.ext_iff]
      refine ⟨by omega, by omega, trivial⟩
    constructor
    · refine ⟨(dmLineSeg dm n1 n2 ((a : ℕ) : ℤ) ((b : ℕ) : ℤ) i,
        dmFrag tr dm n1 n2 ((a : ℕ) : ℤ) ((b : ℕ) : ℤ) i), ?_⟩
      refine mem_dmEntries.mpr ⟨((a : ℕ) : ℤ), ((b : ℕ) : ℤ), i,
        by omega, ha, by omega, hb, hi, ?_⟩
      rw [hkeq]
    · have h2 := hiEdge_eq_FCseg dm hhr hi8
        (show dmKeyZ true ((a : ℕ) : ℤ) ((b : ℕ) : ℤ) i =
          ((dmCoverKey dm a b i).1, (dmCoverKey dm a b i).2.1,
           (dmCoverKey dm a b i).2.2) from by
          rw [← hhr, hkeq])
      rw [← h2]
      exact pairEqUnordered_symm (dmLineSeg_highres dm hreg.perm hhr n1 n2 a b i)
  · have hlr : dm.highres = false := by simpa using hhr
    have hi4 : i < 4 := by rw [hlr] at hi; exact hi
    rcases i with _ | _ | _ | _ | i
    · by_cases hbz : b = 0
      · subst hbz
        have hkeq : dmKeyZ dm.highres ((a : ℕ) : ℤ) (((0 : ℕ) : ℕ) : ℤ) 0
            = dmCoverKey dm a 0 0 := by
          rw [hlr]
          simp only [dmKeyZ, dmCoverKey, hlr, linecell_lowres,
            Bool.false_eq_true, if_false, if_true, Prod.ext_iff]
          refine ⟨by omega, by omega, trivial⟩
        constructor
        · refine ⟨(dmLineSeg dm n1 n2 ((a : ℕ) : ℤ) (((0 : ℕ) : ℕ) : ℤ) 0,
            dmFrag tr dm n1 n2 ((a : ℕ) : ℤ) (((0 : ℕ) : ℕ) : ℤ) 0), ?_⟩
          refine mem_dmEntries.mpr ⟨((a : ℕ) : ℤ), (((0 : ℕ) : ℕ) : ℤ), 0,
            by omega, ha, by omega, hb, by simp [hlr], ?_⟩
          rw [hkeq]
        · have hFC : dmFCseg dm (dmCoverKey dm a 0 0) = segH dm a 0 := by
            simp [dmFCseg, dmCoverKey, hlr]
          rw [hFC]
          exact pairEqUnordered_symm
            (dmLineSeg_lowres dm hreg.perm hlr n1 n2 a 0 0)
      · have hkeq : dmKeyZ dm.highres ((a : ℕ) : ℤ) (((b - 1 : ℕ)) : ℤ) 3
            = dmCoverKey dm a b 0 := by
          rw [hlr]
          simp only [dmKeyZ, dmCoverKey, hlr, linecell_lowres,
            Bool.false_eq_true, if_false, hbz, Prod.ext_iff]
          refine ⟨by omega, by omega, trivial⟩
        constructor
        · refine ⟨(dmLineSeg dm n1 n2 ((a : ℕ) : ℤ) (((b - 1 : ℕ)) : ℤ) 3,
            dmFrag tr dm n1 n2 ((a : ℕ) : ℤ) (((b - 1 : ℕ)) : ℤ) 3), ?_⟩
          refine mem_dmEntries.mpr ⟨((a : ℕ) : ℤ), (((b - 1 : ℕ)) : ℤ), 3,
            by omega, ha, by omega, by omega, by simp [hlr], ?_⟩
          rw [hkeq]
        · have hFC : dmFCseg dm (dmCoverKey dm a b 0)
              = segH dm a (b - 1 + 1) := by
            simp [dmFCseg, dmCoverKey, hlr, hbz]
          rw [hFC, show b - 1 + 1 = b from by omega]
          exact pairEqUnordered_symm
            (dmLineSeg_lowres dm hreg.perm hlr n1 n2 a b 0)
    · by_cases haz : a = 0
      · subst haz
        have hkeq : dmKeyZ dm.highres (((0 : ℕ) : ℕ) : ℤ) ((b : ℕ) : ℤ) 1
            = dmCoverKey dm 0 b 1 := by
          rw [hlr]
          simp only [dmKeyZ, dmCoverKey, hlr, linecell_lowres,
            Bool.false_eq_true, if_false, if_true, Prod.ext_iff]
          refine ⟨by omega, by omega, trivial⟩
        constructor
        · refine ⟨(dmLineSeg dm n1 n2 (((0 : ℕ) : ℕ) : ℤ) ((b : ℕ) : ℤ) 1,
            dmFrag tr dm n1 n2 (((0 : ℕ) : ℕ) : ℤ) ((b : ℕ) : ℤ) 1), ?_⟩
          refine mem_dmEntries.mpr ⟨(((0 : ℕ) : ℕ) : ℤ), ((b : ℕ) : ℤ), 1,
            by omega, ha, by omega, hb, by simp [hlr], ?_⟩
          rw [hkeq]
        · have hFC : dmFCseg dm (dmCoverKey dm 0 b 1) = segV dm 0 b := by
            simp [dmFCseg, dmCoverKey, hlr]
          rw [hFC]
          exact pairEqUnordered_symm
            (dmLineSeg_lowres dm hreg.perm hlr n1 n2 0 b 1)
      · have hkeq : dmKeyZ dm.highres (((a - 1 : ℕ)) : ℤ) ((b : ℕ) : ℤ) 2
            = dmCoverKey dm a b 1 := by
          rw [hlr]
          simp only [dmKeyZ, dmCoverKey, hlr, linecell_lowres,
            Bool.false_eq_true, if_false, haz, Prod.ext_iff]
          refine ⟨by omega, by omega, trivial⟩
        constructor
        · refine ⟨(dmLineSeg dm n1 n2 (((a - 1 : ℕ)) : ℤ) ((b : ℕ) : ℤ) 2,
            dmFrag tr dm n1 n2 (((a - 1 : ℕ)) : ℤ) ((b : ℕ) : ℤ) 2), ?_⟩
          refine mem_dmEntries.mpr ⟨(((a - 1 : ℕ)) : ℤ), ((b : ℕ) : ℤ), 2,
            by omega, by omega, by omega, hb, by simp [hlr], ?_⟩
          rw [hkeq]
        · have hFC : dmFCseg dm (dmCoverKey dm a b 1)
              = segV dm (a - 1 + 1) b := by
            simp [dmFCseg, dmCoverKey, hlr, haz]
          rw [hFC, show a - 1 + 1 = a from by omega]
          exact pairEqUnordered_symm
            (dmLineSeg_lowres dm hreg.perm hlr n1 n2 a b 1)
    · have hkeq : dmKeyZ dm.highres ((a : ℕ) : ℤ) ((b : ℕ) : ℤ) 2
          = dmCoverKey dm a b 2 := by
        rw [hlr]
        simp only [dmKeyZ, dmCoverKey, hlr, linecell_lowres,
          Bool.false_eq_true, if_false, Prod.ext_iff]
        refine ⟨by omega, by omega, trivial⟩
      constructor
      · refine ⟨(dmLineSeg dm n1 n2 ((a : ℕ) : ℤ) ((b : ℕ) : ℤ) 2,
          dmFrag tr dm n1 n2 ((a : ℕ) : ℤ) ((b : ℕ) : ℤ) 2), ?_⟩
        refine mem_dmEntries.mpr ⟨((a : ℕ) : ℤ), ((b : ℕ) : ℤ), 2,
          by omega, ha, by omega, hb, by simp [hlr], ?_⟩
        rw [hkeq]
      · have hFC : dmFCseg dm (dmCoverKey dm a b 2)
            = segV dm (a + 1) (b + 1 - 1) := by
          simp [dmFCseg, dmCoverKey, hlr]
        rw [hFC, show b + 1 - 1 = b from by omega]
        exact pairEqUnordered_symm
          (dmLineSeg_lowres dm hreg.perm hlr n1 n2 a b 2)
    · have hkeq : dmKeyZ dm.highres ((a : ℕ) : ℤ) ((b : ℕ) : ℤ) 3
          = dmCoverKey dm a b 3 := by
        rw [hlr]
        simp only [dmKeyZ, dmCoverKey, hlr, linecell_lowres,
          Bool.false_eq_true, if_false, Prod.ext_iff]
        refine ⟨by omega, by omega, trivial⟩
      constructor
      · refine ⟨(dmLineSeg dm n1 n2 ((a : ℕ) : ℤ) ((b : ℕ) : ℤ) 3,
          dmFrag tr dm n1 n2 ((a : ℕ) : ℤ) ((b : ℕ) : ℤ) 3), ?_⟩
        refine mem_dmEntries.mpr ⟨((a : ℕ) : ℤ), ((b : ℕ) : ℤ), 3,
          by omega, ha, by omega, hb, by simp [hlr], ?_⟩
        rw [hkeq]
      · have hFC : dmFCseg dm (dmCoverKey dm a b 3)
            = segH dm (a + 1 - 1) (b + 1) := by
          simp [dmFCseg, dmCoverKey, hlr]
        rw [hFC, show a + 1 - 1 = a from by omega]
        exact pairEqUnordered_symm
          (dmLineSeg_lowres dm hreg.perm hlr n1 n2 a b 3)
    · omega

theorem dmEntry_match (tr : Vec3 → Vec3) (dm : DataMeshData)
    {e1 e2 : List ℚ} (hreg : DMregular dm e1 e2)
    (htrf : ∀ p : Vec3, p.isfinite = true → (tr p).isfinite = true)
    {n1 n2 : ℤ}
    (hn1 : n1 = (dm.edges1.length : ℤ) - 1)
    (hn2 : n2 = (dm.edges2.length : ℤ) - 1)
    {s : (ℕ × ℕ × ℕ) × (((R × R) × (R × R)) × Fragment)}
    (hs : s ∈ dmEntries tr dm n1 n2) :
    dmMatchSeg tr dm s.2.1 s.2.2 := by
  obtain ⟨i1, i2, i, h10, h11, h20, h21, hi, rfl⟩ := mem_dmEntries.mp hs
  exact ⟨dmCorner dm n1 n2 i1 i2
      ((if dm.highres then linelist_highres else linelist_lowres) i).1,
    dmCorner dm n1 n2 i1 i2
      ((if dm.highres then linelist_highres else linelist_lowres) i).2,
    dmCorner_finite dm hreg hn1 hn2 h10 h11 h20 h21 _,
    dmCorner_finite dm hreg hn1 hn2 h10 h11 h20 h21 _,
    rfl, rfl, Or.inl ⟨rfl, rfl⟩⟩

theorem dmFirst_distinct (tr : Vec3 → Vec3) (dm : DataMeshData)
    {e1 e2 : List ℚ} (hreg : DMregular dm e1 e2) {n1 n2 : ℤ}
    (hn1 : n1 = (dm.edges1.length : ℤ) - 1)
    (hn2 : n2 = (dm.edges2.length : ℤ) - 1)
    {k k' : ℕ × ℕ × ℕ} {t t' : ((R × R) × (R × R)) × Fragment}
    (hkk : k ≠ k')
    (h1 : keyFirst (dmEntries tr dm n1 n2) k = some t)
    (h2 : keyFirst (dmEntries tr dm n1 n2) k' = some t') :
    ¬ pairEqUnordered t.1 t'.1 := by
  have he1' := dmFirst_edge tr dm hreg h1
  have he2' := dmFirst_edge tr dm hreg h2
  have hbk := dmKey_bounds (keyFirst_mem h1)
  have hbk' := dmKey_bounds (keyFirst_mem h2)
  have hnee := dmFCseg_ne dm hreg hn1 hn2 hbk hbk' hkk
  intro hc
  exact hnee (pairEqUnordered_trans
    (pairEqUnordered_trans (pairEqUnordered_symm he1') hc) he2')

/-- **C1**: for every `DataMesh` over a fully regular finite grid (valid
role indices, matching value-array size, strictly increasing finite edge
arrays, all cell values finite, line style present) and every projection
that preserves finiteness and is injective on finite points, the emitted
line fragments cover each geometric grid edge of the chosen resolution's
line table exactly once: there is a duplicate-free list of in-plane edges
matched one-to-one (in order) by the emitted line fragments, every edge of
every cell's line table is covered, every covered edge comes from the
table, and no two emitted line fragments have identical endpoint pairs —
even though every shared edge is visited from both adjacent cells. -/

theorem dataMesh_line_dedup (tr : Vec3 → Vec3) (dm : DataMeshData)
    (e1 e2 : List ℚ) (hreg : DMregular dm e1 e2)
    (htrf : ∀ p : Vec3, p.isfinite = true → (tr p).isfinite = true)
    (htri : ∀ p q : Vec3, p.isfinite = true → q.isfinite = true →
      tr p = tr q → p = q) :
    ∃ es : List ((R × R) × (R × R)),
      List.Forall₂ (dmMatchSeg tr dm) es
        ((dataMeshRun tr dm).1.filter
          (fun f => f.ftype == FragType.lineseg)) ∧
      es.Pairwise (fun s s' => ¬ pairEqUnordered s s') ∧
      (∀ s ∈ es, ∃ (i1 i2 : ℤ) (i : ℕ),
        0 ≤ i1 ∧ i1 < (dm.edges1.length : ℤ) - 1 ∧
        0 ≤ i2 ∧ i2 < (dm.edges2.length : ℤ) - 1 ∧
        i < (if dm.highres then 8 else 4) ∧
        pairEqUnordered s (dmLineSeg dm ((dm.edges1.length : ℤ) - 1)
          ((dm.edges2.length : ℤ) - 1) i1 i2 i)) ∧
      (∀ (i1 i2 : ℤ) (i : ℕ),
        0 ≤ i1 → i1 < (dm.edges1.length : ℤ) - 1 →
        0 ≤ i2 → i2 < (dm.edges2.length : ℤ) - 1 →
        i < (if dm.highres then 8 else 4) →
        ∃ s ∈ es, pairEqUnordered s (dmLineSeg dm
          ((dm.edges1.length : ℤ) - 1) ((dm.edges2.length : ℤ) - 1)
          i1 i2 i)) ∧
      ((dataMeshRun tr dm).1.filter
        (fun f => f.ftype == FragType.lineseg)).Pairwise
          (fun f g => ¬ sameSegment f g) := by
  obtain ⟨ks, hnd, hiff, hf⟩ := dedupRun_spec
    (dmEntries tr dm ((dm.edges1.length : ℤ) - 1)
      ((dm.edges2.length : ℤ) - 1)) []
  have hL := dataMeshRun_filter tr dm hreg htrf
  refine ⟨(dedupRun (dmEntries tr dm ((dm.edges1.length : ℤ) - 1)
    ((dm.edges2.length : ℤ) - 1)) []).map (fun e => e.1),
    ?_, ?_, ?_, ?_, ?_⟩
  · rw [hL, List.forall₂_map_left_iff, List.forall₂_map_right_iff]
    rw [List.forall₂_same]
    intro t ht
    obtain ⟨k, hk⟩ := dedupRun_subset ht
    exact dmEntry_match tr dm hreg htrf rfl rfl hk
  · rw [List.pairwise_map]
    refine pairwise_of_forall₂ hf hnd ?_
    intro k k' t t' hkk h1 h2
    exact dmFirst_distinct tr dm hreg rfl rfl hkk h1 h2
  · intro s hs
    obtain ⟨t, ht, rfl⟩ := List.mem_map.mp hs
    obtain ⟨k, hk⟩ := dedupRun_subset ht
    obtain ⟨i1, i2, i, h10, h11, h20, h21, hi, heq⟩ := mem_dmEntries.mp hk
    injection heq with hk1 hk2
    refine ⟨i1, i2, i, h10, h11, h20, h21, hi, ?_⟩
    rw [hk2]
    exact Or.inl ⟨rfl, rfl⟩
  · intro i1 i2 i h10 h11 h20 h21 hi
    have hc1 : ((i1.toNat : ℕ) : ℤ) = i1 := by omega
    have hc2 : ((i2.toNat : ℕ) : ℤ) = i2 := by omega
    obtain ⟨⟨t', hmem'⟩, hFCcov⟩ := dmCoverKey_spec tr dm hreg
      (show ((i1.toNat : ℕ) : ℤ) < (dm.edges1.length : ℤ) - 1 by omega)
      (show ((i2.toNat : ℕ) : ℤ) < (dm.edges2.length : ℤ) - 1 by omega) hi
    have hks : dmCoverKey dm i1.toNat i2.toNat i ∈ ks :=
      (hiff _).mpr ⟨by simp, t', hmem'⟩
    obtain ⟨t, htD, hkf⟩ := forall₂_mem_left hf hks
    have hFC := dmFirst_edge tr dm hreg hkf
    refine ⟨t.1, List.mem_map.mpr ⟨t, htD, rfl⟩, ?_⟩
    rw [hc1, hc2] at hFCcov
    exact pairEqUnordered_trans hFC hFCcov
  · rw [hL, List.pairwise_map]
    refine pairwise_of_forall₂ hf hnd ?_
    intro k k' t t' hkk h1 h2 hsame
    have hne := dmFirst_distinct tr dm hreg rfl rfl hkk h1 h2
    obtain ⟨P, Q, hPf, hQf, hp0, hp1, hpe⟩ :=
      dmEntry_match tr dm hreg htrf rfl rfl (keyFirst_mem h1)
    obtain ⟨P', Q', hPf', hQf', hp0', hp1', hpe'⟩ :=
      dmEntry_match tr dm hreg htrf rfl rfl (keyFirst_mem h2)
    rcases hsame with ⟨hA, hB⟩ | ⟨hA, hB⟩
    · have hPP : P = P' := htri _ _ hPf hPf'
        (by rw [← hp0, ← hp0']; exact hA)
      have hQQ : Q = Q' := htri _ _ hQf hQf'
        (by rw [← hp1, ← hp1']; exact hB)
      apply hne
      refine pairEqUnordered_trans (pairEqUnordered_symm hpe) ?_
      rw [hPP, hQQ]
      exact hpe'
    · have hPQ : P = Q' := htri _ _ hPf hQf'
        (by rw [← hp0, ← hp1']; exact hA)
      have hQP : Q = P' := htri _ _ hQf hPf'
        (by rw [← hp1, ← hp0']; exact hB)
      apply hne
      refine pairEqUnordered_trans (pairEqUnordered_symm hpe)
        (pairEqUnordered_trans ?_ hpe')
      rw [hPQ, hQP]
      exact Or.inr ⟨rfl, rfl⟩

theorem dataMesh_line_dedup_witness :
    ∃ es : List ((R × R) × (R × R)),
      List.Forall₂ (dmMatchSeg id dmExample) es
        ((dataMeshRun id dmExample).1.filter
          (fun f => f.ftype == FragType.lineseg)) ∧
      es.Pairwise (fun s s' => ¬ pairEqUnordered s s') ∧
      (∀ s ∈ es, ∃ (i1 i2 : ℤ) (i : ℕ),
        0 ≤ i1 ∧ i1 < (dmExample.edges1.length : ℤ) - 1 ∧
        0 ≤ i2 ∧ i2 < (dmExample.edges2.length : ℤ) - 1 ∧
        i < (if dmExample.highres then 8 else 4) ∧
        pairEqUnordered s (dmLineSeg dmExample
          ((dmExample.edges1.length : ℤ) - 1)
          ((dmExample.edges2.length : ℤ) - 1) i1 i2 i)) ∧
      (∀ (i1 i2 : ℤ) (i : ℕ),
        0 ≤ i1 → i1 < (dmExample.edges1.length : ℤ) - 1 →
        0 ≤ i2 → i2 < (dmExample.edges2.length : ℤ) - 1 →
        i < (if dmExample.highres then 8 else 4) →
        ∃ s ∈ es, pairEqUnordered s (dmLineSeg dmExample
          ((dmExample.edges1.length : ℤ) - 1)
          ((dmExample.edges2.length : ℤ) - 1) i1 i2 i)) ∧
      ((dataMeshRun id dmExample).1.filter
        (fun f => f.ftype == FragType.lineseg)).Pairwise
          (fun f g => ¬ sameSegment f g) :=
  dataMesh_line_dedup id dmExample [0, 1, 2] [0, 1, 2]
    ⟨by decide, rfl, rfl, by decide, by decide, by decide, by decide, rfl⟩
    (fun p h => h) (fun p q hp hq h => h)
